import Mathlib

/-!
Verification development for the voxformat Python library
(src/implementations/python/src/voxformat/): manifest model
(manifest.py), validator (validator.py), archive reader (reader.py) and
writer (writer.py), shallowly embedded in Lean 4.

JSON values are modelled by the inductive `Json` below; Python dicts are
ordered association lists (insertion order), JSON numbers are modelled as
integers (no claim performs arithmetic on them, so the restriction is
inessential).  Python `json.dumps(..., indent=2, sort_keys=True,
ensure_ascii=False)` is modelled by `Json.dumps`; `json.loads ∘ json.dumps`
is the identity on this value domain up to the recursive key sorting that
`sort_keys=True` performs, which is modelled by `Json.canon`.
-/

/-- A JSON value as produced by Python's `json.loads`: objects keep their
key order as an association list, numbers are modelled as integers. -/
inductive Json where
  | null
  | bool (b : Bool)
  | num (n : Int)
  | str (s : String)
  | arr (items : List Json)
  | obj (entries : List (String × Json))

mutual
/-- Structural equality test on JSON values. -/
def Json.beq : Json → Json → Bool
  | .null, .null => true
  | .bool a, .bool b => a == b
  | .num a, .num b => a == b
  | .str a, .str b => a == b
  | .arr a, .arr b => Json.beqList a b
  | .obj a, .obj b => Json.beqEntries a b
  | _, _ => false

/-- Pointwise `Json.beq` on arrays. -/
def Json.beqList : List Json → List Json → Bool
  | [], [] => true
  | x :: xs, y :: ys => Json.beq x y && Json.beqList xs ys
  | _, _ => false

/-- Pointwise key-and-value equality test on object entry lists. -/
def Json.beqEntries : List (String × Json) → List (String × Json) → Bool
  | [], [] => true
  | (k, v) :: xs, (k', v') :: ys => k == k' && Json.beq v v' && Json.beqEntries xs ys
  | _, _ => false
end

mutual
theorem Json.eq_of_beq : ∀ {a b : Json}, Json.beq a b = true → a = b
  | .null, b, h => by cases b <;> simp_all [Json.beq]
  | .bool x, b, h => by cases b <;> simp_all [Json.beq]
  | .num x, b, h => by cases b <;> simp_all [Json.beq]
  | .str x, b, h => by cases b <;> simp_all [Json.beq]
  | .arr xs, b, h => by
    cases b <;> simp only [Json.beq] at h
    case arr ys => exact congrArg Json.arr (Json.eqList_of_beqList h)
    all_goals exact absurd h (by simp)
  | .obj xs, b, h => by
    cases b <;> simp only [Json.beq] at h
    case obj ys => exact congrArg Json.obj (Json.eqEntries_of_beqEntries h)
    all_goals exact absurd h (by simp)

theorem Json.eqList_of_beqList : ∀ {a b : List Json}, Json.beqList a b = true → a = b
  | [], [], _ => rfl
  | [], _ :: _, h => by simp [Json.beqList] at h
  | _ :: _, [], h => by simp [Json.beqList] at h
  | x :: xs, y :: ys, h => by
    simp only [Json.beqList, Bool.and_eq_true] at h
    exact congrArg₂ (· :: ·) (Json.eq_of_beq h.1) (Json.eqList_of_beqList h.2)

theorem Json.eqEntries_of_beqEntries :
    ∀ {a b : List (String × Json)}, Json.beqEntries a b = true → a = b
  | [], [], _ => rfl
  | [], _ :: _, h => by simp [Json.beqEntries] at h
  | _ :: _, [], h => by simp [Json.beqEntries] at h
  | (k, v) :: xs, (k', v') :: ys, h => by
    simp only [Json.beqEntries, Bool.and_eq_true, beq_iff_eq] at h
    have h1 : (k, v) = (k', v') := by
      rw [h.1.1]; exact congrArg (Prod.mk k') (Json.eq_of_beq h.1.2)
    exact congrArg₂ (· :: ·) h1 (Json.eqEntries_of_beqEntries h.2)
end

mutual
theorem Json.beq_refl : ∀ a : Json, Json.beq a a = true
  | .null => rfl
  | .bool x => by simp [Json.beq]
  | .num x => by simp [Json.beq]
  | .str x => by simp [Json.beq]
  | .arr xs => by simp only [Json.beq]; exact Json.beqList_refl xs
  | .obj xs => by simp only [Json.beq]; exact Json.beqEntries_refl xs

theorem Json.beqList_refl : ∀ a : List Json, Json.beqList a a = true
  | [] => rfl
  | x :: xs => by
    simp only [Json.beqList, Bool.and_eq_true]
    exact ⟨Json.beq_refl x, Json.beqList_refl xs⟩

theorem Json.beqEntries_refl : ∀ a : List (String × Json), Json.beqEntries a a = true
  | [] => rfl
  | (k, v) :: xs => by
    simp only [Json.beqEntries, Bool.and_eq_true, beq_iff_eq]
    exact ⟨⟨trivial, Json.beq_refl v⟩, Json.beqEntries_refl xs⟩
end

instance : DecidableEq Json := fun a b =>
  decidable_of_iff (Json.beq a b = true)
    ⟨Json.eq_of_beq, fun h => h ▸ Json.beq_refl a⟩

/-- Python truthiness of a JSON value (`if data['prosody']:` style tests):
`None`, `False`, `0`, `""`, `[]` and `{}` are falsy, everything else truthy. -/
def Json.truthy : Json → Bool
  | .null => false
  | .bool b => b
  | .num n => n != 0
  | .str s => s != ""
  | .arr items => items != []
  | .obj entries => entries != []

/-- First-match key lookup in an association list, modelling Python
`dict.get` / `in` on dicts parsed from JSON (keys are unique there). -/
def lookupKey (l : List (String × Json)) (k : String) : Option Json :=
  match l with
  | [] => none
  | (k', v) :: t => if k' = k then some v else lookupKey t k

mutual
/-- `manifest.py` `_clean_dict`: recursively drop `None`-valued entries from
objects (arrays keep their `None` elements; only dict values are filtered). -/
def Json.clean : Json → Json
  | .null => .null
  | .bool b => .bool b
  | .num n => .num n
  | .str s => .str s
  | .arr items => .arr (Json.cleanList items)
  | .obj entries => .obj (Json.cleanEntries entries)

/-- `_clean_dict` mapped over the elements of a JSON array. -/
def Json.cleanList : List Json → List Json
  | [] => []
  | x :: xs => Json.clean x :: Json.cleanList xs

/-- `_clean_dict` on the items of a dict: entries whose value is `None`
are dropped, the remaining values are cleaned recursively. -/
def Json.cleanEntries : List (String × Json) → List (String × Json)
  | [] => []
  | (k, v) :: xs =>
    if v = Json.null then Json.cleanEntries xs
    else (k, Json.clean v) :: Json.cleanEntries xs
end

/-- Code-point comparison of strings as lists of characters, modelling how
Python's `sorted` orders `str` keys (lexicographic by code point). -/
def strLeB : List Char → List Char → Bool
  | [], _ => true
  | _ :: _, [] => false
  | c :: cs, d :: ds =>
    if c.toNat < d.toNat then true
    else if d.toNat < c.toNat then false
    else strLeB cs ds

/-- Key order on object entries, used by `sort_keys=True`. -/
def entryLe (a b : String × Json) : Prop := strLeB a.1.data b.1.data = true

instance : DecidableRel entryLe := fun a b => by
  unfold entryLe; infer_instance

/-- Stable sort of object entries by key, as `json.dumps(..., sort_keys=True)`
performs at every nesting level. -/
def sortEntriesByKey (l : List (String × Json)) : List (String × Json) :=
  List.insertionSort entryLe l

mutual
/-- Recursively sort every object's entries by key.  `Json.canon j` is the
value tree that `json.loads` returns when fed `json.dumps(j, sort_keys=True)`:
serialization emits each object's keys in sorted order and parsing reads
them back in file order, all scalars and array orders surviving unchanged. -/
def Json.canon : Json → Json
  | .null => .null
  | .bool b => .bool b
  | .num n => .num n
  | .str s => .str s
  | .arr items => .arr (Json.canonList items)
  | .obj entries => .obj (sortEntriesByKey (Json.canonEntries entries))

/-- `Json.canon` mapped over array elements. -/
def Json.canonList : List Json → List Json
  | [] => []
  | x :: xs => Json.canon x :: Json.canonList xs

/-- `Json.canon` mapped over the values of object entries. -/
def Json.canonEntries : List (String × Json) → List (String × Json)
  | [] => []
  | (k, v) :: xs => (k, Json.canon v) :: Json.canonEntries xs
end

mutual
/-- Every object in the tree has pairwise distinct keys.  This invariant
holds for every value obtainable from a Python dict (dict keys are unique). -/
def Json.nodupKeysRec : Json → Bool
  | .null => true
  | .bool _ => true
  | .num _ => true
  | .str _ => true
  | .arr items => Json.nodupKeysRecList items
  | .obj entries =>
    (entries.map Prod.fst).Nodup && Json.nodupKeysRecEntries entries

/-- `Json.nodupKeysRec` over array elements. -/
def Json.nodupKeysRecList : List Json → Bool
  | [] => true
  | x :: xs => Json.nodupKeysRec x && Json.nodupKeysRecList xs

/-- `Json.nodupKeysRec` over object entry values. -/
def Json.nodupKeysRecEntries : List (String × Json) → Bool
  | [] => true
  | (_, v) :: xs => Json.nodupKeysRec v && Json.nodupKeysRecEntries xs
end

/-- JSON string escaping as `json.dumps(..., ensure_ascii=False)` performs it:
quote, backslash and control characters are escaped, everything else is
emitted literally. -/
def jsonEscapeChar (c : Char) : String :=
  if c = '"' then "\\\""
  else if c = '\\' then "\\\\"
  else if c = '\n' then "\\n"
  else if c = '\t' then "\\t"
  else if c = '\r' then "\\r"
  else if c = Char.ofNat 8 then "\\b"
  else if c = Char.ofNat 12 then "\\f"
  else if c.toNat < 32 then
    "\\u00" ++ String.mk [Nat.digitChar (c.toNat / 16), Nat.digitChar (c.toNat % 16)]
  else String.mk [c]

/-- A JSON string literal with surrounding quotes. -/
def jsonQuote (s : String) : String :=
  "\"" ++ String.join (s.data.map jsonEscapeChar) ++ "\""

/-- `n` levels of 2-space indentation (`indent=2`). -/
def jsonIndent (n : Nat) : String := String.mk (List.replicate (2 * n) ' ')

mutual
/-- Rendering of a JSON tree in Python's `json.dumps(indent=2)` layout,
WITHOUT sorting: keys are emitted in the order they appear.  `Json.dumps`
below composes this with `Json.canon`, which is exactly what
`sort_keys=True` produces (dumps sorts each object's items before
rendering them, i.e. it renders the recursively key-sorted tree). -/
def Json.rawDump : Nat → Json → String
  | _, .null => "null"
  | _, .bool true => "true"
  | _, .bool false => "false"
  | _, .num n => toString n
  | _, .str s => jsonQuote s
  | _, .arr [] => "[]"
  | ind, .arr (x :: xs) =>
    "[\n" ++ String.intercalate ",\n" (Json.rawDumpItems (ind + 1) (x :: xs)) ++
      "\n" ++ jsonIndent ind ++ "]"
  | _, .obj [] => "\x7b\x7d"
  | ind, .obj (e :: es) =>
    "\x7b\n" ++ String.intercalate ",\n" (Json.rawDumpEntries (ind + 1) (e :: es)) ++
      "\n" ++ jsonIndent ind ++ "\x7d"

/-- Array items, each rendered on its own indented line. -/
def Json.rawDumpItems : Nat → List Json → List String
  | _, [] => []
  | ind, x :: xs => (jsonIndent ind ++ Json.rawDump ind x) :: Json.rawDumpItems ind xs

/-- Object entries, each rendered as an indented `"key": value` line. -/
def Json.rawDumpEntries : Nat → List (String × Json) → List String
  | _, [] => []
  | ind, (k, v) :: es =>
    (jsonIndent ind ++ jsonQuote k ++ ": " ++ Json.rawDump ind v) ::
      Json.rawDumpEntries ind es
end

/-- `json.dumps(j, indent=2, sort_keys=True, ensure_ascii=False)`:
`sort_keys=True` sorts each object's items at rendering time, which is the
same string as rendering the recursively key-sorted tree. -/
def Json.dumps (j : Json) : String := Json.rawDump 0 (Json.canon j)

example : Json.dumps (.obj [("b", .num 1), ("a", .null)]) =
    "\x7b\n  \"a\": null,\n  \"b\": 1\n\x7d" := by rfl

example : Json.clean (.obj [("x", .obj [("a", .null), ("b", .num 2)]), ("y", .arr [.null])]) =
    .obj [("x", .obj [("b", .num 2)]), ("y", .arr [.null])] := by rfl

/-!
### Manifest data model (`manifest.py`)

One Lean structure per Python dataclass, same field names and order.
Python `Optional[...]` becomes `Option ...`; `Dict[str, str]` becomes an
association list (Python dicts preserve insertion order and have unique
keys); `float` (only `duration_seconds`) is modelled as `Int`, since no
claim performs arithmetic on it; the `Dict[str, Any]` `extensions` field
is an opaque `Json` value.
-/

/-- `manifest.py` `Source`. -/
structure Source where
  work : Option String := none
  format : Option String := none
  file : Option String := none
deriving DecidableEq

/-- `manifest.py` `Character`. -/
structure Character where
  role : Option String := none
  emotional_range : Option (List String) := none
  relationships : Option (List (String × String)) := none
  source : Option Source := none
deriving DecidableEq

/-- `manifest.py` `Provenance`. -/
structure Provenance where
  method : Option String := none
  engine : Option String := none
  consent : Option String := none
  license : Option String := none
  notes : Option String := none
deriving DecidableEq

/-- `manifest.py` `Prosody`. -/
structure Prosody where
  pitch_base : Option String := none
  pitch_range : Option String := none
  rate : Option String := none
  energy : Option String := none
  emotion_default : Option String := none
deriving DecidableEq

/-- `manifest.py` `ReferenceAudio`. -/
structure ReferenceAudio where
  file : String := ""
  transcript : String := ""
  language : Option String := none
  duration_seconds : Option Int := none
  context : Option String := none
deriving DecidableEq

/-- `manifest.py` `Voice`. -/
structure Voice where
  name : String := ""
  description : String := ""
  language : Option String := none
  gender : Option String := none
  age_range : Option (List Int) := none
  tags : Option (List String) := none
deriving DecidableEq

/-- `manifest.py` `VoxManifest`. -/
structure VoxManifest where
  vox_version : String := ""
  id : String := ""
  created : String := ""
  voice : Voice := {}
  prosody : Option Prosody := none
  reference_audio : Option (List ReferenceAudio) := none
  character : Option Character := none
  provenance : Option Provenance := none
  extensions : Option Json := none
deriving DecidableEq

/-- Embed an optional value into JSON; `none` becomes JSON `null`, exactly
how `dataclasses.asdict` renders an absent (`None`) optional field. -/
def oJson (f : α → Json) : Option α → Json
  | none => Json.null
  | some a => f a

/-- The entry list of `dataclasses.asdict` on `Source`: fields in
declaration order. -/
def Source.asdictEntries (s : Source) : List (String × Json) :=
  [("work", oJson .str s.work), ("format", oJson .str s.format),
   ("file", oJson .str s.file)]

/-- `dataclasses.asdict` on `Source`. -/
def Source.asdict (s : Source) : Json := .obj s.asdictEntries

/-- The entry list of `dataclasses.asdict` on `Character` (nested `Source`
becomes a dict, `relationships` stays a dict, `emotional_range` a list). -/
def Character.asdictEntries (c : Character) : List (String × Json) :=
  [("role", oJson .str c.role),
   ("emotional_range", oJson (fun l => .arr (l.map .str)) c.emotional_range),
   ("relationships", oJson (fun l => .obj (l.map fun e => (e.1, .str e.2))) c.relationships),
   ("source", oJson Source.asdict c.source)]

/-- `dataclasses.asdict` on `Character`. -/
def Character.asdict (c : Character) : Json := .obj c.asdictEntries

/-- The entry list of `dataclasses.asdict` on `Provenance`. -/
def Provenance.asdictEntries (p : Provenance) : List (String × Json) :=
  [("method", oJson .str p.method), ("engine", oJson .str p.engine),
   ("consent", oJson .str p.consent), ("license", oJson .str p.license),
   ("notes", oJson .str p.notes)]

/-- `dataclasses.asdict` on `Provenance`. -/
def Provenance.asdict (p : Provenance) : Json := .obj p.asdictEntries

/-- The entry list of `dataclasses.asdict` on `Prosody`. -/
def Prosody.asdictEntries (p : Prosody) : List (String × Json) :=
  [("pitch_base", oJson .str p.pitch_base), ("pitch_range", oJson .str p.pitch_range),
   ("rate", oJson .str p.rate), ("energy", oJson .str p.energy),
   ("emotion_default", oJson .str p.emotion_default)]

/-- `dataclasses.asdict` on `Prosody`. -/
def Prosody.asdict (p : Prosody) : Json := .obj p.asdictEntries

/-- The entry list of `dataclasses.asdict` on `ReferenceAudio`. -/
def ReferenceAudio.asdictEntries (r : ReferenceAudio) : List (String × Json) :=
  [("file", .str r.file), ("transcript", .str r.transcript),
   ("language", oJson .str r.language),
   ("duration_seconds", oJson .num r.duration_seconds),
   ("context", oJson .str r.context)]

/-- `dataclasses.asdict` on `ReferenceAudio`. -/
def ReferenceAudio.asdict (r : ReferenceAudio) : Json := .obj r.asdictEntries

/-- The entry list of `dataclasses.asdict` on `Voice`. -/
def Voice.asdictEntries (v : Voice) : List (String × Json) :=
  [("name", .str v.name), ("description", .str v.description),
   ("language", oJson .str v.language), ("gender", oJson .str v.gender),
   ("age_range", oJson (fun l => .arr (l.map .num)) v.age_range),
   ("tags", oJson (fun l => .arr (l.map .str)) v.tags)]

/-- `dataclasses.asdict` on `Voice`. -/
def Voice.asdict (v : Voice) : Json := .obj v.asdictEntries

/-- The entry list of `dataclasses.asdict` on `VoxManifest`: the full
nested dict, `None`s included (they are stripped afterwards by
`_clean_dict`).  The opaque `extensions` dict is copied as-is. -/
def VoxManifest.asdictEntries (m : VoxManifest) : List (String × Json) :=
  [("vox_version", .str m.vox_version), ("id", .str m.id),
   ("created", .str m.created), ("voice", m.voice.asdict),
   ("prosody", oJson Prosody.asdict m.prosody),
   ("reference_audio", oJson (fun l => .arr (l.map ReferenceAudio.asdict)) m.reference_audio),
   ("character", oJson Character.asdict m.character),
   ("provenance", oJson Provenance.asdict m.provenance),
   ("extensions", oJson (fun j => j) m.extensions)]

/-- `dataclasses.asdict` on `VoxManifest`. -/
def VoxManifest.asdict (m : VoxManifest) : Json := .obj m.asdictEntries

/-- `VoxManifest.to_dict`: `_clean_dict(asdict(self))`. -/
def VoxManifest.to_dict (m : VoxManifest) : Json := m.asdict.clean

/-- `VoxManifest.to_json` (default `indent=2`):
`json.dumps(self.to_dict(), indent=2, sort_keys=True, ensure_ascii=False)`. -/
def VoxManifest.to_json (m : VoxManifest) : String := m.to_dict.dumps

/-!
### Manifest decoding (`VoxManifest.from_dict`)

Python builds nested sections with keyword expansion (`Voice(**voice_data)`
etc.), which raises `TypeError` on any keyword that is not a declared field
of the dataclass, while dataclasses perform NO runtime type check on the
values.  A value of the wrong runtime type would therefore produce an
ill-typed Python object (e.g. `Voice(name=5)`), which this typed embedding
cannot represent: the embedded getters reject it with an error instead.
No claim depends on such inputs — every input a claim exercises is either
well-typed or fails in Python too.
-/

/-- Do all keys of the entry list belong to `allowed`?  `False` means
keyword expansion raises `TypeError: unexpected keyword argument`. -/
def allowedKeys (entries : List (String × Json)) (allowed : List String) : Bool :=
  entries.all fun e => allowed.contains e.1

/-- Keyword value for a `str` field with a default: absent keys take the
dataclass default, a JSON string is accepted, anything else would make the
Python object ill-typed and is rejected here. -/
def kwStr (l : List (String × Json)) (k : String) (dflt : String) : Except String String :=
  match lookupKey l k with
  | none => .ok dflt
  | some (.str s) => .ok s
  | some _ => .error (k ++ ": not a string")

/-- Keyword value for an `Optional[str]` field: absent or `null` is `None`. -/
def kwOptStr (l : List (String × Json)) (k : String) : Except String (Option String) :=
  match lookupKey l k with
  | none => .ok none
  | some .null => .ok none
  | some (.str s) => .ok (some s)
  | some _ => .error (k ++ ": not a string")

/-- Keyword value for the `Optional[float]` field (numbers modelled as `Int`). -/
def kwOptNum (l : List (String × Json)) (k : String) : Except String (Option Int) :=
  match lookupKey l k with
  | none => .ok none
  | some .null => .ok none
  | some (.num n) => .ok (some n)
  | some _ => .error (k ++ ": not a number")

/-- One element of a `List[str]` field: must be a JSON string. -/
def jsonToStrElem (msg : String) : Json → Except String String
  | .str s => .ok s
  | _ => .error msg

/-- One element of a `List[int]` field: must be a JSON number. -/
def jsonToIntElem (msg : String) : Json → Except String Int
  | .num n => .ok n
  | _ => .error msg

/-- One item of a `Dict[str, str]` field: the value must be a JSON string. -/
def jsonToStrPair (msg : String) : (String × Json) → Except String (String × String)
  | (k', .str s) => .ok (k', s)
  | _ => .error msg

/-- Keyword value for an `Optional[List[str]]` field. -/
def kwOptStrList (l : List (String × Json)) (k : String) :
    Except String (Option (List String)) :=
  match lookupKey l k with
  | none => .ok none
  | some .null => .ok none
  | some (.arr items) =>
    (fun ss => some ss) <$> items.mapM (jsonToStrElem (k ++ ": not a string element"))
  | some _ => .error (k ++ ": not a list")

/-- Keyword value for the `Optional[List[int]]` field `age_range`. -/
def kwOptIntList (l : List (String × Json)) (k : String) :
    Except String (Option (List Int)) :=
  match lookupKey l k with
  | none => .ok none
  | some .null => .ok none
  | some (.arr items) =>
    (fun ns => some ns) <$> items.mapM (jsonToIntElem (k ++ ": not an int element"))
  | some _ => .error (k ++ ": not a list")

/-- Keyword value for the `Optional[Dict[str, str]]` field `relationships`. -/
def kwOptStrDict (l : List (String × Json)) (k : String) :
    Except String (Option (List (String × String))) :=
  match lookupKey l k with
  | none => .ok none
  | some .null => .ok none
  | some (.obj entries) =>
    (fun ps => some ps) <$> entries.mapM (jsonToStrPair (k ++ ": not a string value"))
  | some _ => .error (k ++ ": not a dict")

/-- `Voice(**voice_data)`: unknown keywords raise, declared fields are
filled from the dict with dataclass defaults for absent keys. -/
def parseVoice : Json → Except String Voice
  | .obj entries =>
    if allowedKeys entries ["name", "description", "language", "gender", "age_range", "tags"] then do
      let name ← kwStr entries "name" ""
      let description ← kwStr entries "description" ""
      let language ← kwOptStr entries "language"
      let gender ← kwOptStr entries "gender"
      let age_range ← kwOptIntList entries "age_range"
      let tags ← kwOptStrList entries "tags"
      pure ⟨name, description, language, gender, age_range, tags⟩
    else .error "voice: unexpected keyword argument"
  | _ => .error "voice: not a dict"

/-- `Prosody(**data['prosody'])`. -/
def parseProsody : Json → Except String Prosody
  | .obj entries =>
    if allowedKeys entries ["pitch_base", "pitch_range", "rate", "energy", "emotion_default"] then do
      let pitch_base ← kwOptStr entries "pitch_base"
      let pitch_range ← kwOptStr entries "pitch_range"
      let rate ← kwOptStr entries "rate"
      let energy ← kwOptStr entries "energy"
      let emotion_default ← kwOptStr entries "emotion_default"
      pure ⟨pitch_base, pitch_range, rate, energy, emotion_default⟩
    else .error "prosody: unexpected keyword argument"
  | _ => .error "prosody: not a dict"

/-- `ReferenceAudio(**item)` for one element of the `reference_audio` array. -/
def parseReferenceAudioItem : Json → Except String ReferenceAudio
  | .obj entries =>
    if allowedKeys entries ["file", "transcript", "language", "duration_seconds", "context"] then do
      let file ← kwStr entries "file" ""
      let transcript ← kwStr entries "transcript" ""
      let language ← kwOptStr entries "language"
      let duration_seconds ← kwOptNum entries "duration_seconds"
      let context ← kwOptStr entries "context"
      pure ⟨file, transcript, language, duration_seconds, context⟩
    else .error "reference_audio: unexpected keyword argument"
  | _ => .error "reference_audio: not a dict"

/-- `[ReferenceAudio(**item) for item in data['reference_audio']]`: iterating
anything but a list of dicts raises in Python (non-dict elements, or the
keys/characters a dict/string would yield). -/
def parseReferenceAudioList : Json → Except String (List ReferenceAudio)
  | .arr items => items.mapM parseReferenceAudioItem
  | _ => .error "reference_audio: not a list"

/-- `Source(**char_data['source'])`. -/
def parseSource : Json → Except String Source
  | .obj entries =>
    if allowedKeys entries ["work", "format", "file"] then do
      let work ← kwOptStr entries "work"
      let format ← kwOptStr entries "format"
      let file ← kwOptStr entries "file"
      pure ⟨work, format, file⟩
    else .error "source: unexpected keyword argument"
  | _ => .error "source: not a dict"

/-- `Provenance(**data['provenance'])`. -/
def parseProvenance : Json → Except String Provenance
  | .obj entries =>
    if allowedKeys entries ["method", "engine", "consent", "license", "notes"] then do
      let method ← kwOptStr entries "method"
      let engine ← kwOptStr entries "engine"
      let consent ← kwOptStr entries "consent"
      let license ← kwOptStr entries "license"
      let notes ← kwOptStr entries "notes"
      pure ⟨method, engine, consent, license, notes⟩
    else .error "provenance: unexpected keyword argument"
  | _ => .error "provenance: not a dict"

/-- The `source` handling of `from_dict`'s character section:
`if 'source' in char_data and char_data['source']:` replaces the raw value
by `Source(**char_data['source'])`; an absent or `null` (`None`) source
stays `None`.  A present `source` that is falsy but not `null` (`[]`, `0`,
`""`, `false`, the empty dict) is passed through raw by Python, producing
an ill-typed `Character`; the typed embedding rejects it (no claim reaches
this corner). -/
def charSourceStage (entries : List (String × Json)) : Except String (Option Source) :=
  match lookupKey entries "source" with
  | none => pure none
  | some v =>
    if v = Json.null then pure none
    else if v.truthy then (fun s => some s) <$> parseSource v
    else .error "source: ill-typed passthrough"

/-- `Character(**char_data)` after the `source` value has been replaced by
`Source(**char_data['source'])` when present and truthy. -/
def parseCharacter : Json → Except String Character
  | .obj entries =>
    if allowedKeys entries ["role", "emotional_range", "relationships", "source"] then do
      let source ← charSourceStage entries
      let role ← kwOptStr entries "role"
      let emotional_range ← kwOptStrList entries "emotional_range"
      let relationships ← kwOptStrDict entries "relationships"
      pure ⟨role, emotional_range, relationships, source⟩
    else .error "character: unexpected keyword argument"
  | _ => .error "character: not a dict"

/-- `voice_data = data.get('voice', {}); Voice(**voice_data) if voice_data
else Voice()`. -/
def voiceStage (data : List (String × Json)) : Except String Voice :=
  let vd := (lookupKey data "voice").getD (.obj [])
  if vd.truthy then parseVoice vd else pure {}

/-- `if key in data and data[key]: parse(data[key]) else None` — the
pattern every optional section of `from_dict` follows. -/
def sectionStage (parse : Json → Except String α) (data : List (String × Json))
    (key : String) : Except String (Option α) :=
  match lookupKey data key with
  | some v => if v.truthy then (fun x => some x) <$> parse v else pure none
  | none => pure none

/-- `data.get('extensions')` followed by the dataclass field assignment:
a `null` value is Python `None`. -/
def extensionsStage (data : List (String × Json)) : Option Json :=
  match lookupKey data "extensions" with
  | none => none
  | some v => if v = Json.null then none else some v

/-- `VoxManifest.from_dict` (`manifest.py:219-270`).  Top-level reads use
`data.get`, so unknown top-level keys are ignored; each optional section is
parsed only when its key is present AND its value is truthy; `extensions`
is passed through as-is (`data.get('extensions')`). -/
def VoxManifest.from_dict : Json → Except String VoxManifest
  | .obj data => do
    let voice ← voiceStage data
    let prosody ← sectionStage parseProsody data "prosody"
    let reference_audio ← sectionStage parseReferenceAudioList data "reference_audio"
    let character ← sectionStage parseCharacter data "character"
    let provenance ← sectionStage parseProvenance data "provenance"
    let extensions := extensionsStage data
    let vox_version ← kwStr data "vox_version" ""
    let id ← kwStr data "id" ""
    let created ← kwStr data "created" ""
    pure ⟨vox_version, id, created, voice, prosody, reference_audio, character,
          provenance, extensions⟩
  | _ => .error "manifest: not a dict"

example :
    VoxManifest.from_dict (.obj [("vox_version", .str "0.1.0"), ("id", .str "x"),
      ("created", .str "t"), ("voice", .obj [("name", .str "N"), ("description", .str "D")]),
      ("unknown_top", .num 3)]) =
    .ok { vox_version := "0.1.0", id := "x", created := "t",
          voice := { name := "N", description := "D" } } := by rfl

example :
    VoxManifest.from_dict (.obj [("voice", .obj [("name", .str "N"), ("bogus", .num 1)])]) =
    .error "voice: unexpected keyword argument" := by rfl

/-!
### Validator (`validator.py`)

The `ValidationError` subclasses live in `errors.py`, whose validation
section is not part of the sources at hand (only the constructor calls in
`validator.py` and the attribute uses in the test suite are); the
constructor arguments below are exactly those of the calls in
`validator.py`.  Modelled from the spec: each error kind carries the
dotted field path it concerns (`errorFieldPath` below).
-/

/-- The validation error values raised by `VoxValidator`, one constructor
per `errors.py` class, with the constructor arguments used in
`validator.py`. -/
inductive ValidationError where
  | emptyRequiredField (field : String)
  | invalidUUID (field : String) (value : String)
  | invalidTimestamp (field : String) (value : String)
  | descriptionTooShort (field : String) (length : Nat) (minimum : Nat)
  | invalidAgeRange (minAge : Int) (maxAge : Int)
  | invalidGender (value : String)
  | emptyReferenceAudioPath (index : Nat)
deriving DecidableEq

/-- Modelled from the spec: the dotted field path an error is tagged with
(§4.4 of the spec; the `field` attribute of the `errors.py` classes, which
are missing from the sources — the first four agree with the attribute
uses in `tests/test_validator.py`). -/
def ValidationError.errorFieldPath : ValidationError → String
  | .emptyRequiredField f => f
  | .invalidUUID f _ => f
  | .invalidTimestamp f _ => f
  | .descriptionTooShort f _ _ => f
  | .invalidAgeRange _ _ => "voice.age_range"
  | .invalidGender _ => "voice.gender"
  | .emptyReferenceAudioPath i => "reference_audio[" ++ toString i ++ "].file"

/-- The ASCII whitespace characters `str.strip()` removes (space, tab,
newline, carriage return, vertical tab, form feed).  Python additionally
strips some rarer Unicode spaces, which no claim exercises. -/
def isPyWs (c : Char) : Bool :=
  c = ' ' || c = '\t' || c = '\n' || c = '\r' || c = Char.ofNat 11 || c = Char.ofNat 12

/-- Python `str.strip()`: drop leading and trailing whitespace. -/
def pyStrip (s : String) : String :=
  String.mk (((s.data.dropWhile isPyWs).reverse.dropWhile isPyWs).reverse)

/-- Python `str.lower()` on the ASCII range (no claim exercises the
non-ASCII case mappings, none of which can produce an ASCII hex digit). -/
def pyLowerChar (c : Char) : Char :=
  if 'A' ≤ c && c ≤ 'Z' then Char.ofNat (c.toNat + 32) else c

/-- Python `str.lower()`. -/
def pyLower (s : String) : String := String.mk (s.data.map pyLowerChar)

/-- Python blankness test used throughout the validator:
`not s or not s.strip()`, i.e. the string is empty after stripping
whitespace. -/
def isBlank (s : String) : Bool := pyStrip s = ""

/-- Is the character in the regex class `[0-9a-f]`? -/
def isHexLower (c : Char) : Bool :=
  ('0' ≤ c && c ≤ '9') || ('a' ≤ c && c ≤ 'f')

/-- Is every character of the group a lowercase hex digit? -/
def allHexLower (cs : List Char) : Bool := cs.all isHexLower

/-- Is the character in the regex class `[89ab]` (the UUID-v4 variant
nibble)? -/
def isVariantNibble (c : Char) : Bool :=
  c = '8' || c = '9' || c = 'a' || c = 'b'

/-- Consume exactly `n` characters satisfying `p`, returning the rest of
the input (regex `[class]` repeated `n` times). -/
def eatClass (p : Char → Bool) : Nat → List Char → Option (List Char)
  | 0, cs => some cs
  | n + 1, c :: cs => if p c then eatClass p n cs else none
  | _ + 1, [] => none

/-- Consume one literal character. -/
def eatChar (lit : Char) : List Char → Option (List Char)
  | c :: cs => if c = lit then some cs else none
  | [] => none

/-- The body of `UUID_V4_PATTERN`, transcribed regex-atom by regex-atom:
`[0-9a-f]{8}-[0-9a-f]{4}-4[0-9a-f]{3}-[89ab][0-9a-f]{3}-[0-9a-f]{12}`,
consuming the whole character list (anchors are handled by the caller). -/
def uuidV4Body (cs : List Char) : Bool :=
  (do
    let cs ← eatClass isHexLower 8 cs
    let cs ← eatChar '-' cs
    let cs ← eatClass isHexLower 4 cs
    let cs ← eatChar '-' cs
    let cs ← eatChar '4' cs
    let cs ← eatClass isHexLower 3 cs
    let cs ← eatChar '-' cs
    let cs ← eatClass isVariantNibble 1 cs
    let cs ← eatClass isHexLower 3 cs
    let cs ← eatChar '-' cs
    let cs ← eatClass isHexLower 12 cs
    some cs) = some []

/-- `re.match` of an `^...$`-anchored pattern body against a whole string:
in Python (without `re.MULTILINE`) `$` matches at the end of the string or
just before one trailing newline, so the pattern accepts the exact shape
optionally followed by a single final `'\n'`. -/
def reFullMatch (body : List Char → Bool) (s : String) : Bool :=
  body s.data || (match s.data.getLast? with
                  | some c => c = '\n' && body s.data.dropLast
                  | none => false)

/-- `VoxValidator._is_valid_uuid_v4`: empty is invalid, otherwise the
lowercased string is matched against `UUID_V4_PATTERN`. -/
def VoxValidator.is_valid_uuid_v4 (value : String) : Bool :=
  if value = "" then false
  else reFullMatch uuidV4Body (pyLower value)

/-- The body of `ISO_8601_PATTERN`:
`\d{4}-\d{2}-\d{2}T\d{2}:\d{2}:\d{2}Z`.  (`\d` is modelled as an ASCII
digit; Python's `\d` also accepts other Unicode decimal digits, which no
claim exercises.) -/
def iso8601Body (cs : List Char) : Bool :=
  match cs with
  | [y1, y2, y3, y4, '-', mo1, mo2, '-', d1, d2, 'T',
     h1, h2, ':', mi1, mi2, ':', s1, s2, 'Z'] =>
    [y1, y2, y3, y4, mo1, mo2, d1, d2, h1, h2, mi1, mi2, s1, s2].all Char.isDigit
  | _ => false

/-- `VoxValidator._is_valid_iso8601`. -/
def VoxValidator.is_valid_iso8601 (value : String) : Bool :=
  if value = "" then false
  else reFullMatch iso8601Body value

/-- `VoxValidator.VALID_GENDERS`. -/
def VoxValidator.VALID_GENDERS : List String := ["male", "female", "non-binary", "neutral"]

/-- One validation group as the ordered list of its checks, `none` meaning
the check passes.  `_validate_required_fields`, in source order; the
description check is a single `if/elif`, hence a single slot. -/
def requiredChecks (m : VoxManifest) : List (Option ValidationError) :=
  [ if isBlank m.vox_version then some (.emptyRequiredField "vox_version") else none,
    if VoxValidator.is_valid_uuid_v4 m.id then none else some (.invalidUUID "id" m.id),
    if VoxValidator.is_valid_iso8601 m.created then none
      else some (.invalidTimestamp "created" m.created),
    if isBlank m.voice.name then some (.emptyRequiredField "voice.name") else none,
    (let d := pyStrip m.voice.description
     if d = "" then some (.emptyRequiredField "voice.description")
     else if d.length < 10 then some (.descriptionTooShort "voice.description" d.length 10)
     else none) ]

/-- `for index, entry in enumerate(manifest.reference_audio)`: one check
per entry, failing when the entry's file path is blank. -/
def refAudioChecks (start : Nat) : List ReferenceAudio → List (Option ValidationError)
  | [] => []
  | e :: rest =>
    (if isBlank e.file then some (.emptyReferenceAudioPath start) else none) ::
      refAudioChecks (start + 1) rest

/-- `_validate_optional_fields`, in source order: the `age_range` rule
(checked only when the list has exactly two elements), the `gender`
enum rule, then one check per `reference_audio` entry. -/
def optionalChecks (m : VoxManifest) : List (Option ValidationError) :=
  [ (match m.voice.age_range with
     | some [minAge, maxAge] =>
       if minAge ≥ maxAge then some (.invalidAgeRange minAge maxAge) else none
     | _ => none),
    (match m.voice.gender with
     | some g => if VoxValidator.VALID_GENDERS.contains g then none else some (.invalidGender g)
     | none => none) ] ++
  (match m.reference_audio with
   | some entries => refAudioChecks 0 entries
   | none => [])

/-- Run a validation group: each failing check appends its error, and in
strict mode the group helper returns right after the first failure (its
`if strict: return`) — later checks OF THE SAME GROUP are skipped. -/
def collectChecks (strict : Bool) : List (Option ValidationError) → List ValidationError
  | [] => []
  | none :: rest => collectChecks strict rest
  | some e :: rest => if strict then [e] else e :: collectChecks strict rest

/-- What `VoxValidator.validate` does: return normally, raise a single
specific error, or raise `MultipleValidationErrors` with the collected
list. -/
inductive ValidateOutcome where
  | ok
  | raised (e : ValidationError)
  | raisedMultiple (errors : List ValidationError)
deriving DecidableEq

/-- `VoxValidator.validate` (`validator.py:56-92`): run the required-fields
group, then ALWAYS also the optional-fields group (a strict-mode early
return only exits its own group helper), then raise the single error bare
when strict and exactly one error was collected, else the aggregate. -/
def VoxValidator.validate (m : VoxManifest) (strict : Bool) : ValidateOutcome :=
  let errors := collectChecks strict (requiredChecks m) ++
                collectChecks strict (optionalChecks m)
  match errors with
  | [] => .ok
  | [e] => if strict then .raised e else .raisedMultiple [e]
  | es => .raisedMultiple es

/-- All errors carried by an outcome (empty on success). -/
def ValidateOutcome.errors : ValidateOutcome → List ValidationError
  | .ok => []
  | .raised e => [e]
  | .raisedMultiple es => es

example :
    VoxValidator.validate
      { vox_version := "0.1.0", id := "550e8400-e29b-41d4-a716-446655440000",
        created := "2025-01-15T10:30:00Z",
        voice := { name := "Test", description := "Test description here" } } false =
    .ok := by rfl

example :
    VoxValidator.validate
      { vox_version := "", id := "invalid-uuid", created := "invalid-timestamp",
        voice := { name := "", description := "" } } true =
    .raised (.emptyRequiredField "vox_version") := by rfl

example :
    (VoxValidator.validate
      { vox_version := "", id := "invalid-uuid", created := "invalid-timestamp",
        voice := { name := "", description := "" } } false).errors.length = 5 := by rfl

/-!
### Archive model, reader (`reader.py`) and writer (`writer.py`)

A ZIP archive is a list of named entries.  `zipfile.ZipInfo.is_dir()` is
true exactly for names ending in `/`.  Entry contents are classified by
the stages the reader distinguishes: bytes that are not UTF-8, UTF-8 text
that is not JSON, or a parsed JSON value — every byte string falls in
exactly one class, and the reader never inspects the raw bytes beyond
this classification, so the classes model contents faithfully.
`archive.read(name)` returns the data of the first entry with that name.
The input of `VoxReader.read` is either something that cannot be opened
as a ZIP at all (a corrupt/truncated/non-ZIP stream or an unopenable
path — `zipfile.ZipFile` raises `BadZipFile`/`OSError`) or an archive.
-/

/-- Contents of one archive entry, classified by decode stage. -/
inductive EntryData where
  | notUtf8 (bytes : List Nat)
  | notJson (text : String)
  | jsonDoc (j : Json)
deriving DecidableEq

/-- A ZIP archive: named entries in file order. -/
structure Archive where
  entries : List (String × EntryData)
deriving DecidableEq

/-- `archive.read(name)`: data of the first entry with that exact name,
`none` modelling `KeyError`. -/
def Archive.readEntry (a : Archive) (p : String) : Option EntryData :=
  match a.entries.find? fun e => e.1 = p with
  | some e => some e.2
  | none => none

/-- Input to the reader: a ZIP archive, or bytes/path that cannot be
opened as one. -/
inductive ArchiveInput where
  | notZip
  | zip (a : Archive)

/-- The reader's error kinds: `InvalidArchive`, `ManifestNotFound`,
`InvalidManifest` from `errors.py`. -/
inductive ReadError where
  | invalidArchive
  | manifestNotFound
  | invalidManifest
deriving DecidableEq

/-- `vox_file.py` `VoxFile`: parsed manifest plus optional asset maps
(Python dicts, modelled as insertion-ordered association lists). -/
structure VoxFile where
  manifest : VoxManifest
  reference_audio : Option (List (String × EntryData)) := none
  extensions_files : Option (List (String × EntryData)) := none
deriving DecidableEq

/-- `s.startswith(pre)`. -/
def strStartsWith (s pre : String) : Bool := List.isPrefixOf pre.data s.data

/-- Does the name end in `/` (i.e. `ZipInfo.is_dir()`)? -/
def isDirName (p : String) : Bool := List.isPrefixOf ['/'] p.data.reverse

/-- Split a character list on `/`. -/
def splitOnSlash : List Char → List (List Char)
  | [] => [[]]
  | '/' :: rest => [] :: splitOnSlash rest
  | c :: rest =>
    match splitOnSlash rest with
    | g :: gs => (c :: g) :: gs
    | [] => [[c]]

/-- `pathlib.PurePath(p).name`: the last path component.  pathlib drops
empty components and `.` components; this models the path shapes the
claims exercise (plain relative paths). -/
def pathName (p : String) : String :=
  String.mk ((((splitOnSlash p.data).filter fun g => g ≠ [] && g ≠ ['.']).getLast?).getD [])

/-- Python dict assignment `d[k] = v`: overwrite in place if the key is
present (keeping its position), else append. -/
def dictInsert (d : List (String × EntryData)) (k : String) (v : EntryData) :
    List (String × EntryData) :=
  if d.any fun e => e.1 = k then d.map fun e => if e.1 = k then (k, v) else e
  else d ++ [(k, v)]

/-- `VoxReader._read_manifest` (`reader.py:73-111`): missing entry →
`ManifestNotFound`; undecodable bytes, invalid JSON, or any exception
from `from_dict` → `InvalidManifest`. -/
def VoxReader.read_manifest (a : Archive) : Except ReadError VoxManifest :=
  match a.readEntry "manifest.json" with
  | none => .error .manifestNotFound
  | some (.notUtf8 _) => .error .invalidManifest
  | some (.notJson _) => .error .invalidManifest
  | some (.jsonDoc j) =>
    match VoxManifest.from_dict j with
    | .ok m => .ok m
    | .error _ => .error .invalidManifest

/-- `VoxReader._read_reference_audio` (`reader.py:113-163`).  Step 1: for
each manifest entry with a non-empty (`if not file_path: continue`) file
path, read that exact path, keyed by its basename; a missing path is
skipped silently.  Step 2: scan every non-directory entry under
`reference/`, adding it under its basename only if that basename is not
yet present. -/
def VoxReader.read_reference_audio (a : Archive) (m : VoxManifest) :
    List (String × EntryData) :=
  let s1 := (m.reference_audio.getD []).foldl
    (fun d e =>
      if e.file = "" then d
      else
        match a.readEntry e.file with
        | some bytes => dictInsert d (pathName e.file) bytes
        | none => d)
    []
  a.entries.foldl
    (fun d en =>
      if strStartsWith en.1 "reference/" && !isDirName en.1 then
        if d.any fun e => e.1 = pathName en.1 then d
        else
          match a.readEntry en.1 with
          | some bytes => dictInsert d (pathName en.1) bytes
          | none => d
      else d)
    s1

/-- `VoxReader._read_extensions` (`reader.py:165-185`): every
non-directory entry under `embeddings/`, keyed by its full path. -/
def VoxReader.read_extensions (a : Archive) : List (String × EntryData) :=
  a.entries.foldl
    (fun d en =>
      if strStartsWith en.1 "embeddings/" && !isDirName en.1 then
        match a.readEntry en.1 with
        | some bytes => dictInsert d en.1 bytes
        | none => d
      else d)
    []

/-- `VoxReader.read` (`reader.py:33-71`): open the archive (failure →
`InvalidArchive`), read the manifest, collect the asset maps, with empty
maps returned as `None`. -/
def VoxReader.read : ArchiveInput → Except ReadError VoxFile
  | .notZip => .error .invalidArchive
  | .zip a => do
    let m ← VoxReader.read_manifest a
    let ra := VoxReader.read_reference_audio a m
    let ex := VoxReader.read_extensions a
    pure ⟨m, if ra = [] then none else some ra, if ex = [] then none else some ex⟩

/-- `VoxWriter.write` (`writer.py:34-62`): `manifest.json` holding
`manifest.to_json()` (whose parsed value is the recursively key-sorted
`to_dict`, see `Json.canon`), then each reference-audio asset at
`reference/<filename>`, then each extensions asset verbatim at its path.
Falsy (absent or empty) asset maps contribute no entries. -/
def VoxWriter.write (c : VoxFile) : Archive :=
  ⟨("manifest.json", .jsonDoc (Json.canon c.manifest.to_dict)) ::
   (((c.reference_audio.getD []).map fun e => ("reference/" ++ e.1, e.2)) ++
    (c.extensions_files.getD []))⟩

/-!
### Validator lemmas
-/

/-- Whatever `validate` raises, the error list it carries is the
concatenation of the two groups' collected errors. -/
theorem validate_errors_eq (m : VoxManifest) (strict : Bool) :
    (VoxValidator.validate m strict).errors =
      collectChecks strict (requiredChecks m) ++ collectChecks strict (optionalChecks m) := by
  unfold VoxValidator.validate
  rcases h : collectChecks strict (requiredChecks m) ++ collectChecks strict (optionalChecks m) with
    _ | ⟨e, _ | ⟨e2, tl⟩⟩
  · rfl
  · cases strict <;> rfl
  · rfl

/-- An error collected from a check group comes from one of its checks. -/
theorem mem_checks_of_mem_collect {strict : Bool} {e : ValidationError} :
    ∀ {l : List (Option ValidationError)}, e ∈ collectChecks strict l → some e ∈ l
  | [], h => by simp [collectChecks] at h
  | none :: rest, h => by
    rw [collectChecks] at h
    exact List.mem_cons_of_mem _ (mem_checks_of_mem_collect h)
  | some e' :: rest, h => by
    rw [collectChecks] at h
    by_cases hs : strict = true
    · rw [if_pos hs] at h
      rcases List.mem_singleton.mp h with rfl
      exact List.mem_cons_self _ _
    · rw [if_neg hs] at h
      rcases List.mem_cons.mp h with rfl | h
      · exact List.mem_cons_self _ _
      · exact List.mem_cons_of_mem _ (mem_checks_of_mem_collect h)

/-- In permissive mode a group contributes every failing check, in order. -/
theorem collectChecks_false_eq :
    ∀ l : List (Option ValidationError), collectChecks false l = l.filterMap id
  | [] => rfl
  | none :: rest => by
    rw [collectChecks, collectChecks_false_eq rest]; rfl
  | some e :: rest => by
    rw [collectChecks, if_neg (by simp), collectChecks_false_eq rest]; rfl

/-- The first violated rule of a check group, as the spec words it. -/
def firstViolation (checks : List (Option ValidationError)) : Option ValidationError :=
  (checks.filterMap id).head?

/-- In strict mode a group contributes exactly its first failing check. -/
theorem collectChecks_true_eq :
    ∀ l : List (Option ValidationError), collectChecks true l = (firstViolation l).toList
  | [] => rfl
  | none :: rest => by
    rw [collectChecks, collectChecks_true_eq rest]; rfl
  | some e :: rest => by
    rw [collectChecks, if_pos rfl]; rfl

/-- All violations of all rules, evaluated in the fixed order with no
short-circuiting — the spec's description of permissive collection. -/
def specViolations (m : VoxManifest) : List ValidationError :=
  (requiredChecks m ++ optionalChecks m).filterMap id

/-- Every check of the reference-audio group is either a pass or an
`EmptyReferenceAudioPath`. -/
theorem refAudioChecks_shape :
    ∀ {l : List ReferenceAudio} {start : Nat} {o : Option ValidationError},
      o ∈ refAudioChecks start l →
      o = none ∨ ∃ idx, o = some (ValidationError.emptyReferenceAudioPath idx)
  | [], _, o, h => by simp [refAudioChecks] at h
  | e :: rest, start, o, h => by
    rw [refAudioChecks] at h
    rcases List.mem_cons.mp h with rfl | h
    · split
      · exact Or.inr ⟨start, rfl⟩
      · exact Or.inl rfl
    · exact refAudioChecks_shape h

/-- Membership of an `EmptyReferenceAudioPath k` failure in the
reference-audio group starting at index `start`. -/
theorem mem_refAudioChecks_iff :
    ∀ {l : List ReferenceAudio} {start k : Nat},
      some (ValidationError.emptyReferenceAudioPath k) ∈ refAudioChecks start l ↔
        ∃ j entry, l.get? j = some entry ∧ isBlank entry.file = true ∧ start + j = k
  | [], start, k => by simp [refAudioChecks]
  | e :: rest, start, k => by
    rw [refAudioChecks]
    constructor
    · intro h
      rcases List.mem_cons.mp h with h | h
      · by_cases hb : isBlank e.file = true
        · rw [if_pos hb] at h
          have hk : k = start := by
            have := (Option.some.injEq _ _).mp h
            exact (ValidationError.emptyReferenceAudioPath.injEq _ _).mp this
          exact ⟨0, e, rfl, hb, by omega⟩
        · rw [if_neg hb] at h
          cases h
      · rcases mem_refAudioChecks_iff.mp h with ⟨j, entry, hj, hb, hk⟩
        exact ⟨j + 1, entry, hj, hb, by omega⟩
    · rintro ⟨j, entry, hj, hb, hk⟩
      cases j with
      | zero =>
        have he : entry = e := by
          have : some e = some entry := hj
          exact ((Option.some.injEq _ _).mp this).symm
        subst he
        have hk0 : k = start := by omega
        subst hk0
        exact List.mem_cons.mpr (Or.inl (by rw [if_pos hb]))
      | succ j =>
        exact List.mem_cons.mpr
          (Or.inr (mem_refAudioChecks_iff.mpr ⟨j, entry, hj, hb, by omega⟩))

/-- The required-fields group never produces an age-range error. -/
theorem requiredChecks_no_age (m : VoxManifest) :
    ∀ o ∈ requiredChecks m, ∀ a b : Int, o ≠ some (ValidationError.invalidAgeRange a b) := by
  intro o ho a b
  simp only [requiredChecks, List.mem_cons, List.not_mem_nil, or_false] at ho
  rcases ho with rfl | rfl | rfl | rfl | rfl <;> intro hco <;>
    (try split at hco) <;> (try split at hco) <;> simp_all

/-- C10: if `voice.age_range` is present but its length is not exactly 2,
`validate` reports no age-range violation in either mode: the `min < max`
rule is checked only for two-element lists. -/
theorem validate_ignores_wrong_length_age_range
    (m : VoxManifest) (strict : Bool) (l : List Int)
    (h1 : m.voice.age_range = some l) (h2 : l.length ≠ 2) (a b : Int) :
    ValidationError.invalidAgeRange a b ∉ (VoxValidator.validate m strict).errors := by
  intro hmem
  rw [validate_errors_eq] at hmem
  rcases List.mem_append.mp hmem with h | h
  · exact requiredChecks_no_age m _ (mem_checks_of_mem_collect h) a b rfl
  · have hopt := mem_checks_of_mem_collect h
    simp only [optionalChecks, List.mem_append, List.mem_cons, List.not_mem_nil,
      or_false] at hopt
    rcases hopt with (h' | h') | h'
    · rw [h1] at h'
      rcases l with _ | ⟨x, _ | ⟨y, _ | ⟨z, t⟩⟩⟩
      · exact Option.noConfusion h'
      · exact Option.noConfusion h'
      · exact h2 rfl
      · exact Option.noConfusion h'
    · rcases hg : m.voice.gender with _ | g <;> rw [hg] at h'
      · exact Option.noConfusion h'
      · revert h'; split <;> simp
    · rcases hr : m.reference_audio with _ | entries <;> rw [hr] at h'
      · simp at h'
      · rcases refAudioChecks_shape h' with h'' | ⟨idx, h''⟩ <;> simp at h''

/-- Witness manifest for C10: valid except for a one-element age range. -/
def ageRangeWitnessManifest : VoxManifest :=
  { vox_version := "0.1.0", id := "550e8400-e29b-41d4-a716-446655440000",
    created := "2025-01-15T10:30:00Z",
    voice := { name := "Test", description := "Test description here",
               age_range := some [30] } }

theorem validate_ignores_wrong_length_age_range_witness :
    ValidationError.invalidAgeRange 30 30 ∉
      (VoxValidator.validate ageRangeWitnessManifest false).errors :=
  validate_ignores_wrong_length_age_range ageRangeWitnessManifest false [30] rfl
    (by decide) 30 30

/-- A manifest with one required-group violation (blank `vox_version`) and
one optional-group violation (gender outside the enum), valid otherwise. -/
def strictModeCexManifest : VoxManifest :=
  { vox_version := "", id := "550e8400-e29b-41d4-a716-446655440000",
    created := "2025-01-15T10:30:00Z",
    voice := { name := "Test", description := "Test description here",
               gender := some "unknown" } }

/-- C2 counterexample: in strict mode this manifest yields TWO violations,
wrapped in the aggregate (`MultipleValidationErrors`) form — the strict
early return is scoped per group, so a required-group failure does not
stop the optional group from also contributing. -/
theorem strict_mode_two_errors_cex :
    VoxValidator.validate strictModeCexManifest true =
      .raisedMultiple [.emptyRequiredField "vox_version", .invalidGender "unknown"] ∧
    (VoxValidator.validate strictModeCexManifest true).errors.length = 2 := by
  constructor <;> rfl

/-- C2 (amended): strict mode stops at the first violated rule WITHIN EACH
of the two groups (required fields, then optional fields).  When only one
group has a violation, exactly that one violation is raised bare; when
both groups have violations, the first of each is raised wrapped in the
aggregate form; a valid manifest raises nothing. -/
theorem strict_mode_first_violation_per_group (m : VoxManifest) :
    VoxValidator.validate m true =
      match firstViolation (requiredChecks m), firstViolation (optionalChecks m) with
      | none, none => .ok
      | some e, none => .raised e
      | none, some e => .raised e
      | some e1, some e2 => .raisedMultiple [e1, e2] := by
  unfold VoxValidator.validate
  rw [collectChecks_true_eq, collectChecks_true_eq]
  rcases firstViolation (requiredChecks m) with _ | e1 <;>
    rcases firstViolation (optionalChecks m) with _ | e2 <;> rfl

/-- Extracting membership in `specViolations` down to a single check. -/
theorem mem_specViolations_iff (m : VoxManifest) (e : ValidationError) :
    e ∈ specViolations m ↔ some e ∈ requiredChecks m ++ optionalChecks m := by
  simp [specViolations, List.mem_filterMap]

/-- The possible outputs of the required-fields checks. -/
theorem requiredChecks_shape (m : VoxManifest) :
    ∀ o ∈ requiredChecks m,
      o = none ∨ o = some (.emptyRequiredField "vox_version") ∨
      o = some (.invalidUUID "id" m.id) ∨
      o = some (.invalidTimestamp "created" m.created) ∨
      o = some (.emptyRequiredField "voice.name") ∨
      o = some (.emptyRequiredField "voice.description") ∨
      o = some (.descriptionTooShort "voice.description"
                 (pyStrip m.voice.description).length 10) := by
  intro o ho
  simp only [requiredChecks, List.mem_cons, List.not_mem_nil, or_false] at ho
  rcases ho with rfl | rfl | rfl | rfl | rfl <;> (try split) <;> (try split) <;> simp

/-- The possible outputs of the optional-fields checks. -/
theorem optionalChecks_shape (m : VoxManifest) :
    ∀ o ∈ optionalChecks m,
      o = none ∨ (∃ a b, o = some (.invalidAgeRange a b)) ∨
      (∃ g, o = some (.invalidGender g)) ∨
      (∃ i, o = some (.emptyReferenceAudioPath i)) := by
  intro o ho
  simp only [optionalChecks, List.mem_append, List.mem_cons, List.not_mem_nil,
    or_false] at ho
  rcases ho with (rfl | rfl) | h
  · rcases ha : m.voice.age_range with _ | ⟨_ | ⟨x, _ | ⟨y, _ | ⟨z, t⟩⟩⟩⟩ <;>
      simp only [ha] <;> (try split) <;> simp
  · rcases hg : m.voice.gender with _ | g <;> simp only [hg] <;> (try split) <;> simp
  · rcases hr : m.reference_audio with _ | entries <;> rw [hr] at h
    · simp at h
    · rcases refAudioChecks_shape h with rfl | ⟨idx, rfl⟩
      · exact Or.inl rfl
      · exact Or.inr (Or.inr (Or.inr ⟨idx, rfl⟩))

/-- Rule 1 ↔ its aggregate entry. -/
theorem specViolations_vox_version_iff (m : VoxManifest) :
    isBlank m.vox_version = true ↔
      ValidationError.emptyRequiredField "vox_version" ∈ specViolations m := by
  rw [mem_specViolations_iff]
  constructor
  · intro hc
    apply List.mem_append_left
    simp only [requiredChecks, List.mem_cons]
    exact Or.inl (by rw [if_pos hc])
  · intro hmem
    rcases List.mem_append.mp hmem with h | h
    · simp only [requiredChecks, List.mem_cons, List.not_mem_nil, or_false] at h
      rcases h with h | h | h | h | h
      · by_cases hc : isBlank m.vox_version = true
        · exact hc
        · rw [if_neg hc] at h; cases h
      · revert h; split <;> simp
      · revert h; split <;> simp
      · revert h; split <;> simp
      · revert h; (try split) <;> (try split) <;> simp
    · rcases optionalChecks_shape m _ h with h' | ⟨a, b, h'⟩ | ⟨g, h'⟩ | ⟨i, h'⟩ <;> simp at h'

/-- Rule 2 ↔ its aggregate entry. -/
theorem specViolations_uuid_iff (m : VoxManifest) :
    VoxValidator.is_valid_uuid_v4 m.id = false ↔
      ValidationError.invalidUUID "id" m.id ∈ specViolations m := by
  rw [mem_specViolations_iff]
  constructor
  · intro hc
    apply List.mem_append_left
    simp only [requiredChecks, List.mem_cons]
    exact Or.inr (Or.inl (by rw [if_neg (by simp [hc])]))
  · intro hmem
    rcases List.mem_append.mp hmem with h | h
    · simp only [requiredChecks, List.mem_cons, List.not_mem_nil, or_false] at h
      rcases h with h | h | h | h | h
      · revert h; split <;> simp
      · by_cases hc : VoxValidator.is_valid_uuid_v4 m.id = true
        · rw [if_pos hc] at h; cases h
        · simpa using hc
      · revert h; split <;> simp
      · revert h; split <;> simp
      · revert h; (try split) <;> (try split) <;> simp
    · rcases optionalChecks_shape m _ h with h' | ⟨a, b, h'⟩ | ⟨g, h'⟩ | ⟨i, h'⟩ <;> simp at h'

/-- Rule 3 ↔ its aggregate entry. -/
theorem specViolations_timestamp_iff (m : VoxManifest) :
    VoxValidator.is_valid_iso8601 m.created = false ↔
      ValidationError.invalidTimestamp "created" m.created ∈ specViolations m := by
  rw [mem_specViolations_iff]
  constructor
  · intro hc
    apply List.mem_append_left
    simp only [requiredChecks, List.mem_cons]
    exact Or.inr (Or.inr (Or.inl (by rw [if_neg (by simp [hc])])))
  · intro hmem
    rcases List.mem_append.mp hmem with h | h
    · simp only [requiredChecks, List.mem_cons, List.not_mem_nil, or_false] at h
      rcases h with h | h | h | h | h
      · revert h; split <;> simp
      · revert h; split <;> simp
      · by_cases hc : VoxValidator.is_valid_iso8601 m.created = true
        · rw [if_pos hc] at h; cases h
        · simpa using hc
      · revert h; split <;> simp
      · revert h; (try split) <;> (try split) <;> simp
    · rcases optionalChecks_shape m _ h with h' | ⟨a, b, h'⟩ | ⟨g, h'⟩ | ⟨i, h'⟩ <;> simp at h'

/-- Rule 4 ↔ its aggregate entry. -/
theorem specViolations_voice_name_iff (m : VoxManifest) :
    isBlank m.voice.name = true ↔
      ValidationError.emptyRequiredField "voice.name" ∈ specViolations m := by
  rw [mem_specViolations_iff]
  constructor
  · intro hc
    apply List.mem_append_left
    simp only [requiredChecks, List.mem_cons]
    exact Or.inr (Or.inr (Or.inr (Or.inl (by rw [if_pos hc]))))
  · intro hmem
    rcases List.mem_append.mp hmem with h | h
    · simp only [requiredChecks, List.mem_cons, List.not_mem_nil, or_false] at h
      rcases h with h | h | h | h | h
      · revert h; split <;> simp
      · revert h; split <;> simp
      · revert h; split <;> simp
      · by_cases hc : isBlank m.voice.name = true
        · exact hc
        · rw [if_neg hc] at h; cases h
      · revert h; (try split) <;> (try split) <;> simp
    · rcases optionalChecks_shape m _ h with h' | ⟨a, b, h'⟩ | ⟨g, h'⟩ | ⟨i, h'⟩ <;> simp at h'

/-- Rule 5, empty case ↔ its aggregate entry. -/
theorem specViolations_description_empty_iff (m : VoxManifest) :
    pyStrip m.voice.description = "" ↔
      ValidationError.emptyRequiredField "voice.description" ∈ specViolations m := by
  rw [mem_specViolations_iff]
  constructor
  · intro hc
    apply List.mem_append_left
    simp only [requiredChecks, List.mem_cons]
    exact Or.inr (Or.inr (Or.inr (Or.inr (Or.inl (by rw [if_pos hc])))))
  · intro hmem
    rcases List.mem_append.mp hmem with h | h
    · simp only [requiredChecks, List.mem_cons, List.not_mem_nil, or_false] at h
      rcases h with h | h | h | h | h
      · revert h; split <;> simp
      · revert h; split <;> simp
      · revert h; split <;> simp
      · revert h; split <;> simp
      · by_cases hc : pyStrip m.voice.description = ""
        · exact hc
        · rw [if_neg hc] at h
          revert h; split <;> simp
    · rcases optionalChecks_shape m _ h with h' | ⟨a, b, h'⟩ | ⟨g, h'⟩ | ⟨i, h'⟩ <;> simp at h'

/-- Rule 5, short case ↔ its aggregate entry. -/
theorem specViolations_description_short_iff (m : VoxManifest) :
    (pyStrip m.voice.description ≠ "" ∧ (pyStrip m.voice.description).length < 10) ↔
      ValidationError.descriptionTooShort "voice.description"
        (pyStrip m.voice.description).length 10 ∈ specViolations m := by
  rw [mem_specViolations_iff]
  constructor
  · rintro ⟨hne, hlt⟩
    apply List.mem_append_left
    simp only [requiredChecks, List.mem_cons]
    exact Or.inr (Or.inr (Or.inr (Or.inr (Or.inl
      (by rw [if_neg hne, if_pos hlt])))))
  · intro hmem
    rcases List.mem_append.mp hmem with h | h
    · simp only [requiredChecks, List.mem_cons, List.not_mem_nil, or_false] at h
      rcases h with h | h | h | h | h
      · revert h; split <;> simp
      · revert h; split <;> simp
      · revert h; split <;> simp
      · revert h; split <;> simp
      · by_cases hc : pyStrip m.voice.description = ""
        · rw [if_pos hc] at h; cases h
        · rw [if_neg hc] at h
          by_cases hl : (pyStrip m.voice.description).length < 10
          · exact ⟨hc, hl⟩
          · rw [if_neg hl] at h; cases h
    · rcases optionalChecks_shape m _ h with h' | ⟨a, b, h'⟩ | ⟨g, h'⟩ | ⟨i, h'⟩ <;> simp at h'

/-- The required-fields checks never produce an optional-group error. -/
theorem requiredChecks_no_optional_ctor (m : VoxManifest) {o : Option ValidationError}
    (ho : o ∈ requiredChecks m) :
    (∀ a b : Int, o ≠ some (.invalidAgeRange a b)) ∧
    (∀ g, o ≠ some (.invalidGender g)) ∧
    (∀ i, o ≠ some (.emptyReferenceAudioPath i)) := by
  rcases requiredChecks_shape m o ho with rfl | rfl | rfl | rfl | rfl | rfl | rfl <;>
    refine ⟨fun a b => ?_, fun g => ?_, fun i => ?_⟩ <;> simp

/-- Rule 6 (age range, as the code checks it) ↔ its aggregate entry. -/
theorem specViolations_age_range_iff (m : VoxManifest) (x y : Int) :
    (m.voice.age_range = some [x, y] ∧ x ≥ y) ↔
      ValidationError.invalidAgeRange x y ∈ specViolations m := by
  rw [mem_specViolations_iff]
  constructor
  · rintro ⟨ha, hge⟩
    apply List.mem_append_right
    simp only [optionalChecks, List.mem_append, List.mem_cons]
    exact Or.inl (Or.inl (by rw [ha]; simp [hge]))
  · intro hmem
    rcases List.mem_append.mp hmem with h | h
    · exact absurd rfl ((requiredChecks_no_optional_ctor m h).1 x y)
    · simp only [optionalChecks, List.mem_append, List.mem_cons, List.not_mem_nil,
        or_false] at h
      rcases h with (h | h) | h
      · rcases ha : m.voice.age_range with _ | ⟨_ | ⟨a, _ | ⟨b, _ | ⟨c, t⟩⟩⟩⟩ <;>
          rw [ha] at h
        · exact Option.noConfusion h
        · exact Option.noConfusion h
        · exact Option.noConfusion h
        · by_cases hge : a ≥ b
          · simp only [ge_iff_le] at hge
            simp [hge] at h
            obtain ⟨rfl, rfl⟩ := h
            exact ⟨rfl, hge⟩
          · simp [hge] at h
        · exact Option.noConfusion h
      · rcases hg : m.voice.gender with _ | g' <;> rw [hg] at h
        · exact Option.noConfusion h
        · revert h; split <;> simp
      · rcases hr : m.reference_audio with _ | entries <;> rw [hr] at h
        · simp at h
        · rcases refAudioChecks_shape h with h' | ⟨idx, h'⟩ <;> simp at h'

/-- Rule 7 (gender enum) ↔ its aggregate entry. -/
theorem specViolations_gender_iff (m : VoxManifest) (g : String) :
    (m.voice.gender = some g ∧ VoxValidator.VALID_GENDERS.contains g = false) ↔
      ValidationError.invalidGender g ∈ specViolations m := by
  rw [mem_specViolations_iff]
  constructor
  · rintro ⟨hg, hc⟩
    apply List.mem_append_right
    simp only [optionalChecks, List.mem_append, List.mem_cons]
    refine Or.inl (Or.inr (Or.inl ?_))
    rw [hg]
    have hnm : g ∉ VoxValidator.VALID_GENDERS := by simpa using hc
    simp [hnm]
  · intro hmem
    rcases List.mem_append.mp hmem with h | h
    · exact absurd rfl ((requiredChecks_no_optional_ctor m h).2.1 g)
    · simp only [optionalChecks, List.mem_append, List.mem_cons, List.not_mem_nil,
        or_false] at h
      rcases h with (h | h) | h
      · rcases ha : m.voice.age_range with _ | ⟨_ | ⟨a, _ | ⟨b, _ | ⟨c, t⟩⟩⟩⟩ <;>
          rw [ha] at h <;> revert h <;> (try split) <;> simp
      · rcases hg : m.voice.gender with _ | g' <;> rw [hg] at h
        · exact Option.noConfusion h
        · by_cases hc : VoxValidator.VALID_GENDERS.contains g' = true
          · have hin : g' ∈ VoxValidator.VALID_GENDERS := by simpa using hc
            simp [hin] at h
          · have hnm : g' ∉ VoxValidator.VALID_GENDERS := by simpa using hc
            simp [hnm] at h
            subst h
            exact ⟨rfl, by simpa using hc⟩
      · rcases hr : m.reference_audio with _ | entries <;> rw [hr] at h
        · simp at h
        · rcases refAudioChecks_shape h with h' | ⟨idx, h'⟩ <;> simp at h'

/-- Rule 8 (per-entry reference-audio path) ↔ its aggregate entries. -/
theorem specViolations_ref_audio_iff (m : VoxManifest) (i : Nat) :
    (∃ entry, (m.reference_audio.getD []).get? i = some entry ∧ isBlank entry.file = true) ↔
      ValidationError.emptyReferenceAudioPath i ∈ specViolations m := by
  rw [mem_specViolations_iff]
  constructor
  · rintro ⟨entry, hj, hb⟩
    apply List.mem_append_right
    apply List.mem_append_right
    rcases hr : m.reference_audio with _ | entries
    · rw [hr] at hj; simp at hj
    · rw [hr] at hj
      exact mem_refAudioChecks_iff.mpr ⟨i, entry, hj, hb, Nat.zero_add i⟩
  · intro hmem
    rcases List.mem_append.mp hmem with h | h
    · exact absurd rfl ((requiredChecks_no_optional_ctor m h).2.2 i)
    · simp only [optionalChecks, List.mem_append, List.mem_cons, List.not_mem_nil,
        or_false] at h
      rcases h with (h | h) | h
      · rcases ha : m.voice.age_range with _ | ⟨_ | ⟨a, _ | ⟨b, _ | ⟨c, t⟩⟩⟩⟩ <;>
          rw [ha] at h <;> revert h <;> (try split) <;> simp
      · rcases hg : m.voice.gender with _ | g' <;> rw [hg] at h <;> revert h <;>
          (try split) <;> simp
      · rcases hr : m.reference_audio with _ | entries <;> rw [hr] at h
        · simp at h
        · rcases mem_refAudioChecks_iff.mp h with ⟨j, entry, hj, hb, hk⟩
          have hji : j = i := by omega
          rw [hji] at hj
          exact ⟨entry, hj, hb⟩

/-- C4: in permissive mode (the default) every rule is evaluated in the
fixed order regardless of earlier failures; all violations are returned
together as the single aggregate (`MultipleValidationErrors`) carrying one
entry per violated rule in rule order (`specViolations`), each entry
tagged with the dotted field path of its rule; a manifest violating no
rule yields no violations. -/
theorem validate_permissive_collects_all (m : VoxManifest) :
    (VoxValidator.validate m false =
      if specViolations m = [] then .ok else .raisedMultiple (specViolations m)) ∧
    (isBlank m.vox_version = true ↔
      ValidationError.emptyRequiredField "vox_version" ∈ specViolations m) ∧
    (VoxValidator.is_valid_uuid_v4 m.id = false ↔
      ValidationError.invalidUUID "id" m.id ∈ specViolations m) ∧
    (VoxValidator.is_valid_iso8601 m.created = false ↔
      ValidationError.invalidTimestamp "created" m.created ∈ specViolations m) ∧
    (isBlank m.voice.name = true ↔
      ValidationError.emptyRequiredField "voice.name" ∈ specViolations m) ∧
    (pyStrip m.voice.description = "" ↔
      ValidationError.emptyRequiredField "voice.description" ∈ specViolations m) ∧
    ((pyStrip m.voice.description ≠ "" ∧ (pyStrip m.voice.description).length < 10) ↔
      ValidationError.descriptionTooShort "voice.description"
        (pyStrip m.voice.description).length 10 ∈ specViolations m) ∧
    (∀ x y : Int, (m.voice.age_range = some [x, y] ∧ x ≥ y) ↔
      ValidationError.invalidAgeRange x y ∈ specViolations m) ∧
    (∀ g, (m.voice.gender = some g ∧ VoxValidator.VALID_GENDERS.contains g = false) ↔
      ValidationError.invalidGender g ∈ specViolations m) ∧
    (∀ i, (∃ entry, (m.reference_audio.getD []).get? i = some entry ∧
        isBlank entry.file = true) ↔
      ValidationError.emptyReferenceAudioPath i ∈ specViolations m) ∧
    (∀ e ∈ specViolations m,
      e.errorFieldPath ∈ (["vox_version", "id", "created", "voice.name",
        "voice.description", "voice.age_range", "voice.gender"] : List String) ∨
      ∃ i : Nat, e.errorFieldPath = "reference_audio[" ++ toString i ++ "].file") := by
  refine ⟨?_, specViolations_vox_version_iff m, specViolations_uuid_iff m,
    specViolations_timestamp_iff m, specViolations_voice_name_iff m,
    specViolations_description_empty_iff m, specViolations_description_short_iff m,
    specViolations_age_range_iff m, specViolations_gender_iff m,
    specViolations_ref_audio_iff m, ?_⟩
  · have key : collectChecks false (requiredChecks m) ++
        collectChecks false (optionalChecks m) = specViolations m := by
      rw [collectChecks_false_eq, collectChecks_false_eq, ← List.filterMap_append]; rfl
    unfold VoxValidator.validate
    rw [key]
    rcases specViolations m with _ | ⟨e, _ | ⟨e2, tl⟩⟩ <;> simp
  · intro e he
    rcases List.mem_append.mp ((mem_specViolations_iff m e).mp he) with h | h
    · rcases requiredChecks_shape m _ h with h' | h' | h' | h' | h' | h' | h' <;>
        first
        | exact Option.noConfusion h'
        | (obtain rfl := (Option.some.injEq _ _).mp h'
           simp [ValidationError.errorFieldPath])
    · rcases optionalChecks_shape m _ h with h' | ⟨a, b, h'⟩ | ⟨g, h'⟩ | ⟨i, h'⟩
      · exact Option.noConfusion h'
      · obtain rfl := (Option.some.injEq _ _).mp h'
        simp [ValidationError.errorFieldPath]
      · obtain rfl := (Option.some.injEq _ _).mp h'
        simp [ValidationError.errorFieldPath]
      · obtain rfl := (Option.some.injEq _ _).mp h'
        right
        exact ⟨i, rfl⟩

/-!
### C7: the UUID-v4 check
-/

/-- `eatClass p n` succeeds exactly on inputs starting with `n` characters
satisfying `p`. -/
theorem eatClass_eq_some_iff {p : Char → Bool} :
    ∀ {n : Nat} {cs rest : List Char},
      eatClass p n cs = some rest ↔
        ∃ g, cs = g ++ rest ∧ g.length = n ∧ g.all p = true := by
  intro n
  induction n with
  | zero =>
    intro cs rest
    rw [eatClass]
    constructor
    · intro h
      exact ⟨[], by simpa using (Option.some.injEq _ _).mp h, rfl, rfl⟩
    · rintro ⟨g, hcs, hlen, _⟩
      rw [List.length_eq_zero.mp hlen] at hcs
      rw [hcs]
      rfl
  | succ n ih =>
    intro cs rest
    cases cs with
    | nil =>
      rw [eatClass]
      constructor
      · intro h; exact Option.noConfusion h
      · rintro ⟨g, hg, hlen, _⟩
        rcases List.append_eq_nil.mp hg.symm with ⟨rfl, -⟩
        exact absurd hlen (by simp)
    | cons c cs' =>
      rw [eatClass]
      by_cases hp : p c = true
      · rw [if_pos hp, ih]
        constructor
        · rintro ⟨g', h1, h2, h3⟩
          exact ⟨c :: g', by simp [h1], by simp [h2], by simp [hp, h3]⟩
        · rintro ⟨g, hcs, hlen, hall⟩
          cases g with
          | nil => exact absurd hlen (by simp)
          | cons d g' =>
            have hd : c = d := (List.cons.injEq _ _ _ _).mp hcs |>.1
            have htail : cs' = g' ++ rest := (List.cons.injEq _ _ _ _).mp hcs |>.2
            simp only [List.all_cons, Bool.and_eq_true] at hall
            exact ⟨g', htail, by simpa using hlen, hall.2⟩
      · rw [if_neg hp]
        constructor
        · intro h; exact Option.noConfusion h
        · rintro ⟨g, hcs, hlen, hall⟩
          cases g with
          | nil => exact absurd hlen (by simp)
          | cons d g' =>
            have hd : c = d := (List.cons.injEq _ _ _ _).mp hcs |>.1
            simp only [List.all_cons, Bool.and_eq_true] at hall
            exact absurd (hd ▸ hall.1) hp

/-- `eatChar lit` succeeds exactly on inputs starting with `lit`. -/
theorem eatChar_eq_some_iff {lit : Char} {cs rest : List Char} :
    eatChar lit cs = some rest ↔ cs = lit :: rest := by
  cases cs with
  | nil => rw [eatChar]; simp
  | cons c cs' =>
    rw [eatChar]
    by_cases hc : c = lit
    · rw [if_pos hc]
      subst hc
      simp
    · rw [if_neg hc]
      simp [hc]

/-- The canonical UUID-v4 shape as the spec words it: five dash-separated
groups of 8, 4, 4, 4 and 12 lowercase hex digits, the third group starting
with the version nibble `4`, the fourth with a variant nibble in
`{8, 9, a, b}`. -/
def UuidV4GroupShape (cs : List Char) : Prop :=
  ∃ g1 g2 g3 g4 g5 : List Char,
    cs = g1 ++ '-' :: (g2 ++ '-' :: (g3 ++ '-' :: (g4 ++ '-' :: g5))) ∧
    g1.length = 8 ∧ g2.length = 4 ∧ g3.length = 4 ∧ g4.length = 4 ∧ g5.length = 12 ∧
    allHexLower g1 = true ∧ allHexLower g2 = true ∧ allHexLower g5 = true ∧
    (∃ t3, g3 = '4' :: t3 ∧ allHexLower t3 = true) ∧
    (∃ v t4, g4 = v :: t4 ∧ isVariantNibble v = true ∧ allHexLower t4 = true)

/-- The sequential regex matcher accepts exactly the canonical group shape. -/
theorem uuidV4Body_iff_groupShape (cs : List Char) :
    uuidV4Body cs = true ↔ UuidV4GroupShape cs := by
  rw [uuidV4Body, decide_eq_true_iff]
  simp only [Option.bind_eq_bind', Option.bind_eq_some', eatClass_eq_some_iff,
    eatChar_eq_some_iff, Option.some.injEq]
  constructor
  · rintro ⟨r1, ⟨g1, rfl, h1len, h1all⟩, r2, rfl, r3, ⟨g2, rfl, h2len, h2all⟩,
      r4, rfl, r5, rfl, r6, ⟨t3, rfl, h3len, h3all⟩, r7, rfl, r8, ⟨gv, rfl, hvlen, hvall⟩,
      r9, ⟨t4, rfl, h4len, h4all⟩, r10, rfl, r11, ⟨g5, rfl, h5len, h5all⟩, rfl⟩
    obtain ⟨v, rfl⟩ := List.length_eq_one.mp hvlen
    refine ⟨g1, g2, '4' :: t3, v :: t4, g5, by simp, h1len, h2len, by simp [h3len],
      by simp [h4len], h5len, h1all, h2all, h5all, ⟨t3, rfl, h3all⟩,
      ⟨v, t4, rfl, by simpa using hvall, h4all⟩⟩
  · rintro ⟨g1, g2, g3, g4, g5, hcs, l1, l2, l3, l4, l5, a1, a2, a5,
      ⟨t3, rfl, h3all⟩, ⟨v, t4, rfl, hv, h4all⟩⟩
    subst hcs
    refine ⟨_, ⟨g1, rfl, l1, a1⟩, _, rfl, _, ⟨g2, rfl, l2, a2⟩, _, rfl, _, rfl,
      _, ⟨t3, rfl, by simpa using l3, h3all⟩, _, rfl, _, ⟨[v], rfl, rfl, by simp [hv]⟩,
      _, ⟨t4, rfl, by simpa using l4, h4all⟩, _, rfl, _, ⟨g5, (g5.append_nil).symm, l5, a5⟩, rfl⟩

/-- Any list of the canonical UUID shape has exactly 36 characters. -/
theorem uuidV4GroupShape_length {cs : List Char} (h : UuidV4GroupShape cs) :
    cs.length = 36 := by
  obtain ⟨g1, g2, g3, g4, g5, rfl, l1, l2, l3, l4, l5, -⟩ := h
  simp [List.length_append, l1, l2, l3, l4, l5]

/-- C7 (amended): the UUID check is case-insensitive — the string is
lowercased and matched — and it accepts exactly the canonical 8-4-4-4-12
shape OR that shape followed by one trailing newline (Python's `$`
matches just before a final newline as well as at the end); the two
concrete spec examples pass. -/
theorem uuid_check_characterization :
    (∀ v : String, VoxValidator.is_valid_uuid_v4 v = true ↔
      (UuidV4GroupShape (pyLower v).data ∨
       ((pyLower v).data.getLast? = some '\n' ∧
        UuidV4GroupShape (pyLower v).data.dropLast))) ∧
    VoxValidator.is_valid_uuid_v4 "550E8400-E29B-41D4-A716-446655440000" = true ∧
    VoxValidator.is_valid_uuid_v4 "550e8400-e29b-41d4-a716-446655440000" = true := by
  refine ⟨?_, by rfl, by rfl⟩
  intro v
  rw [VoxValidator.is_valid_uuid_v4]
  by_cases hv : v = ""
  · subst hv
    rw [if_pos rfl]
    constructor
    · intro h; exact Bool.noConfusion h
    · rintro (h | ⟨h, -⟩)
      · exact absurd (uuidV4GroupShape_length h) (by decide)
      · exact Option.noConfusion h
  · rw [if_neg hv, reFullMatch, Bool.or_eq_true, uuidV4Body_iff_groupShape]
    constructor
    · rintro (h | h)
      · exact Or.inl h
      · rcases hlast : (pyLower v).data.getLast? with _ | c <;> rw [hlast] at h
        · exact Bool.noConfusion h
        · rw [Bool.and_eq_true, decide_eq_true_iff] at h
          obtain ⟨rfl, hb⟩ := h
          exact Or.inr ⟨rfl, (uuidV4Body_iff_groupShape _).mp hb⟩
    · rintro (h | ⟨hlast, h⟩)
      · exact Or.inl h
      · right
        rw [hlast]
        rw [Bool.and_eq_true, decide_eq_true_iff]
        exact ⟨rfl, (uuidV4Body_iff_groupShape _).mpr h⟩

/-- A lowercase UUID-v4 followed by one newline character. -/
def uuidWithNewline : String := "550e8400-e29b-41d4-a716-446655440000\n"

/-- C7 counterexample: the validator accepts a UUID followed by a trailing
newline even though that string is not of the canonical 8-4-4-4-12 shape,
so `"...0000\n"` yields NO `InvalidUUID` violation: the claimed
"accepted iff canonical shape" equivalence is false. -/
theorem uuid_trailing_newline_cex :
    VoxValidator.is_valid_uuid_v4 uuidWithNewline = true ∧
    ¬ UuidV4GroupShape (pyLower uuidWithNewline).data ∧
    VoxValidator.validate
      { vox_version := "0.1.0", id := uuidWithNewline,
        created := "2025-01-15T10:30:00Z",
        voice := { name := "Test", description := "Test description here" } } false =
      .ok := by
  refine ⟨by rfl, ?_, by rfl⟩
  intro h
  have h36 := uuidV4GroupShape_length h
  have h37 : (pyLower uuidWithNewline).data.length = 37 := by rfl
  rw [h36] at h37
  exact absurd h37 (by decide)

/-!
### C5: reader error kinds
-/

/-- C5: resolving the manifest can fail in exactly three ways —
`InvalidArchive` exactly when the input cannot be opened as a ZIP at all,
`ManifestNotFound` exactly when the archive has no entry named exactly
`manifest.json`, `InvalidManifest` exactly when that entry exists but its
bytes are not UTF-8, not JSON, or `from_dict` raises — and `read` succeeds
exactly when a `manifest.json` entry parses and decodes. -/
theorem read_error_kinds (inp : ArchiveInput) :
    (VoxReader.read inp = .error .invalidArchive ↔ inp = .notZip) ∧
    (VoxReader.read inp = .error .manifestNotFound ↔
      ∃ a, inp = .zip a ∧ a.readEntry "manifest.json" = none) ∧
    (VoxReader.read inp = .error .invalidManifest ↔
      ∃ a d, inp = .zip a ∧ a.readEntry "manifest.json" = some d ∧
        ((∃ bs, d = .notUtf8 bs) ∨ (∃ s, d = .notJson s) ∨
         (∃ j msg, d = .jsonDoc j ∧ VoxManifest.from_dict j = .error msg))) ∧
    ((∃ v, VoxReader.read inp = .ok v) ↔
      ∃ a j mf, inp = .zip a ∧ a.readEntry "manifest.json" = some (.jsonDoc j) ∧
        VoxManifest.from_dict j = .ok mf) := by
  cases inp with
  | notZip =>
    refine ⟨by simp [VoxReader.read], ?_, ?_, ?_⟩ <;> simp [VoxReader.read]
  | zip a =>
    rcases hd : a.readEntry "manifest.json" with _ | d
    · refine ⟨?_, ?_, ?_, ?_⟩ <;>
        simp [VoxReader.read, VoxReader.read_manifest, hd]
    · cases d with
      | notUtf8 bs =>
        refine ⟨?_, ?_, ?_, ?_⟩ <;>
          simp [VoxReader.read, VoxReader.read_manifest, hd]
      | notJson s =>
        refine ⟨?_, ?_, ?_, ?_⟩ <;>
          simp [VoxReader.read, VoxReader.read_manifest, hd]
      | jsonDoc j =>
        rcases hm : VoxManifest.from_dict j with msg | mf <;>
          refine ⟨?_, ?_, ?_, ?_⟩ <;>
          simp [VoxReader.read, VoxReader.read_manifest, hd, hm]

/-!
### C9: unknown-key policy of `from_dict`
-/

/-- An entry with a key outside the allowed set makes keyword expansion
fail (`TypeError: unexpected keyword argument`). -/
theorem allowedKeys_false_of_mem {entries : List (String × Json)} {allowed : List String}
    {k : String} {v : Json} (hm : (k, v) ∈ entries) (hk : allowed.contains k = false) :
    allowedKeys entries allowed = false := by
  rw [allowedKeys]
  rcases hall : entries.all (fun e => allowed.contains e.1) with _ | _
  · rfl
  · rw [List.all_eq_true] at hall
    have := hall (k, v) hm
    rw [hk] at this
    exact Bool.noConfusion this

/-- Bind on `Except` propagates errors (definitional). -/
theorem except_error_bind {α β : Type} {e : String} {f : α → Except String β} :
    (Except.error e >>= f) = Except.error e := rfl

/-- Bind on `Except` continues on success (definitional). -/
theorem except_ok_bind {α β : Type} {a : α} {f : α → Except String β} :
    (Except.ok a >>= f) = f a := rfl

/-- A present, truthy section whose parser fails makes its stage fail. -/
theorem sectionStage_error {α : Type} {parse : Json → Except String α}
    {data : List (String × Json)} {key : String} {v : Json} {msg : String}
    (hl : lookupKey data key = some v) (ht : v.truthy = true)
    (hp : parse v = .error msg) :
    sectionStage parse data key = .error msg := by
  rw [sectionStage, hl]
  show (if v.truthy = true then (fun x => some x) <$> parse v else pure none) =
    Except.error msg
  rw [if_pos ht, hp]
  rfl

/-- If any fixed element of the list fails to parse, the whole
`[ReferenceAudio(**item) for item in ...]` comprehension fails. -/
theorem mapM_parse_error_of_mem :
    ∀ {l : List Json} {x : Json}, x ∈ l →
      ∀ {msg : String}, parseReferenceAudioItem x = .error msg →
      ∃ msg2, l.mapM parseReferenceAudioItem = .error msg2 := by
  intro l
  induction l with
  | nil => intro x hx; cases hx
  | cons a t ih =>
    intro x hx msg hp
    rw [List.mapM_cons]
    rcases ha : parseReferenceAudioItem a with m2 | ra
    · exact ⟨m2, by rw [except_error_bind]⟩
    · rcases List.mem_cons.mp hx with rfl | hx'
      · rw [ha] at hp; exact Except.noConfusion hp
      · obtain ⟨m2, hm2⟩ := ih hx' hp
        exact ⟨m2, by rw [except_ok_bind, hm2, except_error_bind]⟩

/-- Any failing stage makes `from_dict` fail: the five stages in order.
Each disjunct peels the earlier stages (which may fail first — any error
still makes `from_dict` raise). -/
theorem from_dict_error_of_stage {data : List (String × Json)} :
    (∀ msg, voiceStage data = .error msg →
      VoxManifest.from_dict (.obj data) = .error msg) ∧
    (∀ msg, sectionStage parseProsody data "prosody" = .error msg →
      ∃ m2, VoxManifest.from_dict (.obj data) = .error m2) ∧
    (∀ msg, sectionStage parseReferenceAudioList data "reference_audio" = .error msg →
      ∃ m2, VoxManifest.from_dict (.obj data) = .error m2) ∧
    (∀ msg, sectionStage parseCharacter data "character" = .error msg →
      ∃ m2, VoxManifest.from_dict (.obj data) = .error m2) ∧
    (∀ msg, sectionStage parseProvenance data "provenance" = .error msg →
      ∃ m2, VoxManifest.from_dict (.obj data) = .error m2) := by
  refine ⟨?_, ?_, ?_, ?_, ?_⟩ <;> intro msg hstage <;> rw [VoxManifest.from_dict]
  · rw [hstage]; rfl
  · rcases h1 : voiceStage data with m1 | v1
    · exact ⟨m1, rfl⟩
    · exact ⟨msg, by rw [hstage]; rfl⟩
  · rcases h1 : voiceStage data with m1 | v1
    · exact ⟨m1, rfl⟩
    rcases h2 : sectionStage parseProsody data "prosody" with m2 | s2
    · exact ⟨m2, rfl⟩
    · exact ⟨msg, by rw [hstage]; rfl⟩
  · rcases h1 : voiceStage data with m1 | v1
    · exact ⟨m1, rfl⟩
    rcases h2 : sectionStage parseProsody data "prosody" with m2 | s2
    · exact ⟨m2, rfl⟩
    rcases h3 : sectionStage parseReferenceAudioList data "reference_audio" with m3 | s3
    · exact ⟨m3, rfl⟩
    · exact ⟨msg, by rw [hstage]; rfl⟩
  · rcases h1 : voiceStage data with m1 | v1
    · exact ⟨m1, rfl⟩
    rcases h2 : sectionStage parseProsody data "prosody" with m2 | s2
    · exact ⟨m2, rfl⟩
    rcases h3 : sectionStage parseReferenceAudioList data "reference_audio" with m3 | s3
    · exact ⟨m3, rfl⟩
    rcases h4 : sectionStage parseCharacter data "character" with m4 | s4
    · exact ⟨m4, rfl⟩
    · exact ⟨msg, by rw [hstage]; rfl⟩

/-- `Voice(**voice_data)` with an undeclared keyword raises. -/
theorem parseVoice_unknown_key {ve : List (String × Json)} {k : String} {v : Json}
    (hm : (k, v) ∈ ve)
    (hk : k ∉ (["name", "description", "language", "gender", "age_range", "tags"] :
      List String)) :
    parseVoice (.obj ve) = .error "voice: unexpected keyword argument" := by
  rw [parseVoice, if_neg]
  rw [allowedKeys_false_of_mem hm (by simpa using hk)]
  simp

/-- `Prosody(**...)` with an undeclared keyword raises. -/
theorem parseProsody_unknown_key {pe : List (String × Json)} {k : String} {v : Json}
    (hm : (k, v) ∈ pe)
    (hk : k ∉ (["pitch_base", "pitch_range", "rate", "energy", "emotion_default"] :
      List String)) :
    parseProsody (.obj pe) = .error "prosody: unexpected keyword argument" := by
  rw [parseProsody, if_neg]
  rw [allowedKeys_false_of_mem hm (by simpa using hk)]
  simp

/-- `ReferenceAudio(**item)` with an undeclared keyword raises. -/
theorem parseReferenceAudioItem_unknown_key {ie : List (String × Json)} {k : String}
    {v : Json} (hm : (k, v) ∈ ie)
    (hk : k ∉ (["file", "transcript", "language", "duration_seconds", "context"] :
      List String)) :
    parseReferenceAudioItem (.obj ie) =
      .error "reference_audio: unexpected keyword argument" := by
  rw [parseReferenceAudioItem, if_neg]
  rw [allowedKeys_false_of_mem hm (by simpa using hk)]
  simp

/-- `Character(**char_data)` with an undeclared keyword raises. -/
theorem parseCharacter_unknown_key {ce : List (String × Json)} {k : String} {v : Json}
    (hm : (k, v) ∈ ce)
    (hk : k ∉ (["role", "emotional_range", "relationships", "source"] : List String)) :
    parseCharacter (.obj ce) = .error "character: unexpected keyword argument" := by
  rw [parseCharacter, if_neg]
  rw [allowedKeys_false_of_mem hm (by simpa using hk)]
  simp

/-- `Source(**...)` with an undeclared keyword raises. -/
theorem parseSource_unknown_key {se : List (String × Json)} {k : String} {v : Json}
    (hm : (k, v) ∈ se)
    (hk : k ∉ (["work", "format", "file"] : List String)) :
    parseSource (.obj se) = .error "source: unexpected keyword argument" := by
  rw [parseSource, if_neg]
  rw [allowedKeys_false_of_mem hm (by simpa using hk)]
  simp

/-- `Provenance(**...)` with an undeclared keyword raises. -/
theorem parseProvenance_unknown_key {pe : List (String × Json)} {k : String} {v : Json}
    (hm : (k, v) ∈ pe)
    (hk : k ∉ (["method", "engine", "consent", "license", "notes"] : List String)) :
    parseProvenance (.obj pe) = .error "provenance: unexpected keyword argument" := by
  rw [parseProvenance, if_neg]
  rw [allowedKeys_false_of_mem hm (by simpa using hk)]
  simp

/-- A nested `source` object with an undeclared keyword makes
`Character` construction raise (whether or not the character object
itself is well-keyed). -/
theorem parseCharacter_source_unknown_key {ce se : List (String × Json)} {k : String}
    {v : Json} (hsrc : lookupKey ce "source" = some (.obj se)) (hm : (k, v) ∈ se)
    (hk : k ∉ (["work", "format", "file"] : List String)) :
    ∃ msg, parseCharacter (.obj ce) = .error msg := by
  obtain ⟨e0, se', rfl⟩ : ∃ e0 se', se = e0 :: se' := by
    cases se with
    | nil => cases hm
    | cons a b => exact ⟨a, b, rfl⟩
  have hps := parseSource_unknown_key hm hk
  have hstage : charSourceStage ce = .error "source: unexpected keyword argument" := by
    rw [charSourceStage, hsrc]
    show (if Json.obj (e0 :: se') = Json.null then pure none
      else if (Json.obj (e0 :: se')).truthy = true then
        (fun s => some s) <$> parseSource (Json.obj (e0 :: se'))
      else Except.error "source: ill-typed passthrough") = _
    rw [if_neg (fun h => Json.noConfusion h), if_pos (by simp [Json.truthy]), hps]
    rfl
  rw [parseCharacter]
  by_cases hak :
      allowedKeys ce ["role", "emotional_range", "relationships", "source"] = true
  · rw [if_pos hak, hstage]
    exact ⟨_, rfl⟩
  · rw [if_neg hak]
    exact ⟨_, rfl⟩

/-- C9: `from_dict` ignores unknown keys ONLY at the top level of the
manifest JSON: prepending an undeclared top-level key leaves the result
unchanged, while an undeclared key inside any nested section object
(voice, prosody, a reference_audio element, character, character.source,
or provenance) makes decoding raise instead. -/
theorem from_dict_unknown_key_policy (data : List (String × Json)) :
    (∀ k v, k ∉ (["vox_version", "id", "created", "voice", "prosody",
        "reference_audio", "character", "provenance", "extensions"] : List String) →
      VoxManifest.from_dict (.obj ((k, v) :: data)) = VoxManifest.from_dict (.obj data)) ∧
    (∀ ve k v, lookupKey data "voice" = some (.obj ve) → (k, v) ∈ ve →
      k ∉ (["name", "description", "language", "gender", "age_range", "tags"] : List String) →
      ∃ msg, VoxManifest.from_dict (.obj data) = .error msg) ∧
    (∀ pe k v, lookupKey data "prosody" = some (.obj pe) → (k, v) ∈ pe →
      k ∉ (["pitch_base", "pitch_range", "rate", "energy", "emotion_default"] : List String) →
      ∃ msg, VoxManifest.from_dict (.obj data) = .error msg) ∧
    (∀ items ie k v, lookupKey data "reference_audio" = some (.arr items) →
      Json.obj ie ∈ items → (k, v) ∈ ie →
      k ∉ (["file", "transcript", "language", "duration_seconds", "context"] : List String) →
      ∃ msg, VoxManifest.from_dict (.obj data) = .error msg) ∧
    (∀ ce k v, lookupKey data "character" = some (.obj ce) → (k, v) ∈ ce →
      k ∉ (["role", "emotional_range", "relationships", "source"] : List String) →
      ∃ msg, VoxManifest.from_dict (.obj data) = .error msg) ∧
    (∀ ce se k v, lookupKey data "character" = some (.obj ce) →
      lookupKey ce "source" = some (.obj se) → (k, v) ∈ se →
      k ∉ (["work", "format", "file"] : List String) →
      ∃ msg, VoxManifest.from_dict (.obj data) = .error msg) ∧
    (∀ pe k v, lookupKey data "provenance" = some (.obj pe) → (k, v) ∈ pe →
      k ∉ (["method", "engine", "consent", "license", "notes"] : List String) →
      ∃ msg, VoxManifest.from_dict (.obj data) = .error msg) := by
  refine ⟨?_, ?_, ?_, ?_, ?_, ?_, ?_⟩
  · intro k v hk
    simp only [List.mem_cons, List.not_mem_nil, or_false, not_or] at hk
    obtain ⟨n1, n2, n3, n4, n5, n6, n7, n8, n9⟩ := hk
    have E : ∀ key : String, ¬(k = key) →
        lookupKey ((k, v) :: data) key = lookupKey data key := by
      intro key hne
      rw [lookupKey, if_neg hne]
    have hv : voiceStage ((k, v) :: data) = voiceStage data := by
      rw [voiceStage, voiceStage, E "voice" n4]
    have hsec : ∀ {α : Type} (p : Json → Except String α) (key : String), ¬(k = key) →
        sectionStage p ((k, v) :: data) key = sectionStage p data key := by
      intro α p key hne
      rw [sectionStage, sectionStage, E key hne]
    have hext : extensionsStage ((k, v) :: data) = extensionsStage data := by
      rw [extensionsStage, extensionsStage, E "extensions" n9]
    have hkw : ∀ (key d : String), ¬(k = key) →
        kwStr ((k, v) :: data) key d = kwStr data key d := by
      intro key d hne
      rw [kwStr, kwStr, E key hne]
    simp only [VoxManifest.from_dict, hv, hsec parseProsody "prosody" n5,
      hsec parseReferenceAudioList "reference_audio" n6, hsec parseCharacter "character" n7,
      hsec parseProvenance "provenance" n8, hext, hkw "vox_version" "" n1,
      hkw "id" "" n2, hkw "created" "" n3]
  · intro ve k v hl hm hk
    obtain ⟨e0, ve', rfl⟩ : ∃ e0 ve', ve = e0 :: ve' := by
      cases ve with
      | nil => cases hm
      | cons a b => exact ⟨a, b, rfl⟩
    have hp := parseVoice_unknown_key hm hk
    have hstage : voiceStage data = .error "voice: unexpected keyword argument" := by
      rw [voiceStage, hl]
      simp only [Option.getD_some, Json.truthy, hp]
      rfl
    exact ⟨_, from_dict_error_of_stage.1 _ hstage⟩
  · intro pe k v hl hm hk
    obtain ⟨e0, pe', rfl⟩ : ∃ e0 pe', pe = e0 :: pe' := by
      cases pe with
      | nil => cases hm
      | cons a b => exact ⟨a, b, rfl⟩
    have hp := parseProsody_unknown_key hm hk
    exact from_dict_error_of_stage.2.1 _
      (sectionStage_error hl (by simp [Json.truthy]) hp)
  · intro items ie k v hl hitem hm hk
    have hp := parseReferenceAudioItem_unknown_key hm hk
    obtain ⟨m2, hm2⟩ := mapM_parse_error_of_mem hitem hp
    have hlist : parseReferenceAudioList (.arr items) = .error m2 := by
      rw [parseReferenceAudioList]
      exact hm2
    have htr : (Json.arr items).truthy = true := by
      simp [Json.truthy, List.ne_nil_of_mem hitem]
    exact from_dict_error_of_stage.2.2.1 m2 (sectionStage_error hl htr hlist)
  · intro ce k v hl hm hk
    obtain ⟨e0, ce', rfl⟩ : ∃ e0 ce', ce = e0 :: ce' := by
      cases ce with
      | nil => cases hm
      | cons a b => exact ⟨a, b, rfl⟩
    have hp := parseCharacter_unknown_key hm hk
    exact from_dict_error_of_stage.2.2.2.1 _
      (sectionStage_error hl (by simp [Json.truthy]) hp)
  · intro ce se k v hl hsrc hm hk
    obtain ⟨msg, hp⟩ := parseCharacter_source_unknown_key hsrc hm hk
    have hne : ce ≠ [] := by
      intro h
      rw [h] at hsrc
      exact Option.noConfusion hsrc
    obtain ⟨e0, ce', rfl⟩ : ∃ e0 ce', ce = e0 :: ce' := by
      cases ce with
      | nil => exact absurd rfl hne
      | cons a b => exact ⟨a, b, rfl⟩
    exact from_dict_error_of_stage.2.2.2.1 _
      (sectionStage_error hl (by simp [Json.truthy]) hp)
  · intro pe k v hl hm hk
    obtain ⟨e0, pe', rfl⟩ : ∃ e0 pe', pe = e0 :: pe' := by
      cases pe with
      | nil => cases hm
      | cons a b => exact ⟨a, b, rfl⟩
    have hp := parseProvenance_unknown_key hm hk
    exact from_dict_error_of_stage.2.2.2.2 _
      (sectionStage_error hl (by simp [Json.truthy]) hp)

theorem from_dict_unknown_key_policy_witness :
    ∃ msg, VoxManifest.from_dict
      (.obj [("voice", .obj [("name", .str "N"), ("bogus", .num 1)])]) = .error msg :=
  (from_dict_unknown_key_policy [("voice", .obj [("name", .str "N"), ("bogus", .num 1)])]).2.1
    [("name", Json.str "N"), ("bogus", Json.num 1)] "bogus" (Json.num 1) rfl
    (by simp) (by decide)

/-!
### C6: the reference-audio asset map
-/

/-- First-match lookup in an asset association list. -/
def olookup : List (String × EntryData) → String → Option EntryData
  | [], _ => none
  | (k', v) :: t, k => if k' = k then some v else olookup t k

/-- Left-biased choice on optional lookups. -/
def oor (x y : Option EntryData) : Option EntryData :=
  match x with
  | some v => some v
  | none => y

theorem oor_assoc (x y z : Option EntryData) : oor (oor x y) z = oor x (oor y z) := by
  cases x <;> rfl

theorem oor_none_right (x : Option EntryData) : oor x none = x := by
  cases x <;> rfl

theorem olookup_append (xs ys : List (String × EntryData)) (k : String) :
    olookup (xs ++ ys) k = oor (olookup xs k) (olookup ys k) := by
  induction xs with
  | nil => rfl
  | cons e t ih =>
    rcases e with ⟨k', v⟩
    rw [List.cons_append, olookup, olookup]
    by_cases hk : k' = k
    · rw [if_pos hk, if_pos hk]; rfl
    · rw [if_neg hk, if_neg hk, ih]

/-- A key the dict `any`-test finds has a bound value. -/
theorem olookup_isSome_of_any {d : List (String × EntryData)} {key : String}
    (h : (d.any fun e => e.1 = key) = true) : ∃ v, olookup d key = some v := by
  induction d with
  | nil => simp at h
  | cons e t ih =>
    rcases e with ⟨k', v⟩
    rw [olookup]
    by_cases hk : k' = key
    · rw [if_pos hk]; exact ⟨v, rfl⟩
    · rw [if_neg hk]
      rw [List.any_cons] at h
      simp only [hk] at h
      exact ih (by simpa using h)

/-- Replacing every `key` entry's value leaves other lookups unchanged and
maps the `key` lookup to the new value. -/
theorem olookup_map_replace (key : String) (val : EntryData) (k : String) :
    ∀ d : List (String × EntryData),
      olookup (d.map fun e => if e.1 = key then (key, val) else e) k =
        if key = k then Option.map (fun _ => val) (olookup d key) else olookup d k := by
  intro d
  induction d with
  | nil => by_cases h : key = k <;> simp [h, olookup]
  | cons e t ih =>
    rcases e with ⟨k', v⟩
    rw [List.map_cons]
    by_cases hk' : k' = key
    · rw [if_pos hk']
      by_cases hkk : key = k
      · rw [olookup, if_pos hkk, if_pos hkk, olookup, if_pos hk']
        rfl
      · rw [olookup, if_neg hkk, if_neg hkk, ih, if_neg hkk, olookup]
        have h2 : ¬(k' = k) := fun h => hkk (hk'.symm.trans h)
        rw [if_neg h2]
    · rw [if_neg hk', olookup]
      by_cases h2 : k' = k
      · rw [if_pos h2]
        have hkk : ¬(key = k) := fun h => hk' (h2.trans h.symm)
        rw [if_neg hkk, olookup, if_pos h2]
      · rw [if_neg h2, ih]
        by_cases hkk : key = k
        · rw [if_pos hkk, if_pos hkk, olookup, if_neg hk']
        · rw [if_neg hkk, if_neg hkk, olookup, if_neg h2]

/-- Lookup after a Python dict assignment `d[key] = val`. -/
theorem dictInsert_olookup (d : List (String × EntryData)) (key : String)
    (val : EntryData) (k : String) :
    olookup (dictInsert d key val) k = if key = k then some val else olookup d k := by
  rw [dictInsert]
  by_cases hany : (d.any fun e => e.1 = key) = true
  · rw [if_pos hany, olookup_map_replace]
    by_cases hk : key = k
    · rw [if_pos hk, if_pos hk]
      obtain ⟨v, hv⟩ := olookup_isSome_of_any hany
      rw [hv]
      rfl
    · rw [if_neg hk, if_neg hk]
  · rw [if_neg hany, olookup_append]
    by_cases hk : key = k
    · rw [if_pos hk]
      rcases hl : olookup d k with _ | v
      · simp [olookup, hk, oor]
      · exfalso
        apply hany
        subst hk
        clear hany
        induction d with
        | nil => exact Option.noConfusion hl
        | cons e t ih =>
          rcases e with ⟨k', v'⟩
          rw [olookup] at hl
          rw [List.any_cons]
          by_cases hk' : k' = key
          · simp [hk']
          · rw [if_neg hk'] at hl
            simp [ih hl]
    · rw [if_neg hk]
      simp [olookup, hk, oor_none_right]

/-- Step 1 of the claim, with the code's actual skip condition (skip only
EMPTY file paths — `if not file_path`): the manifest-derived pairs, in
manifest order, keyed by basename. -/
def specStep1Pairs (a : Archive) (entries : List ReferenceAudio) :
    List (String × EntryData) :=
  entries.filterMap fun e =>
    if e.file = "" then none
    else (a.readEntry e.file).map fun b => (pathName e.file, b)

/-- Step 1 as the claim words it: skip entries with a BLANK (empty after
stripping whitespace) file path. -/
def specStep1PairsBlank (a : Archive) (entries : List ReferenceAudio) :
    List (String × EntryData) :=
  entries.filterMap fun e =>
    if isBlank e.file then none
    else (a.readEntry e.file).map fun b => (pathName e.file, b)

/-- Step 2 of the claim: every non-directory entry under `reference/`,
keyed by basename, in archive order. -/
def specScanPairs (a : Archive) : List (String × EntryData) :=
  a.entries.filterMap fun en =>
    if strStartsWith en.1 "reference/" && !isDirName en.1 then
      (a.readEntry en.1).map fun b => (pathName en.1, b)
    else none

/-- The step-1 fold builds exactly the last-wins manifest-derived map,
over whatever dict it starts from. -/
theorem step1_fold_olookup (a : Archive) (k : String) :
    ∀ (entries : List ReferenceAudio) (d0 : List (String × EntryData)),
      olookup (entries.foldl
        (fun d e =>
          if e.file = "" then d
          else
            match a.readEntry e.file with
            | some bytes => dictInsert d (pathName e.file) bytes
            | none => d) d0) k =
      oor (olookup (specStep1Pairs a entries).reverse k) (olookup d0 k) := by
  intro entries
  induction entries with
  | nil => intro d0; simp [specStep1Pairs, olookup, oor]
  | cons e es ih =>
    intro d0
    rw [List.foldl_cons, ih]
    simp only [specStep1Pairs]
    rw [List.filterMap_cons]
    by_cases he : e.file = ""
    · rw [if_pos he, if_pos he]
    · rw [if_neg he, if_neg he]
      rcases hr : a.readEntry e.file with _ | bytes
      · rfl
      · rw [Option.map_some']
        rw [List.reverse_cons, olookup_append, oor_assoc]
        have h1 : olookup [(pathName e.file, bytes)] k =
            if pathName e.file = k then some bytes else none := by
          rw [olookup]
          by_cases hp : pathName e.file = k
          · rw [if_pos hp, if_pos hp]
          · rw [if_neg hp, if_neg hp, olookup]
        rw [h1, dictInsert_olookup]
        by_cases hp : pathName e.file = k
        · rw [if_pos hp, if_pos hp]
          rfl
        · rw [if_neg hp, if_neg hp]
          rfl

/-- The directory-scan fold: existing keys always win, scan entries fill
the gaps first-come-first-kept. -/
theorem scan_fold_olookup (a : Archive) (k : String) :
    ∀ (ens : List (String × EntryData)) (d0 : List (String × EntryData)),
      olookup (ens.foldl
        (fun d en =>
          if strStartsWith en.1 "reference/" && !isDirName en.1 then
            if d.any fun e => e.1 = pathName en.1 then d
            else
              match a.readEntry en.1 with
              | some bytes => dictInsert d (pathName en.1) bytes
              | none => d
          else d) d0) k =
      oor (olookup d0 k)
        (olookup (ens.filterMap fun en =>
          if strStartsWith en.1 "reference/" && !isDirName en.1 then
            (a.readEntry en.1).map fun b => (pathName en.1, b)
          else none) k) := by
  intro ens
  induction ens with
  | nil => intro d0; simp [olookup, oor_none_right]
  | cons en ens ih =>
    intro d0
    rw [List.foldl_cons, ih, List.filterMap_cons]
    by_cases hc : (strStartsWith en.1 "reference/" && !isDirName en.1) = true
    · rw [if_pos hc, if_pos hc]
      rcases hr : a.readEntry en.1 with _ | bytes
      · rw [Option.map_none']
        by_cases hany : (d0.any fun e => e.1 = pathName en.1) = true
        · rw [if_pos hany]
        · rw [if_neg hany]
      · rw [Option.map_some']
        have h1 : olookup ((pathName en.1, bytes) :: (ens.filterMap fun en =>
            if strStartsWith en.1 "reference/" && !isDirName en.1 then
              (a.readEntry en.1).map fun b => (pathName en.1, b)
            else none)) k =
            if pathName en.1 = k then some bytes
            else olookup (ens.filterMap fun en =>
              if strStartsWith en.1 "reference/" && !isDirName en.1 then
                (a.readEntry en.1).map fun b => (pathName en.1, b)
              else none) k := by
          rw [olookup]
        rw [h1]
        by_cases hany : (d0.any fun e => e.1 = pathName en.1) = true
        · rw [if_pos hany]
          by_cases hp : pathName en.1 = k
          · obtain ⟨v, hv⟩ := olookup_isSome_of_any hany
            rw [if_pos hp]
            rw [hp] at hv
            rw [hv]
            rfl
          · rw [if_neg hp]
        · rw [if_neg hany, dictInsert_olookup]
          by_cases hp : pathName en.1 = k
          · rw [if_pos hp, if_pos hp]
            have hnone : olookup d0 k = none := by
              rcases hl : olookup d0 k with _ | v
              · rfl
              · exfalso
                apply hany
                rw [hp]
                clear hany ih
                induction d0 with
                | nil => exact Option.noConfusion hl
                | cons e2 t2 ih2 =>
                  rcases e2 with ⟨k2, v2⟩
                  rw [olookup] at hl
                  rw [List.any_cons]
                  by_cases hk2 : k2 = k
                  · simp [hk2]
                  · rw [if_neg hk2] at hl
                    simp [ih2 hl]
            rw [hnone]
            rfl
          · rw [if_neg hp, if_neg hp]
    · rw [if_neg hc, if_neg hc]

/-- C6 (amended): for every key, the reference-audio map the reader builds
resolves to the manifest-derived bytes when any manifest entry with a
non-EMPTY (`if not file_path`) file path present in the archive has that
basename (the last such manifest entry winning), and otherwise to the
first non-directory `reference/` entry with that basename; scan results
never overwrite manifest-derived ones, and referenced paths absent from
the archive are silently skipped. -/
theorem read_reference_audio_characterization (a : Archive) (m : VoxManifest)
    (k : String) :
    olookup (VoxReader.read_reference_audio a m) k =
      oor (olookup (specStep1Pairs a (m.reference_audio.getD [])).reverse k)
          (olookup (specScanPairs a) k) := by
  rw [VoxReader.read_reference_audio]
  rw [scan_fold_olookup, step1_fold_olookup]
  simp only [specScanPairs, olookup, oor_none_right]

/-- An archive holding one entry whose name is a single space, and a
manifest referencing that whitespace-only (blank but non-empty) path. -/
def blankPathArchive : Archive := ⟨[(" ", EntryData.notUtf8 [0])]⟩

/-- The manifest referencing the whitespace-only path. -/
def blankPathManifest : VoxManifest :=
  { reference_audio := some [{ file := " " }] }

/-- C6 counterexample: the claim says entries with a blank file path are
skipped, but the code skips only EMPTY paths (`if not file_path`): for a
whitespace-only referenced path that exists in the archive, the reader
stores its bytes, while the claim's blank-skipping step 1 (and the scan)
produce nothing. -/
theorem refaudio_blank_path_cex :
    VoxReader.read_reference_audio blankPathArchive blankPathManifest =
      [(" ", EntryData.notUtf8 [0])] ∧
    specStep1PairsBlank blankPathArchive [{ file := " " }] = [] ∧
    specScanPairs blankPathArchive = [] := by
  refine ⟨?_, ?_, ?_⟩ <;> rfl

/-!
### The key-sorting layer (`sort_keys=True`)

Python's `sorted` is a stable sort; `List.insertionSort` is too.  The
lemmas below establish the interaction of `sortEntriesByKey` with lookup,
`all`, `filter` and `map`, and its idempotence — no uniqueness-of-keys
assumptions are needed anywhere thanks to stability.
-/

theorem strLeB_refl : ∀ a : List Char, strLeB a a = true
  | [] => rfl
  | c :: cs => by
    rw [strLeB, if_neg (Nat.lt_irrefl _), if_neg (Nat.lt_irrefl _)]
    exact strLeB_refl cs

theorem strLeB_total : ∀ a b : List Char, strLeB a b = true ∨ strLeB b a = true
  | [], _ => Or.inl rfl
  | _ :: _, [] => Or.inr rfl
  | c :: cs, d :: ds => by
    rw [strLeB, strLeB]
    rcases Nat.lt_trichotomy c.toNat d.toNat with h | h | h
    · exact Or.inl (by rw [if_pos h])
    · rw [if_neg (by omega), if_neg (by omega), if_neg (by omega), if_neg (by omega)]
      exact strLeB_total cs ds
    · exact Or.inr (by rw [if_pos h])

theorem strLeB_trans : ∀ a b c : List Char,
    strLeB a b = true → strLeB b c = true → strLeB a c = true
  | [], _, _, _, _ => rfl
  | x :: xs, [], _, hab, _ => Bool.noConfusion hab
  | _ :: _, _ :: _, [], _, hbc => Bool.noConfusion hbc
  | x :: xs, y :: ys, z :: zs, hab, hbc => by
    rw [strLeB] at hab hbc ⊢
    rcases Nat.lt_trichotomy x.toNat y.toNat with h1 | h1 | h1
    · rcases Nat.lt_trichotomy y.toNat z.toNat with h2 | h2 | h2
      · rw [if_pos (by omega)]
      · rw [if_pos (by omega)]
      · rw [if_neg (by omega), if_pos h2] at hbc
        exact Bool.noConfusion hbc
    · rcases Nat.lt_trichotomy y.toNat z.toNat with h2 | h2 | h2
      · rw [if_pos (by omega)]
      · rw [if_neg (by omega), if_neg (by omega)]
        rw [if_neg (by omega), if_neg (by omega)] at hab
        rw [if_neg (by omega), if_neg (by omega)] at hbc
        exact strLeB_trans xs ys zs hab hbc
      · rw [if_neg (by omega), if_pos h2] at hbc
        exact Bool.noConfusion hbc
    · rw [if_neg (by omega), if_pos h1] at hab
      exact Bool.noConfusion hab

instance : IsTotal (String × Json) entryLe :=
  ⟨fun a b => strLeB_total a.1.data b.1.data⟩

instance : IsTrans (String × Json) entryLe :=
  ⟨fun a b c => strLeB_trans a.1.data b.1.data c.1.data⟩

/-- Entries with equal keys always compare `≤` (keys are all the order
looks at), which drives the stability arguments below. -/
theorem entryLe_of_key_eq {a b : String × Json} (h : a.1 = b.1) : entryLe a b := by
  rw [entryLe, h]
  exact strLeB_refl b.1.data

/-- Inserting an entry never changes the first match for any OTHER key,
and the inserted entry wins its own key exactly when that key was — by
stability — not bound before it.  In first-match terms: the inserted
entry's key lookup becomes the inserted value exactly as if it had been
prepended. -/
theorem lookupKey_orderedInsert (e : String × Json) (L : List (String × Json)) (k : String) :
    lookupKey (List.orderedInsert entryLe e L) k =
      if e.1 = k then some e.2 else lookupKey L k := by
  induction L with
  | nil => rfl
  | cons y t ih =>
    by_cases h : entryLe e y
    · rw [List.orderedInsert, if_pos h]
      rfl
    · have hne : e.1 ≠ y.1 := fun hk => h (entryLe_of_key_eq hk)
      rw [List.orderedInsert, if_neg h]
      show (if y.1 = k then some y.2 else lookupKey (List.orderedInsert entryLe e t) k) = _
      rw [ih]
      by_cases hy : y.1 = k
      · have hek : e.1 ≠ k := fun hk => hne (hk.trans hy.symm)
        rw [if_pos hy, if_neg hek]
        show _ = (if y.1 = k then some y.2 else lookupKey t k)
        rw [if_pos hy]
      · rw [if_neg hy]
        by_cases he : e.1 = k
        · rw [if_pos he, if_pos he]
        · rw [if_neg he, if_neg he]
          show _ = (if y.1 = k then some y.2 else lookupKey t k)
          rw [if_neg hy]

/-- Sorting by key — a stable sort — never changes any first-match lookup,
whether or not keys repeat. -/
theorem lookupKey_sortEntriesByKey (l : List (String × Json)) (k : String) :
    lookupKey (sortEntriesByKey l) k = lookupKey l k := by
  induction l with
  | nil => rfl
  | cons e t ih =>
    rw [sortEntriesByKey, List.insertionSort, lookupKey_orderedInsert]
    show _ = (if e.1 = k then some e.2 else lookupKey t k)
    rw [← ih]
    rfl

theorem all_orderedInsert (f : (String × Json) → Bool) (e : String × Json)
    (L : List (String × Json)) :
    (List.orderedInsert entryLe e L).all f = (f e && L.all f) := by
  induction L with
  | nil => rw [List.orderedInsert, List.all_cons, List.all_nil]
  | cons y t ih =>
    by_cases h : entryLe e y
    · rw [List.orderedInsert, if_pos h, List.all_cons]
    · rw [List.orderedInsert, if_neg h, List.all_cons, ih, List.all_cons,
        Bool.and_left_comm]

theorem all_sortEntriesByKey (f : (String × Json) → Bool) (l : List (String × Json)) :
    (sortEntriesByKey l).all f = l.all f := by
  induction l with
  | nil => rfl
  | cons e t ih =>
    rw [sortEntriesByKey, List.insertionSort, all_orderedInsert, List.all_cons]
    rw [sortEntriesByKey] at ih
    rw [ih]

theorem sorted_sortEntriesByKey (l : List (String × Json)) :
    List.Sorted entryLe (sortEntriesByKey l) :=
  List.sorted_insertionSort entryLe l

/-- Sorting an already-sorted entry list is the identity. -/
theorem sortEntriesByKey_of_sorted {l : List (String × Json)}
    (h : List.Sorted entryLe l) : sortEntriesByKey l = l :=
  h.insertionSort_eq

/-- Key-sorting is idempotent. -/
theorem sortEntriesByKey_idem (l : List (String × Json)) :
    sortEntriesByKey (sortEntriesByKey l) = sortEntriesByKey l :=
  sortEntriesByKey_of_sorted (sorted_sortEntriesByKey l)

theorem orderedInsert_eq_cons (e : String × Json) (L : List (String × Json))
    (h : ∀ z ∈ L, entryLe e z) : List.orderedInsert entryLe e L = e :: L := by
  cases L with
  | nil => rfl
  | cons y t => rw [List.orderedInsert, if_pos (h y (List.mem_cons_self y t))]

/-- Filtering commutes with insertion into a sorted list: a stable sort
drops and keeps elements without disturbing the relative order of the
kept ones. -/
theorem filter_orderedInsert (p : (String × Json) → Bool) (e : String × Json) :
    ∀ L : List (String × Json), List.Sorted entryLe L →
      (List.orderedInsert entryLe e L).filter p =
        if p e then List.orderedInsert entryLe e (L.filter p) else L.filter p := by
  intro L
  induction L with
  | nil =>
    intro _
    cases hp : p e <;> simp [hp, List.orderedInsert]
  | cons y t ih =>
    intro hs
    by_cases h : entryLe e y
    · rw [List.orderedInsert, if_pos h, List.filter_cons]
      by_cases hp : p e
      · rw [if_pos hp, if_pos hp, orderedInsert_eq_cons]
        intro z hz
        rcases List.mem_cons.mp (List.mem_of_mem_filter hz) with rfl | hz'
        · exact h
        · exact Trans.trans h (List.rel_of_sorted_cons hs z hz')
      · rw [if_neg hp, if_neg hp]
    · rw [List.orderedInsert, if_neg h, List.filter_cons, List.filter_cons,
        ih hs.of_cons]
      by_cases hy : p y
      · rw [if_pos hy, if_pos hy]
        by_cases hp : p e
        · rw [if_pos hp, if_pos hp, List.orderedInsert, if_neg h]
        · rw [if_neg hp, if_neg hp]
      · rw [if_neg hy, if_neg hy]

theorem filter_sortEntriesByKey (p : (String × Json) → Bool) (l : List (String × Json)) :
    (sortEntriesByKey l).filter p = sortEntriesByKey (l.filter p) := by
  induction l with
  | nil => rfl
  | cons e t ih =>
    have h1 : sortEntriesByKey (e :: t) =
        List.orderedInsert entryLe e (sortEntriesByKey t) := rfl
    rw [h1, filter_orderedInsert p e _ (sorted_sortEntriesByKey t), List.filter_cons]
    by_cases hp : p e
    · rw [if_pos hp, if_pos hp, ih]
      rfl
    · rw [if_neg hp, if_neg hp, ih]

/-- Key-sorting commutes with any entry map that preserves keys. -/
theorem map_sortEntriesByKey (f : (String × Json) → (String × Json))
    (hf : ∀ e, (f e).1 = e.1) (l : List (String × Json)) :
    (sortEntriesByKey l).map f = sortEntriesByKey (l.map f) := by
  rw [sortEntriesByKey, sortEntriesByKey]
  exact List.map_insertionSort entryLe entryLe f l fun a _ b _ => by
    rw [entryLe, entryLe, hf, hf]

/-!
### Canon/clean algebra

`Json.canon` models a `dumps(sort_keys=True)`/`loads` round trip and
`Json.clean` models `_clean_dict`.  The map/filter forms below, together
with the sorting layer, give: `canon` is idempotent, and `canon ∘ clean`
only depends on a value through its `canon` image — which is exactly why
`to_json` is insensitive to dict insertion order.
-/

theorem canonList_eq_map (l : List Json) : Json.canonList l = l.map Json.canon := by
  induction l with
  | nil => rfl
  | cons x xs ih => rw [Json.canonList, ih, List.map_cons]

theorem canonEntries_eq_map (l : List (String × Json)) :
    Json.canonEntries l = l.map fun e => (e.1, e.2.canon) := by
  induction l with
  | nil => rfl
  | cons e xs ih =>
    rcases e with ⟨k, v⟩
    rw [Json.canonEntries, ih, List.map_cons]

theorem cleanList_eq_map (l : List Json) : Json.cleanList l = l.map Json.clean := by
  induction l with
  | nil => rfl
  | cons x xs ih => rw [Json.cleanList, ih, List.map_cons]

theorem cleanEntries_eq_filter_map (l : List (String × Json)) :
    Json.cleanEntries l =
      (l.filter fun e => !decide (e.2 = Json.null)).map fun e => (e.1, e.2.clean) := by
  induction l with
  | nil => rfl
  | cons e xs ih =>
    rcases e with ⟨k, v⟩
    rw [Json.cleanEntries, List.filter_cons]
    by_cases hv : v = Json.null
    · rw [if_pos hv, ih, if_neg (by simp [hv])]
    · rw [if_neg hv, ih, if_pos (by simp [hv]), List.map_cons]

theorem canon_eq_null_iff (j : Json) : j.canon = Json.null ↔ j = Json.null := by
  cases j <;> simp [Json.canon]

mutual
/-- `canon` is idempotent: a `dumps`/`loads` round trip is stable. -/
theorem canon_canon : ∀ j : Json, j.canon.canon = j.canon
  | .null => rfl
  | .bool _ => rfl
  | .num _ => rfl
  | .str _ => rfl
  | .arr xs => by
    show Json.arr (Json.canonList (Json.canonList xs)) = Json.arr (Json.canonList xs)
    rw [canonList_eq_map, canonList_eq_map, List.map_map]
    exact congrArg Json.arr (List.map_congr_left fun x hx => canon_canon_list xs x hx)
  | .obj xs => by
    show Json.obj (sortEntriesByKey (Json.canonEntries
        (sortEntriesByKey (Json.canonEntries xs)))) =
      Json.obj (sortEntriesByKey (Json.canonEntries xs))
    rw [canonEntries_eq_map xs, canonEntries_eq_map,
      map_sortEntriesByKey (fun e => (e.1, e.2.canon)) (fun e => rfl),
      sortEntriesByKey_idem, List.map_map]
    refine congrArg Json.obj (congrArg sortEntriesByKey ?_)
    exact List.map_congr_left fun e he => by
      show (e.1, e.2.canon.canon) = (e.1, e.2.canon)
      rw [canon_canon_entries xs e he]

/-- `canon_canon` for every element of an array. -/
theorem canon_canon_list : ∀ l : List Json, ∀ x ∈ l, x.canon.canon = x.canon
  | [], x, hx => absurd hx (List.not_mem_nil x)
  | y :: t, x, hx => by
    have h : x = y ∨ x ∈ t := List.mem_cons.mp hx
    rcases h with h | hx'
    · rw [h]; exact canon_canon y
    · exact canon_canon_list t x hx'

/-- `canon_canon` for every entry value of an object. -/
theorem canon_canon_entries : ∀ l : List (String × Json), ∀ e ∈ l,
    e.2.canon.canon = e.2.canon
  | [], e, he => absurd he (List.not_mem_nil e)
  | (k, v) :: t, e, he => by
    have h : e = (k, v) ∨ e ∈ t := List.mem_cons.mp he
    rcases h with h | he'
    · rw [h]; exact canon_canon v
    · exact canon_canon_entries t e he'
end

mutual
/-- The key identity behind `to_json`'s insensitivity to dict order:
cleaning after a sort/canon pass and re-canoning gives the same tree as
cleaning the original and canoning.  Stability of the sort makes this
unconditional. -/
theorem canon_clean_canon : ∀ j : Json, j.canon.clean.canon = j.clean.canon
  | .null => rfl
  | .bool _ => rfl
  | .num _ => rfl
  | .str _ => rfl
  | .arr xs => by
    show Json.arr (Json.canonList (Json.cleanList (Json.canonList xs))) =
      Json.arr (Json.canonList (Json.cleanList xs))
    rw [canonList_eq_map, canonList_eq_map, canonList_eq_map, cleanList_eq_map,
      cleanList_eq_map, List.map_map, List.map_map, List.map_map]
    exact congrArg Json.arr (List.map_congr_left fun x hx => by
      show x.canon.clean.canon = x.clean.canon
      exact canon_clean_canon_list xs x hx)
  | .obj xs => by
    show Json.obj (sortEntriesByKey (Json.canonEntries (Json.cleanEntries
        (sortEntriesByKey (Json.canonEntries xs))))) =
      Json.obj (sortEntriesByKey (Json.canonEntries (Json.cleanEntries xs)))
    rw [cleanEntries_eq_filter_map, cleanEntries_eq_filter_map,
      canonEntries_eq_map xs, canonEntries_eq_map, canonEntries_eq_map,
      filter_sortEntriesByKey,
      map_sortEntriesByKey (fun e => (e.1, e.2.clean)) (fun e => rfl),
      map_sortEntriesByKey (fun e => (e.1, e.2.canon)) (fun e => rfl),
      sortEntriesByKey_idem, List.filter_map,
      List.map_map, List.map_map, List.map_map]
    refine congrArg Json.obj (congrArg sortEntriesByKey ?_)
    have hfilt : List.filter
        ((fun e => !decide (e.2 = Json.null)) ∘ fun e => (e.1, e.2.canon)) xs =
        List.filter (fun e => !decide (e.2 = Json.null)) xs :=
      List.filter_congr fun e _ => by
        show ((!decide (e.2.canon = Json.null)) : Bool) = !decide (e.2 = Json.null)
        simp [canon_eq_null_iff]
    rw [hfilt]
    exact List.map_congr_left fun e he => by
      show (e.1, e.2.canon.clean.canon) = (e.1, e.2.clean.canon)
      rw [canon_clean_canon_entries xs e (List.mem_of_mem_filter he)]

/-- `canon_clean_canon` for every element of an array. -/
theorem canon_clean_canon_list : ∀ l : List Json, ∀ x ∈ l,
    x.canon.clean.canon = x.clean.canon
  | [], x, hx => absurd hx (List.not_mem_nil x)
  | y :: t, x, hx => by
    have h : x = y ∨ x ∈ t := List.mem_cons.mp hx
    rcases h with h | hx'
    · rw [h]; exact canon_clean_canon y
    · exact canon_clean_canon_list t x hx'

/-- `canon_clean_canon` for every entry value of an object. -/
theorem canon_clean_canon_entries : ∀ l : List (String × Json), ∀ e ∈ l,
    e.2.canon.clean.canon = e.2.clean.canon
  | [], e, he => absurd he (List.not_mem_nil e)
  | (k, v) :: t, e, he => by
    have h : e = (k, v) ∨ e ∈ t := List.mem_cons.mp he
    rcases h with h | he'
    · rw [h]; exact canon_clean_canon v
    · exact canon_clean_canon_entries t e he'
end

/-- Two JSON trees with the same canon image (Python `==` on values read
back from JSON, i.e. dict-order-insensitive equality) keep the same canon
image after cleaning. -/
theorem canon_clean_congr {a b : Json} (h : a.canon = b.canon) :
    a.clean.canon = b.clean.canon := by
  rw [← canon_clean_canon a, ← canon_clean_canon b, h]

/-- Equality of manifests as Python `==` sees values that live in dicts:
their `asdict` trees are equal up to dict key order at every level
(Python dict equality ignores insertion order). -/
def VoxManifest.pyEq (a b : VoxManifest) : Prop :=
  a.asdict.canon = b.asdict.canon

/-!
### C8: determinism of `to_json`
-/

/-- C8: `to_json` is deterministic: the output bytes are a function of the
manifest VALUE alone.  In the pure embedding two calls on the same `m` are
trivially identical, so the theorem states the strongest sense in which
the Python encoder is deterministic: any two manifests that are equal as
Python values (`pyEq` — dict equality ignores insertion order at every
nesting level) serialize to the identical string, because `sort_keys=True`
emits each object's keys in sorted (lexicographic code-point) order at
every level and indentation and `None`-stripping are fixed functions of
the value. -/
theorem to_json_deterministic (a b : VoxManifest) (h : a.pyEq b) :
    a.to_json = b.to_json := by
  rw [VoxManifest.to_json, VoxManifest.to_json, VoxManifest.to_dict,
    VoxManifest.to_dict, Json.dumps, Json.dumps]
  exact congrArg (Json.rawDump 0) (canon_clean_congr h)

/-- A manifest whose `extensions` dict was built in one insertion order. -/
def detWitnessA : VoxManifest :=
  { vox_version := "0.1.0", id := "u", created := "t",
    voice := { name := "N", description := "D" },
    extensions := some (.obj [("a", .num 1), ("b", .str "x")]) }

/-- The same Python value with `extensions` built in the other order. -/
def detWitnessB : VoxManifest :=
  { vox_version := "0.1.0", id := "u", created := "t",
    voice := { name := "N", description := "D" },
    extensions := some (.obj [("b", .str "x"), ("a", .num 1)]) }

theorem to_json_deterministic_witness :
    detWitnessA.pyEq detWitnessB ∧ detWitnessA.to_json = detWitnessB.to_json :=
  have h : detWitnessA.pyEq detWitnessB := by
    rw [VoxManifest.pyEq]; decide
  ⟨h, to_json_deterministic detWitnessA detWitnessB h⟩

/-!
### C1: `to_json` → `loads` → `from_dict` round trip

`loads(m.to_json())` is `Json.canon m.to_dict` (see `Json.canon`), so the
round trip is `from_dict (canon (clean (asdict m)))`.  The lemmas below
compute each `from_dict` stage on data of that shape.
-/

theorem lookupKey_canonEntries (l : List (String × Json)) (k : String) :
    lookupKey (Json.canonEntries l) k = (lookupKey l k).map Json.canon := by
  induction l with
  | nil => rfl
  | cons e t ih =>
    rcases e with ⟨k0, v0⟩
    rw [Json.canonEntries]
    show (if k0 = k then some v0.canon else lookupKey (Json.canonEntries t) k) =
      (if k0 = k then some v0 else lookupKey t k).map Json.canon
    by_cases hk : k0 = k
    · rw [if_pos hk, if_pos hk]
      rfl
    · rw [if_neg hk, if_neg hk, ih]

theorem lookupKey_cleanEntries_cons (k0 : String) (v0 : Json)
    (rest : List (String × Json)) (k : String) :
    lookupKey (Json.cleanEntries ((k0, v0) :: rest)) k =
      if v0 = Json.null then lookupKey (Json.cleanEntries rest) k
      else if k0 = k then some v0.clean else lookupKey (Json.cleanEntries rest) k := by
  rw [Json.cleanEntries]
  by_cases hv : v0 = Json.null
  · rw [if_pos hv, if_pos hv]
  · rw [if_neg hv, if_neg hv]
    rfl

/-- Walking past an entry with a different key, whatever its value. -/
theorem lookup_clean_pass (k0 : String) (v0 : Json) (rest : List (String × Json))
    (k : String) (hk : k0 ≠ k) :
    lookupKey (Json.cleanEntries ((k0, v0) :: rest)) k =
      lookupKey (Json.cleanEntries rest) k := by
  rw [lookupKey_cleanEntries_cons]
  by_cases hv : v0 = Json.null
  · rw [if_pos hv]
  · rw [if_neg hv, if_neg hk]

/-- A non-`null`-valued entry is kept by `_clean_dict` and hit by lookup. -/
theorem lookup_clean_hit (k0 : String) (v0 : Json) (rest : List (String × Json))
    (hv : v0 ≠ Json.null) :
    lookupKey (Json.cleanEntries ((k0, v0) :: rest)) k0 = some v0.clean := by
  rw [lookupKey_cleanEntries_cons, if_neg hv, if_pos rfl]

/-- A `null`-valued entry is dropped by `_clean_dict`. -/
theorem lookup_clean_null (k0 : String) (rest : List (String × Json)) (k : String) :
    lookupKey (Json.cleanEntries ((k0, Json.null) :: rest)) k =
      lookupKey (Json.cleanEntries rest) k := by
  rw [lookupKey_cleanEntries_cons, if_pos rfl]

/-- Lookup in the data `from_dict` receives after a `to_json`/`loads`
round trip reduces to a lookup in the cleaned entries. -/
theorem lookup_sorted_canon_clean (l : List (String × Json)) (k : String) :
    lookupKey (sortEntriesByKey (Json.canonEntries (Json.cleanEntries l))) k =
      (lookupKey (Json.cleanEntries l) k).map Json.canon := by
  rw [lookupKey_sortEntriesByKey, lookupKey_canonEntries]

theorem allowedKeys_canonEntries (l : List (String × Json)) (A : List String) :
    allowedKeys (Json.canonEntries l) A = allowedKeys l A := by
  rw [allowedKeys, allowedKeys, canonEntries_eq_map, List.all_map]
  rfl

theorem allowedKeys_sortEntriesByKey (l : List (String × Json)) (A : List String) :
    allowedKeys (sortEntriesByKey l) A = allowedKeys l A :=
  all_sortEntriesByKey _ l

theorem allowedKeys_cleanEntries_of {l : List (String × Json)} {A : List String}
    (h : ∀ e ∈ l, A.contains e.1 = true) :
    allowedKeys (Json.cleanEntries l) A = true := by
  induction l with
  | nil => rfl
  | cons e t ih =>
    rcases e with ⟨k0, v0⟩
    rw [Json.cleanEntries]
    by_cases hv : v0 = Json.null
    · rw [if_pos hv]
      exact ih fun e he => h e (List.mem_cons_of_mem _ he)
    · rw [if_neg hv, allowedKeys, List.all_cons]
      have h0 : A.contains (k0, v0.clean).1 = true := h (k0, v0) (List.mem_cons_self _ _)
      have ht := ih fun e he => h e (List.mem_cons_of_mem _ he)
      rw [allowedKeys] at ht
      rw [h0, ht]
      rfl

/-- The data reaching every nested keyword expansion is all-keys-allowed
whenever the original entry list's keys were. -/
theorem allowedKeys_roundtrip {l : List (String × Json)} {A : List String}
    (h : ∀ e ∈ l, A.contains e.1 = true) :
    allowedKeys (sortEntriesByKey (Json.canonEntries (Json.cleanEntries l))) A = true := by
  rw [allowedKeys_sortEntriesByKey, allowedKeys_canonEntries]
  exact allowedKeys_cleanEntries_of h

theorem canonList_map_num (l : List Int) :
    Json.canonList (l.map Json.num) = l.map Json.num := by
  induction l with
  | nil => rfl
  | cons x xs ih =>
    show Json.canon (Json.num x) :: Json.canonList (xs.map Json.num) = _
    rw [ih]
    rfl

theorem canonList_map_str (l : List String) :
    Json.canonList (l.map Json.str) = l.map Json.str := by
  induction l with
  | nil => rfl
  | cons x xs ih =>
    show Json.canon (Json.str x) :: Json.canonList (xs.map Json.str) = _
    rw [ih]
    rfl

theorem cleanList_map_num (l : List Int) :
    Json.cleanList (l.map Json.num) = l.map Json.num := by
  induction l with
  | nil => rfl
  | cons x xs ih =>
    show Json.clean (Json.num x) :: Json.cleanList (xs.map Json.num) = _
    rw [ih]
    rfl

theorem cleanList_map_str (l : List String) :
    Json.cleanList (l.map Json.str) = l.map Json.str := by
  induction l with
  | nil => rfl
  | cons x xs ih =>
    show Json.clean (Json.str x) :: Json.cleanList (xs.map Json.str) = _
    rw [ih]
    rfl

theorem cleanEntries_map_strPair (l : List (String × String)) :
    Json.cleanEntries (l.map fun e => (e.1, Json.str e.2)) =
      l.map fun e => (e.1, Json.str e.2) := by
  induction l with
  | nil => rfl
  | cons e t ih =>
    show Json.cleanEntries ((e.1, Json.str e.2) :: t.map fun e => (e.1, Json.str e.2)) = _
    rw [Json.cleanEntries, if_neg (fun h => Json.noConfusion h), ih]
    rfl

theorem canonEntries_map_strPair (l : List (String × String)) :
    Json.canonEntries (l.map fun e => (e.1, Json.str e.2)) =
      l.map fun e => (e.1, Json.str e.2) := by
  induction l with
  | nil => rfl
  | cons e t ih =>
    show (e.1, Json.canon (Json.str e.2)) :: Json.canonEntries
      (t.map fun e => (e.1, Json.str e.2)) = _
    rw [ih]
    rfl

/-- The key order on `Dict[str, str]` items (same order as `entryLe`). -/
def relLe (a b : String × String) : Prop := strLeB a.1.data b.1.data = true

instance : DecidableRel relLe := fun a b => by
  rw [relLe]; infer_instance

/-- `sort_keys=True` applied to a `Dict[str, str]`, at the level of the
string pairs themselves. -/
def sortRelByKey (l : List (String × String)) : List (String × String) :=
  List.insertionSort relLe l

theorem sortEntries_map_strPair (l : List (String × String)) :
    sortEntriesByKey (l.map fun e => (e.1, Json.str e.2)) =
      (sortRelByKey l).map fun e => (e.1, Json.str e.2) := by
  rw [sortEntriesByKey, sortRelByKey]
  exact (List.map_insertionSort relLe entryLe (fun e => (e.1, Json.str e.2)) l
    fun a _ b _ => Iff.rfl).symm

theorem mapM_jsonToStrElem (msg : String) (l : List String) :
    (l.map Json.str).mapM (jsonToStrElem msg) = Except.ok l := by
  induction l with
  | nil => rfl
  | cons x xs ih =>
    rw [List.map_cons, List.mapM_cons,
      show jsonToStrElem msg (Json.str x) = Except.ok x from rfl,
      except_ok_bind, ih, except_ok_bind]
    rfl

theorem mapM_jsonToIntElem (msg : String) (l : List Int) :
    (l.map Json.num).mapM (jsonToIntElem msg) = Except.ok l := by
  induction l with
  | nil => rfl
  | cons x xs ih =>
    rw [List.map_cons, List.mapM_cons,
      show jsonToIntElem msg (Json.num x) = Except.ok x from rfl,
      except_ok_bind, ih, except_ok_bind]
    rfl

theorem mapM_jsonToStrPair (msg : String) (l : List (String × String)) :
    (l.map fun e => (e.1, Json.str e.2)).mapM (jsonToStrPair msg) = Except.ok l := by
  induction l with
  | nil => rfl
  | cons x xs ih =>
    rw [List.map_cons, List.mapM_cons,
      show jsonToStrPair msg (x.1, Json.str x.2) = Except.ok (x.1, x.2) from rfl,
      except_ok_bind, ih, except_ok_bind]
    rfl

theorem kwStr_of_lookup {E : List (String × Json)} {k d s : String}
    (h : lookupKey E k = some (Json.str s)) : kwStr E k d = .ok s := by
  rw [kwStr, h]

theorem kwOptStr_of_lookup {E : List (String × Json)} {k : String} {o : Option String}
    (h : lookupKey E k = o.map Json.str) : kwOptStr E k = .ok o := by
  cases o with
  | none => rw [kwOptStr, h]; rfl
  | some s => rw [kwOptStr, h]; rfl

theorem kwOptNum_of_lookup {E : List (String × Json)} {k : String} {o : Option Int}
    (h : lookupKey E k = o.map Json.num) : kwOptNum E k = .ok o := by
  cases o with
  | none => rw [kwOptNum, h]; rfl
  | some n => rw [kwOptNum, h]; rfl

theorem kwOptIntList_of_lookup {E : List (String × Json)} {k : String}
    {o : Option (List Int)}
    (h : lookupKey E k = o.map fun l => Json.arr (l.map Json.num)) :
    kwOptIntList E k = .ok o := by
  cases o with
  | none => rw [kwOptIntList, h]; rfl
  | some l =>
    rw [kwOptIntList, h]
    show (fun ns => some ns) <$>
      (l.map Json.num).mapM (jsonToIntElem (k ++ ": not an int element")) = Except.ok (some l)
    rw [mapM_jsonToIntElem]
    rfl

theorem kwOptStrList_of_lookup {E : List (String × Json)} {k : String}
    {o : Option (List String)}
    (h : lookupKey E k = o.map fun l => Json.arr (l.map Json.str)) :
    kwOptStrList E k = .ok o := by
  cases o with
  | none => rw [kwOptStrList, h]; rfl
  | some l =>
    rw [kwOptStrList, h]
    show (fun ss => some ss) <$>
      (l.map Json.str).mapM (jsonToStrElem (k ++ ": not a string element")) =
        Except.ok (some l)
    rw [mapM_jsonToStrElem]
    rfl

theorem kwOptStrDict_of_lookup {E : List (String × Json)} {k : String}
    {o : Option (List (String × String))}
    (h : lookupKey E k = o.map fun l => Json.obj (l.map fun e => (e.1, Json.str e.2))) :
    kwOptStrDict E k = .ok o := by
  cases o with
  | none => rw [kwOptStrDict, h]; rfl
  | some l =>
    rw [kwOptStrDict, h]
    show (fun ps => some ps) <$>
      (l.map fun e => (e.1, Json.str e.2)).mapM (jsonToStrPair (k ++ ": not a string value")) =
        Except.ok (some l)
    rw [mapM_jsonToStrPair]
    rfl

/-- The entry list `from_dict` actually receives for an object that went
through `clean` (`to_dict`) and a `dumps(sort_keys=True)`/`loads` round
trip (`canon`). -/
def roundE (l : List (String × Json)) : List (String × Json) :=
  sortEntriesByKey (Json.canonEntries (Json.cleanEntries l))

/-- `canon` never changes Python truthiness: scalars are untouched and
array/object emptiness is preserved by per-element maps and the sort. -/
theorem truthy_canon (j : Json) : j.canon.truthy = j.truthy := by
  cases j with
  | null => rfl
  | bool b => rfl
  | num n => rfl
  | str s => rfl
  | arr items => cases items <;> rfl
  | obj entries =>
    cases entries with
    | nil => rfl
    | cons e t =>
      show (sortEntriesByKey (Json.canonEntries (e :: t)) != []) = ((e :: t) != [])
      have hlen : (sortEntriesByKey (Json.canonEntries (e :: t))).length =
          (Json.canonEntries (e :: t)).length := by
        rw [sortEntriesByKey, List.length_insertionSort]
      cases hs : sortEntriesByKey (Json.canonEntries (e :: t)) with
      | nil =>
        rw [hs, canonEntries_eq_map] at hlen
        simp at hlen
      | cons y ys => rfl

/-- An optional section whose key is absent parses to `None`. -/
theorem sectionStage_lookup_none {α : Type} (parse : Json → Except String α)
    (data : List (String × Json)) (key : String)
    (h : lookupKey data key = none) : sectionStage parse data key = .ok none := by
  rw [sectionStage, h]
  rfl

/-- A present, truthy section parses through its section parser. -/
theorem sectionStage_lookup_ok {α : Type} {parse : Json → Except String α}
    {data : List (String × Json)} {key : String} {v : Json} {x : α}
    (h : lookupKey data key = some v) (ht : v.truthy = true) (hp : parse v = .ok x) :
    sectionStage parse data key = .ok (some x) := by
  rw [sectionStage, h]
  show (if v.truthy = true then (fun x => some x) <$> parse v else pure none) = _
  rw [if_pos ht, hp]
  rfl

theorem voiceStage_lookup_ok {data : List (String × Json)} {v : Json} {x : Voice}
    (h : lookupKey data "voice" = some v) (ht : v.truthy = true)
    (hp : parseVoice v = .ok x) : voiceStage data = .ok x := by
  rw [voiceStage, h]
  show (if v.truthy = true then parseVoice v else pure {}) = _
  rw [if_pos ht, hp]

theorem charSourceStage_lookup_none {entries : List (String × Json)}
    (h : lookupKey entries "source" = none) : charSourceStage entries = .ok none := by
  rw [charSourceStage, h]
  rfl

theorem charSourceStage_lookup_ok {entries : List (String × Json)} {v : Json} {x : Source}
    (h : lookupKey entries "source" = some v) (ht : v.truthy = true)
    (hp : parseSource v = .ok x) : charSourceStage entries = .ok (some x) := by
  have hnn : ¬(v = Json.null) := fun he => by rw [he] at ht; exact Bool.noConfusion ht
  rw [charSourceStage, h]
  show (if v = Json.null then pure none
    else if v.truthy = true then (fun s => some s) <$> parseSource v
    else Except.error "source: ill-typed passthrough") = _
  rw [if_neg hnn, if_pos ht, hp]
  rfl

theorem extensionsStage_lookup_none {data : List (String × Json)}
    (h : lookupKey data "extensions" = none) : extensionsStage data = none := by
  rw [extensionsStage, h]

theorem extensionsStage_lookup_some {data : List (String × Json)} {v : Json}
    (h : lookupKey data "extensions" = some v) (hnn : ¬(v = Json.null)) :
    extensionsStage data = some v := by
  rw [extensionsStage, h]
  show (if v = Json.null then none else some v) = _
  rw [if_neg hnn]

theorem srcE_work (s : Source) :
    lookupKey (roundE (Source.asdictEntries s)) "work" = Option.map Json.str s.work := by
  rw [roundE, lookup_sorted_canon_clean]
  simp only [Source.asdictEntries]
  cases s.work with
  | none =>
    simp only [oJson]
    rw [lookup_clean_null, lookup_clean_pass _ _ _ _ (by decide),
      lookup_clean_pass _ _ _ _ (by decide)]
    rfl
  | some w =>
    simp only [oJson]
    rw [lookup_clean_hit _ _ _ (fun h => Json.noConfusion h)]
    rfl

theorem srcE_format (s : Source) :
    lookupKey (roundE (Source.asdictEntries s)) "format" = Option.map Json.str s.format := by
  rw [roundE, lookup_sorted_canon_clean]
  simp only [Source.asdictEntries]
  rw [lookup_clean_pass _ _ _ _ (by decide)]
  cases s.format with
  | none =>
    simp only [oJson]
    rw [lookup_clean_null, lookup_clean_pass _ _ _ _ (by decide)]
    rfl
  | some w =>
    simp only [oJson]
    rw [lookup_clean_hit _ _ _ (fun h => Json.noConfusion h)]
    rfl

theorem srcE_file (s : Source) :
    lookupKey (roundE (Source.asdictEntries s)) "file" = Option.map Json.str s.file := by
  rw [roundE, lookup_sorted_canon_clean]
  simp only [Source.asdictEntries]
  rw [lookup_clean_pass _ _ _ _ (by decide), lookup_clean_pass _ _ _ _ (by decide)]
  cases s.file with
  | none =>
    simp only [oJson]
    rw [lookup_clean_null]
    rfl
  | some w =>
    simp only [oJson]
    rw [lookup_clean_hit _ _ _ (fun h => Json.noConfusion h)]
    rfl

/-- `Source(**...)` round-trips every field through clean/sort/canon. -/
theorem parseSource_roundtrip (s : Source) :
    parseSource (Json.canon (Json.clean (Source.asdict s))) = .ok s := by
  have hA : allowedKeys (roundE (Source.asdictEntries s)) ["work", "format", "file"] = true := by
    rw [roundE]
    refine allowedKeys_roundtrip fun e he => ?_
    simp only [Source.asdictEntries, List.mem_cons, List.not_mem_nil, or_false] at he
    rcases he with rfl | rfl | rfl <;> rfl
  show parseSource (Json.obj (roundE (Source.asdictEntries s))) = .ok s
  rw [parseSource, if_pos hA, kwOptStr_of_lookup (srcE_work s), except_ok_bind,
    kwOptStr_of_lookup (srcE_format s), except_ok_bind,
    kwOptStr_of_lookup (srcE_file s), except_ok_bind]
  rfl

theorem prosE_pitch_base (p : Prosody) :
    lookupKey (roundE (Prosody.asdictEntries p)) "pitch_base" = Option.map Json.str p.pitch_base := by
  rw [roundE, lookup_sorted_canon_clean]
  simp only [Prosody.asdictEntries]
  cases p.pitch_base with
  | none =>
    simp only [oJson]
    rw [lookup_clean_null, lookup_clean_pass _ _ _ _ (by decide), lookup_clean_pass _ _ _ _ (by decide), lookup_clean_pass _ _ _ _ (by decide), lookup_clean_pass _ _ _ _ (by decide)]
    rfl
  | some w =>
    simp only [oJson]
    rw [lookup_clean_hit _ _ _ (fun h => Json.noConfusion h)]
    rfl

theorem prosE_pitch_range (p : Prosody) :
    lookupKey (roundE (Prosody.asdictEntries p)) "pitch_range" = Option.map Json.str p.pitch_range := by
  rw [roundE, lookup_sorted_canon_clean]
  simp only [Prosody.asdictEntries]
  rw [lookup_clean_pass _ _ _ _ (by decide)]
  cases p.pitch_range with
  | none =>
    simp only [oJson]
    rw [lookup_clean_null, lookup_clean_pass _ _ _ _ (by decide), lookup_clean_pass _ _ _ _ (by decide), lookup_clean_pass _ _ _ _ (by decide)]
    rfl
  | some w =>
    simp only [oJson]
    rw [lookup_clean_hit _ _ _ (fun h => Json.noConfusion h)]
    rfl

theorem prosE_rate (p : Prosody) :
    lookupKey (roundE (Prosody.asdictEntries p)) "rate" = Option.map Json.str p.rate := by
  rw [roundE, lookup_sorted_canon_clean]
  simp only [Prosody.asdictEntries]
  rw [lookup_clean_pass _ _ _ _ (by decide), lookup_clean_pass _ _ _ _ (by decide)]
  cases p.rate with
  | none =>
    simp only [oJson]
    rw [lookup_clean_null, lookup_clean_pass _ _ _ _ (by decide), lookup_clean_pass _ _ _ _ (by decide)]
    rfl
  | some w =>
    simp only [oJson]
    rw [lookup_clean_hit _ _ _ (fun h => Json.noConfusion h)]
    rfl

theorem prosE_energy (p : Prosody) :
    lookupKey (roundE (Prosody.asdictEntries p)) "energy" = Option.map Json.str p.energy := by
  rw [roundE, lookup_sorted_canon_clean]
  simp only [Prosody.asdictEntries]
  rw [lookup_clean_pass _ _ _ _ (by decide), lookup_clean_pass _ _ _ _ (by decide), lookup_clean_pass _ _ _ _ (by decide)]
  cases p.energy with
  | none =>
    simp only [oJson]
    rw [lookup_clean_null, lookup_clean_pass _ _ _ _ (by decide)]
    rfl
  | some w =>
    simp only [oJson]
    rw [lookup_clean_hit _ _ _ (fun h => Json.noConfusion h)]
    rfl

theorem prosE_emotion_default (p : Prosody) :
    lookupKey (roundE (Prosody.asdictEntries p)) "emotion_default" = Option.map Json.str p.emotion_default := by
  rw [roundE, lookup_sorted_canon_clean]
  simp only [Prosody.asdictEntries]
  rw [lookup_clean_pass _ _ _ _ (by decide), lookup_clean_pass _ _ _ _ (by decide), lookup_clean_pass _ _ _ _ (by decide), lookup_clean_pass _ _ _ _ (by decide)]
  cases p.emotion_default with
  | none =>
    simp only [oJson]
    rw [lookup_clean_null]
    rfl
  | some w =>
    simp only [oJson]
    rw [lookup_clean_hit _ _ _ (fun h => Json.noConfusion h)]
    rfl

/-- `Prosody(**...)` round-trips every field through clean/sort/canon. -/
theorem parseProsody_roundtrip (p : Prosody) :
    parseProsody (Json.canon (Json.clean (Prosody.asdict p))) = .ok p := by
  have hA : allowedKeys (roundE (Prosody.asdictEntries p))
      ["pitch_base", "pitch_range", "rate", "energy", "emotion_default"] = true := by
    rw [roundE]
    refine allowedKeys_roundtrip fun e he => ?_
    simp only [Prosody.asdictEntries, List.mem_cons, List.not_mem_nil, or_false] at he
    rcases he with rfl | rfl | rfl | rfl | rfl <;> rfl
  show parseProsody (Json.obj (roundE (Prosody.asdictEntries p))) = .ok p
  rw [parseProsody, if_pos hA, kwOptStr_of_lookup (prosE_pitch_base p), except_ok_bind,
    kwOptStr_of_lookup (prosE_pitch_range p), except_ok_bind,
    kwOptStr_of_lookup (prosE_rate p), except_ok_bind,
    kwOptStr_of_lookup (prosE_energy p), except_ok_bind,
    kwOptStr_of_lookup (prosE_emotion_default p), except_ok_bind]
  rfl

theorem voiceE_name (v : Voice) :
    lookupKey (roundE (Voice.asdictEntries v)) "name" = some (Json.str v.name) := by
  rw [roundE, lookup_sorted_canon_clean]
  simp only [Voice.asdictEntries]
  rw [lookup_clean_hit _ _ _ (fun h => Json.noConfusion h)]
  rfl

theorem voiceE_description (v : Voice) :
    lookupKey (roundE (Voice.asdictEntries v)) "description" = some (Json.str v.description) := by
  rw [roundE, lookup_sorted_canon_clean]
  simp only [Voice.asdictEntries]
  rw [lookup_clean_pass _ _ _ _ (by decide)]
  rw [lookup_clean_hit _ _ _ (fun h => Json.noConfusion h)]
  rfl

theorem voiceE_language (v : Voice) :
    lookupKey (roundE (Voice.asdictEntries v)) "language" = Option.map Json.str v.language := by
  rw [roundE, lookup_sorted_canon_clean]
  simp only [Voice.asdictEntries]
  rw [lookup_clean_pass _ _ _ _ (by decide), lookup_clean_pass _ _ _ _ (by decide)]
  cases v.language with
  | none =>
    simp only [oJson]
    rw [lookup_clean_null, lookup_clean_pass _ _ _ _ (by decide), lookup_clean_pass _ _ _ _ (by decide), lookup_clean_pass _ _ _ _ (by decide)]
    rfl
  | some w =>
    simp only [oJson]
    rw [lookup_clean_hit _ _ _ (fun h => Json.noConfusion h)]
    rfl

theorem voiceE_gender (v : Voice) :
    lookupKey (roundE (Voice.asdictEntries v)) "gender" = Option.map Json.str v.gender := by
  rw [roundE, lookup_sorted_canon_clean]
  simp only [Voice.asdictEntries]
  rw [lookup_clean_pass _ _ _ _ (by decide), lookup_clean_pass _ _ _ _ (by decide), lookup_clean_pass _ _ _ _ (by decide)]
  cases v.gender with
  | none =>
    simp only [oJson]
    rw [lookup_clean_null, lookup_clean_pass _ _ _ _ (by decide), lookup_clean_pass _ _ _ _ (by decide)]
    rfl
  | some w =>
    simp only [oJson]
    rw [lookup_clean_hit _ _ _ (fun h => Json.noConfusion h)]
    rfl

theorem voiceE_age_range (v : Voice) :
    lookupKey (roundE (Voice.asdictEntries v)) "age_range" =
      Option.map (fun l => Json.arr (l.map Json.num)) v.age_range := by
  rw [roundE, lookup_sorted_canon_clean]
  simp only [Voice.asdictEntries]
  rw [lookup_clean_pass _ _ _ _ (by decide), lookup_clean_pass _ _ _ _ (by decide), lookup_clean_pass _ _ _ _ (by decide), lookup_clean_pass _ _ _ _ (by decide)]
  cases v.age_range with
  | none =>
    simp only [oJson]
    rw [lookup_clean_null, lookup_clean_pass _ _ _ _ (by decide)]
    rfl
  | some l =>
    simp only [oJson]
    rw [lookup_clean_hit _ _ _ (fun h => Json.noConfusion h)]
    show some (Json.canon (Json.arr (Json.cleanList (l.map Json.num)))) = _
    rw [cleanList_map_num]
    show some (Json.arr (Json.canonList (l.map Json.num))) = _
    rw [canonList_map_num]
    rfl

theorem voiceE_tags (v : Voice) :
    lookupKey (roundE (Voice.asdictEntries v)) "tags" =
      Option.map (fun l => Json.arr (l.map Json.str)) v.tags := by
  rw [roundE, lookup_sorted_canon_clean]
  simp only [Voice.asdictEntries]
  rw [lookup_clean_pass _ _ _ _ (by decide), lookup_clean_pass _ _ _ _ (by decide), lookup_clean_pass _ _ _ _ (by decide), lookup_clean_pass _ _ _ _ (by decide), lookup_clean_pass _ _ _ _ (by decide)]
  cases v.tags with
  | none =>
    simp only [oJson]
    rw [lookup_clean_null]
    rfl
  | some l =>
    simp only [oJson]
    rw [lookup_clean_hit _ _ _ (fun h => Json.noConfusion h)]
    show some (Json.canon (Json.arr (Json.cleanList (l.map Json.str)))) = _
    rw [cleanList_map_str]
    show some (Json.arr (Json.canonList (l.map Json.str))) = _
    rw [canonList_map_str]
    rfl

/-- `Voice(**...)` round-trips every field through clean/sort/canon. -/
theorem parseVoice_roundtrip (v : Voice) :
    parseVoice (Json.canon (Json.clean (Voice.asdict v))) = .ok v := by
  have hA : allowedKeys (roundE (Voice.asdictEntries v))
      ["name", "description", "language", "gender", "age_range", "tags"] = true := by
    rw [roundE]
    refine allowedKeys_roundtrip fun e he => ?_
    simp only [Voice.asdictEntries, List.mem_cons, List.not_mem_nil, or_false] at he
    rcases he with rfl | rfl | rfl | rfl | rfl | rfl <;> rfl
  show parseVoice (Json.obj (roundE (Voice.asdictEntries v))) = .ok v
  rw [parseVoice, if_pos hA, kwStr_of_lookup (voiceE_name v), except_ok_bind,
    kwStr_of_lookup (voiceE_description v), except_ok_bind,
    kwOptStr_of_lookup (voiceE_language v), except_ok_bind,
    kwOptStr_of_lookup (voiceE_gender v), except_ok_bind,
    kwOptIntList_of_lookup (voiceE_age_range v), except_ok_bind,
    kwOptStrList_of_lookup (voiceE_tags v), except_ok_bind]
  rfl

theorem refE_file (r : ReferenceAudio) :
    lookupKey (roundE (ReferenceAudio.asdictEntries r)) "file" = some (Json.str r.file) := by
  rw [roundE, lookup_sorted_canon_clean]
  simp only [ReferenceAudio.asdictEntries]
  rw [lookup_clean_hit _ _ _ (fun h => Json.noConfusion h)]
  rfl

theorem refE_transcript (r : ReferenceAudio) :
    lookupKey (roundE (ReferenceAudio.asdictEntries r)) "transcript" = some (Json.str r.transcript) := by
  rw [roundE, lookup_sorted_canon_clean]
  simp only [ReferenceAudio.asdictEntries]
  rw [lookup_clean_pass _ _ _ _ (by decide)]
  rw [lookup_clean_hit _ _ _ (fun h => Json.noConfusion h)]
  rfl

theorem refE_language (r : ReferenceAudio) :
    lookupKey (roundE (ReferenceAudio.asdictEntries r)) "language" = Option.map Json.str r.language := by
  rw [roundE, lookup_sorted_canon_clean]
  simp only [ReferenceAudio.asdictEntries]
  rw [lookup_clean_pass _ _ _ _ (by decide), lookup_clean_pass _ _ _ _ (by decide)]
  cases r.language with
  | none =>
    simp only [oJson]
    rw [lookup_clean_null, lookup_clean_pass _ _ _ _ (by decide), lookup_clean_pass _ _ _ _ (by decide)]
    rfl
  | some w =>
    simp only [oJson]
    rw [lookup_clean_hit _ _ _ (fun h => Json.noConfusion h)]
    rfl

theorem refE_duration_seconds (r : ReferenceAudio) :
    lookupKey (roundE (ReferenceAudio.asdictEntries r)) "duration_seconds" = Option.map Json.num r.duration_seconds := by
  rw [roundE, lookup_sorted_canon_clean]
  simp only [ReferenceAudio.asdictEntries]
  rw [lookup_clean_pass _ _ _ _ (by decide), lookup_clean_pass _ _ _ _ (by decide), lookup_clean_pass _ _ _ _ (by decide)]
  cases r.duration_seconds with
  | none =>
    simp only [oJson]
    rw [lookup_clean_null, lookup_clean_pass _ _ _ _ (by decide)]
    rfl
  | some w =>
    simp only [oJson]
    rw [lookup_clean_hit _ _ _ (fun h => Json.noConfusion h)]
    rfl

theorem refE_context (r : ReferenceAudio) :
    lookupKey (roundE (ReferenceAudio.asdictEntries r)) "context" = Option.map Json.str r.context := by
  rw [roundE, lookup_sorted_canon_clean]
  simp only [ReferenceAudio.asdictEntries]
  rw [lookup_clean_pass _ _ _ _ (by decide), lookup_clean_pass _ _ _ _ (by decide), lookup_clean_pass _ _ _ _ (by decide), lookup_clean_pass _ _ _ _ (by decide)]
  cases r.context with
  | none =>
    simp only [oJson]
    rw [lookup_clean_null]
    rfl
  | some w =>
    simp only [oJson]
    rw [lookup_clean_hit _ _ _ (fun h => Json.noConfusion h)]
    rfl

/-- `ReferenceAudio(**item)` round-trips every field. -/
theorem parseReferenceAudioItem_roundtrip (r : ReferenceAudio) :
    parseReferenceAudioItem (Json.canon (Json.clean (ReferenceAudio.asdict r))) = .ok r := by
  have hA : allowedKeys (roundE (ReferenceAudio.asdictEntries r))
      ["file", "transcript", "language", "duration_seconds", "context"] = true := by
    rw [roundE]
    refine allowedKeys_roundtrip fun e he => ?_
    simp only [ReferenceAudio.asdictEntries, List.mem_cons, List.not_mem_nil, or_false] at he
    rcases he with rfl | rfl | rfl | rfl | rfl <;> rfl
  show parseReferenceAudioItem (Json.obj (roundE (ReferenceAudio.asdictEntries r))) = .ok r
  rw [parseReferenceAudioItem, if_pos hA, kwStr_of_lookup (refE_file r), except_ok_bind,
    kwStr_of_lookup (refE_transcript r), except_ok_bind,
    kwOptStr_of_lookup (refE_language r), except_ok_bind,
    kwOptNum_of_lookup (refE_duration_seconds r), except_ok_bind,
    kwOptStr_of_lookup (refE_context r), except_ok_bind]
  rfl

theorem provE_method (p : Provenance) :
    lookupKey (roundE (Provenance.asdictEntries p)) "method" = Option.map Json.str p.method := by
  rw [roundE, lookup_sorted_canon_clean]
  simp only [Provenance.asdictEntries]
  cases p.method with
  | none =>
    simp only [oJson]
    rw [lookup_clean_null, lookup_clean_pass _ _ _ _ (by decide), lookup_clean_pass _ _ _ _ (by decide), lookup_clean_pass _ _ _ _ (by decide), lookup_clean_pass _ _ _ _ (by decide)]
    rfl
  | some w =>
    simp only [oJson]
    rw [lookup_clean_hit _ _ _ (fun h => Json.noConfusion h)]
    rfl

theorem provE_engine (p : Provenance) :
    lookupKey (roundE (Provenance.asdictEntries p)) "engine" = Option.map Json.str p.engine := by
  rw [roundE, lookup_sorted_canon_clean]
  simp only [Provenance.asdictEntries]
  rw [lookup_clean_pass _ _ _ _ (by decide)]
  cases p.engine with
  | none =>
    simp only [oJson]
    rw [lookup_clean_null, lookup_clean_pass _ _ _ _ (by decide), lookup_clean_pass _ _ _ _ (by decide), lookup_clean_pass _ _ _ _ (by decide)]
    rfl
  | some w =>
    simp only [oJson]
    rw [lookup_clean_hit _ _ _ (fun h => Json.noConfusion h)]
    rfl

theorem provE_consent (p : Provenance) :
    lookupKey (roundE (Provenance.asdictEntries p)) "consent" = Option.map Json.str p.consent := by
  rw [roundE, lookup_sorted_canon_clean]
  simp only [Provenance.asdictEntries]
  rw [lookup_clean_pass _ _ _ _ (by decide), lookup_clean_pass _ _ _ _ (by decide)]
  cases p.consent with
  | none =>
    simp only [oJson]
    rw [lookup_clean_null, lookup_clean_pass _ _ _ _ (by decide), lookup_clean_pass _ _ _ _ (by decide)]
    rfl
  | some w =>
    simp only [oJson]
    rw [lookup_clean_hit _ _ _ (fun h => Json.noConfusion h)]
    rfl

theorem provE_license (p : Provenance) :
    lookupKey (roundE (Provenance.asdictEntries p)) "license" = Option.map Json.str p.license := by
  rw [roundE, lookup_sorted_canon_clean]
  simp only [Provenance.asdictEntries]
  rw [lookup_clean_pass _ _ _ _ (by decide), lookup_clean_pass _ _ _ _ (by decide), lookup_clean_pass _ _ _ _ (by decide)]
  cases p.license with
  | none =>
    simp only [oJson]
    rw [lookup_clean_null, lookup_clean_pass _ _ _ _ (by decide)]
    rfl
  | some w =>
    simp only [oJson]
    rw [lookup_clean_hit _ _ _ (fun h => Json.noConfusion h)]
    rfl

theorem provE_notes (p : Provenance) :
    lookupKey (roundE (Provenance.asdictEntries p)) "notes" = Option.map Json.str p.notes := by
  rw [roundE, lookup_sorted_canon_clean]
  simp only [Provenance.asdictEntries]
  rw [lookup_clean_pass _ _ _ _ (by decide), lookup_clean_pass _ _ _ _ (by decide), lookup_clean_pass _ _ _ _ (by decide), lookup_clean_pass _ _ _ _ (by decide)]
  cases p.notes with
  | none =>
    simp only [oJson]
    rw [lookup_clean_null]
    rfl
  | some w =>
    simp only [oJson]
    rw [lookup_clean_hit _ _ _ (fun h => Json.noConfusion h)]
    rfl

/-- `Provenance(**...)` round-trips every field. -/
theorem parseProvenance_roundtrip (p : Provenance) :
    parseProvenance (Json.canon (Json.clean (Provenance.asdict p))) = .ok p := by
  have hA : allowedKeys (roundE (Provenance.asdictEntries p))
      ["method", "engine", "consent", "license", "notes"] = true := by
    rw [roundE]
    refine allowedKeys_roundtrip fun e he => ?_
    simp only [Provenance.asdictEntries, List.mem_cons, List.not_mem_nil, or_false] at he
    rcases he with rfl | rfl | rfl | rfl | rfl <;> rfl
  show parseProvenance (Json.obj (roundE (Provenance.asdictEntries p))) = .ok p
  rw [parseProvenance, if_pos hA, kwOptStr_of_lookup (provE_method p), except_ok_bind,
    kwOptStr_of_lookup (provE_engine p), except_ok_bind,
    kwOptStr_of_lookup (provE_consent p), except_ok_bind,
    kwOptStr_of_lookup (provE_license p), except_ok_bind,
    kwOptStr_of_lookup (provE_notes p), except_ok_bind]
  rfl

theorem charE_role (c : Character) :
    lookupKey (roundE (Character.asdictEntries c)) "role" = Option.map Json.str c.role := by
  rw [roundE, lookup_sorted_canon_clean]
  simp only [Character.asdictEntries]
  cases c.role with
  | none =>
    simp only [oJson]
    rw [lookup_clean_null, lookup_clean_pass _ _ _ _ (by decide), lookup_clean_pass _ _ _ _ (by decide), lookup_clean_pass _ _ _ _ (by decide)]
    rfl
  | some w =>
    simp only [oJson]
    rw [lookup_clean_hit _ _ _ (fun h => Json.noConfusion h)]
    rfl

theorem charE_emotional_range (c : Character) :
    lookupKey (roundE (Character.asdictEntries c)) "emotional_range" =
      Option.map (fun l => Json.arr (l.map Json.str)) c.emotional_range := by
  rw [roundE, lookup_sorted_canon_clean]
  simp only [Character.asdictEntries]
  rw [lookup_clean_pass _ _ _ _ (by decide)]
  cases c.emotional_range with
  | none =>
    simp only [oJson]
    rw [lookup_clean_null, lookup_clean_pass _ _ _ _ (by decide), lookup_clean_pass _ _ _ _ (by decide)]
    rfl
  | some l =>
    simp only [oJson]
    rw [lookup_clean_hit _ _ _ (fun h => Json.noConfusion h)]
    show some (Json.canon (Json.arr (Json.cleanList (l.map Json.str)))) = _
    rw [cleanList_map_str]
    show some (Json.arr (Json.canonList (l.map Json.str))) = _
    rw [canonList_map_str]
    rfl

theorem charE_relationships (c : Character) :
    lookupKey (roundE (Character.asdictEntries c)) "relationships" =
      Option.map (fun l => Json.obj (l.map fun e => (e.1, Json.str e.2)))
        (c.relationships.map sortRelByKey) := by
  rw [roundE, lookup_sorted_canon_clean]
  simp only [Character.asdictEntries]
  rw [lookup_clean_pass _ _ _ _ (by decide), lookup_clean_pass _ _ _ _ (by decide)]
  cases c.relationships with
  | none =>
    simp only [oJson]
    rw [lookup_clean_null, lookup_clean_pass _ _ _ _ (by decide)]
    rfl
  | some l =>
    simp only [oJson]
    rw [lookup_clean_hit _ _ _ (fun h => Json.noConfusion h)]
    show some (Json.canon (Json.obj (Json.cleanEntries
      (l.map fun e => (e.1, Json.str e.2))))) = _
    rw [cleanEntries_map_strPair]
    show some (Json.obj (sortEntriesByKey (Json.canonEntries
      (l.map fun e => (e.1, Json.str e.2))))) = _
    rw [canonEntries_map_strPair, sortEntries_map_strPair]
    rfl

theorem charE_source (c : Character) :
    lookupKey (roundE (Character.asdictEntries c)) "source" =
      Option.map (fun s => Json.canon (Json.clean (Source.asdict s))) c.source := by
  rw [roundE, lookup_sorted_canon_clean]
  simp only [Character.asdictEntries]
  rw [lookup_clean_pass _ _ _ _ (by decide), lookup_clean_pass _ _ _ _ (by decide),
    lookup_clean_pass _ _ _ _ (by decide)]
  cases c.source with
  | none =>
    simp only [oJson]
    rw [lookup_clean_null]
    rfl
  | some s =>
    simp only [oJson]
    rw [lookup_clean_hit _ _ _ (fun h => Json.noConfusion h)]
    rfl

/-- `Character(**...)` round-trips, the `relationships` dict coming back
key-sorted (`sort_keys=True` reordered its items on the way out). -/
theorem parseCharacter_roundtrip (c : Character)
    (hs : ∀ s, c.source = some s → ((Source.asdict s).clean).truthy = true) :
    parseCharacter (Json.canon (Json.clean (Character.asdict c))) =
      .ok { role := c.role, emotional_range := c.emotional_range,
            relationships := c.relationships.map sortRelByKey, source := c.source } := by
  have hA : allowedKeys (roundE (Character.asdictEntries c))
      ["role", "emotional_range", "relationships", "source"] = true := by
    rw [roundE]
    refine allowedKeys_roundtrip fun e he => ?_
    simp only [Character.asdictEntries, List.mem_cons, List.not_mem_nil, or_false] at he
    rcases he with rfl | rfl | rfl | rfl <;> rfl
  have hsrc : charSourceStage (roundE (Character.asdictEntries c)) = .ok c.source := by
    cases hcs : c.source with
    | none =>
      apply charSourceStage_lookup_none
      have h := charE_source c
      rw [hcs] at h
      exact h
    | some s =>
      refine charSourceStage_lookup_ok ?_ ?_ (parseSource_roundtrip s)
      · have h := charE_source c
        rw [hcs] at h
        exact h
      · rw [truthy_canon]
        exact hs s hcs
  show parseCharacter (Json.obj (roundE (Character.asdictEntries c))) = _
  rw [parseCharacter, if_pos hA, hsrc, except_ok_bind,
    kwOptStr_of_lookup (charE_role c), except_ok_bind,
    kwOptStrList_of_lookup (charE_emotional_range c), except_ok_bind,
    kwOptStrDict_of_lookup (charE_relationships c), except_ok_bind]
  rfl

theorem topE_vox_version (m : VoxManifest) :
    lookupKey (roundE m.asdictEntries) "vox_version" = some (Json.str m.vox_version) := by
  rw [roundE, lookup_sorted_canon_clean]
  simp only [VoxManifest.asdictEntries]
  rw [lookup_clean_hit _ _ _ (fun h => Json.noConfusion h)]
  rfl

theorem topE_id (m : VoxManifest) :
    lookupKey (roundE m.asdictEntries) "id" = some (Json.str m.id) := by
  rw [roundE, lookup_sorted_canon_clean]
  simp only [VoxManifest.asdictEntries]
  rw [lookup_clean_pass _ _ _ _ (by decide)]
  rw [lookup_clean_hit _ _ _ (fun h => Json.noConfusion h)]
  rfl

theorem topE_created (m : VoxManifest) :
    lookupKey (roundE m.asdictEntries) "created" = some (Json.str m.created) := by
  rw [roundE, lookup_sorted_canon_clean]
  simp only [VoxManifest.asdictEntries]
  rw [lookup_clean_pass _ _ _ _ (by decide), lookup_clean_pass _ _ _ _ (by decide)]
  rw [lookup_clean_hit _ _ _ (fun h => Json.noConfusion h)]
  rfl

theorem topE_voice (m : VoxManifest) :
    lookupKey (roundE m.asdictEntries) "voice" =
      some (Json.canon (Json.clean (Voice.asdict m.voice))) := by
  rw [roundE, lookup_sorted_canon_clean]
  simp only [VoxManifest.asdictEntries]
  rw [lookup_clean_pass _ _ _ _ (by decide), lookup_clean_pass _ _ _ _ (by decide), lookup_clean_pass _ _ _ _ (by decide)]
  rw [lookup_clean_hit _ _ _ (fun h => Json.noConfusion h)]
  rfl

theorem topE_prosody (m : VoxManifest) :
    lookupKey (roundE m.asdictEntries) "prosody" =
      Option.map (fun p => Json.canon (Json.clean (Prosody.asdict p))) m.prosody := by
  rw [roundE, lookup_sorted_canon_clean]
  simp only [VoxManifest.asdictEntries]
  rw [lookup_clean_pass _ _ _ _ (by decide), lookup_clean_pass _ _ _ _ (by decide), lookup_clean_pass _ _ _ _ (by decide), lookup_clean_pass _ _ _ _ (by decide)]
  cases m.prosody with
  | none =>
    simp only [oJson]
    rw [lookup_clean_null, lookup_clean_pass _ _ _ _ (by decide), lookup_clean_pass _ _ _ _ (by decide), lookup_clean_pass _ _ _ _ (by decide), lookup_clean_pass _ _ _ _ (by decide)]
    rfl
  | some x =>
    simp only [oJson]
    rw [lookup_clean_hit _ _ _ (fun h => Json.noConfusion h)]
    rfl

theorem topE_reference_audio (m : VoxManifest) :
    lookupKey (roundE m.asdictEntries) "reference_audio" =
      Option.map (fun l => Json.canon (Json.clean (Json.arr (l.map ReferenceAudio.asdict)))) m.reference_audio := by
  rw [roundE, lookup_sorted_canon_clean]
  simp only [VoxManifest.asdictEntries]
  rw [lookup_clean_pass _ _ _ _ (by decide), lookup_clean_pass _ _ _ _ (by decide), lookup_clean_pass _ _ _ _ (by decide), lookup_clean_pass _ _ _ _ (by decide), lookup_clean_pass _ _ _ _ (by decide)]
  cases m.reference_audio with
  | none =>
    simp only [oJson]
    rw [lookup_clean_null, lookup_clean_pass _ _ _ _ (by decide), lookup_clean_pass _ _ _ _ (by decide), lookup_clean_pass _ _ _ _ (by decide)]
    rfl
  | some x =>
    simp only [oJson]
    rw [lookup_clean_hit _ _ _ (fun h => Json.noConfusion h)]
    rfl

theorem topE_character (m : VoxManifest) :
    lookupKey (roundE m.asdictEntries) "character" =
      Option.map (fun c => Json.canon (Json.clean (Character.asdict c))) m.character := by
  rw [roundE, lookup_sorted_canon_clean]
  simp only [VoxManifest.asdictEntries]
  rw [lookup_clean_pass _ _ _ _ (by decide), lookup_clean_pass _ _ _ _ (by decide), lookup_clean_pass _ _ _ _ (by decide), lookup_clean_pass _ _ _ _ (by decide), lookup_clean_pass _ _ _ _ (by decide), lookup_clean_pass _ _ _ _ (by decide)]
  cases m.character with
  | none =>
    simp only [oJson]
    rw [lookup_clean_null, lookup_clean_pass _ _ _ _ (by decide), lookup_clean_pass _ _ _ _ (by decide)]
    rfl
  | some x =>
    simp only [oJson]
    rw [lookup_clean_hit _ _ _ (fun h => Json.noConfusion h)]
    rfl

theorem topE_provenance (m : VoxManifest) :
    lookupKey (roundE m.asdictEntries) "provenance" =
      Option.map (fun p => Json.canon (Json.clean (Provenance.asdict p))) m.provenance := by
  rw [roundE, lookup_sorted_canon_clean]
  simp only [VoxManifest.asdictEntries]
  rw [lookup_clean_pass _ _ _ _ (by decide), lookup_clean_pass _ _ _ _ (by decide), lookup_clean_pass _ _ _ _ (by decide), lookup_clean_pass _ _ _ _ (by decide), lookup_clean_pass _ _ _ _ (by decide), lookup_clean_pass _ _ _ _ (by decide), lookup_clean_pass _ _ _ _ (by decide)]
  cases m.provenance with
  | none =>
    simp only [oJson]
    rw [lookup_clean_null, lookup_clean_pass _ _ _ _ (by decide)]
    rfl
  | some x =>
    simp only [oJson]
    rw [lookup_clean_hit _ _ _ (fun h => Json.noConfusion h)]
    rfl

theorem topE_extensions (m : VoxManifest) :
    lookupKey (roundE m.asdictEntries) "extensions" =
      (m.extensions.bind fun j =>
        if j = Json.null then none else some (Json.canon j.clean)) := by
  rw [roundE, lookup_sorted_canon_clean]
  simp only [VoxManifest.asdictEntries]
  rw [lookup_clean_pass _ _ _ _ (by decide), lookup_clean_pass _ _ _ _ (by decide), lookup_clean_pass _ _ _ _ (by decide), lookup_clean_pass _ _ _ _ (by decide), lookup_clean_pass _ _ _ _ (by decide), lookup_clean_pass _ _ _ _ (by decide), lookup_clean_pass _ _ _ _ (by decide), lookup_clean_pass _ _ _ _ (by decide)]
  cases m.extensions with
  | none =>
    simp only [oJson]
    rw [lookup_clean_null]
    rfl
  | some j =>
    simp only [oJson]
    by_cases hj : j = Json.null
    · subst hj
      rw [lookup_clean_null]
      rfl
    · rw [lookup_clean_hit _ _ _ hj]
      show some (Json.canon j.clean) = _
      rw [show ((some j).bind fun j => if j = Json.null then none
        else some (Json.canon j.clean)) = if j = Json.null then none
        else some (Json.canon j.clean) from rfl, if_neg hj]

theorem mapM_refItem_roundtrip (l : List ReferenceAudio) :
    (Json.canonList (Json.cleanList (l.map ReferenceAudio.asdict))).mapM
      parseReferenceAudioItem = Except.ok l := by
  induction l with
  | nil => rfl
  | cons r rs ih =>
    show (Json.canon (Json.clean (ReferenceAudio.asdict r)) ::
      Json.canonList (Json.cleanList (rs.map ReferenceAudio.asdict))).mapM
        parseReferenceAudioItem = _
    rw [List.mapM_cons, parseReferenceAudioItem_roundtrip, except_ok_bind, ih,
      except_ok_bind]
    rfl

/-- The `reference_audio` list section round-trips element-wise. -/
theorem parseReferenceAudioList_roundtrip (l : List ReferenceAudio) :
    parseReferenceAudioList
      (Json.canon (Json.clean (Json.arr (l.map ReferenceAudio.asdict)))) = .ok l := by
  show parseReferenceAudioList (Json.arr (Json.canonList
    (Json.cleanList (l.map ReferenceAudio.asdict)))) = _
  rw [parseReferenceAudioList]
  exact mapM_refItem_roundtrip l

/-- A voice dict survives `_clean_dict` non-empty: `name` and
`description` are plain strings, never `None`. -/
theorem voice_clean_truthy (v : Voice) : ((Voice.asdict v).clean).truthy = true := rfl

/-- `Character` with `relationships` re-sorted by key — what the
round trip hands back (`sort_keys=True` reordered the dict items). -/
def sortCharacter (c : Character) : Character :=
  { role := c.role, emotional_range := c.emotional_range,
    relationships := c.relationships.map sortRelByKey, source := c.source }

/-- The manifest value `from_dict (loads (m.to_json()))` produces:
everything as in `m` except that the `relationships` dict items come back
key-sorted and `extensions` comes back recursively key-sorted (`None`
when it was absent or `null`). -/
def decodedManifest (m : VoxManifest) : VoxManifest :=
  { vox_version := m.vox_version, id := m.id, created := m.created,
    voice := m.voice, prosody := m.prosody,
    reference_audio := m.reference_audio,
    character := m.character.map sortCharacter, provenance := m.provenance,
    extensions := m.extensions.bind fun j =>
      if j = Json.null then none else some j.canon }

/-- Under the niceness hypotheses (present optional sections survive
cleaning non-empty; a present `character.source` does too; a present
`reference_audio` list is non-empty; a present `extensions` tree is fixed
by `_clean_dict`, i.e. has no `None` dict values anywhere), decoding the
serialized manifest succeeds and produces exactly `decodedManifest m`. -/
theorem from_dict_roundtrip_eq (m : VoxManifest)
    (hp : m.prosody.all (fun p => ((Prosody.asdict p).clean).truthy) = true)
    (hr : m.reference_audio.all (fun l => !l.isEmpty) = true)
    (hc : m.character.all (fun c => ((Character.asdict c).clean).truthy &&
      c.source.all fun s => ((Source.asdict s).clean).truthy) = true)
    (hv : m.provenance.all (fun p => ((Provenance.asdict p).clean).truthy) = true)
    (he : m.extensions.all (fun j => decide (j.clean = j)) = true) :
    VoxManifest.from_dict (Json.canon m.to_dict) = .ok (decodedManifest m) := by
  have hvoice : voiceStage (roundE m.asdictEntries) = .ok m.voice := by
    refine voiceStage_lookup_ok (topE_voice m) ?_ (parseVoice_roundtrip m.voice)
    rw [truthy_canon]
    exact voice_clean_truthy m.voice
  have hpros : sectionStage parseProsody (roundE m.asdictEntries) "prosody" =
      .ok m.prosody := by
    cases hps : m.prosody with
    | none =>
      apply sectionStage_lookup_none
      have h := topE_prosody m
      rw [hps] at h
      exact h
    | some p =>
      have h := topE_prosody m
      rw [hps] at h
      rw [hps] at hp
      refine sectionStage_lookup_ok h ?_ (parseProsody_roundtrip p)
      rw [truthy_canon]
      exact hp
  have href : sectionStage parseReferenceAudioList (roundE m.asdictEntries)
      "reference_audio" = .ok m.reference_audio := by
    cases hrs : m.reference_audio with
    | none =>
      apply sectionStage_lookup_none
      have h := topE_reference_audio m
      rw [hrs] at h
      exact h
    | some l =>
      have h := topE_reference_audio m
      rw [hrs] at h
      rw [hrs] at hr
      obtain ⟨r0, rs, rfl⟩ : ∃ r0 rs, l = r0 :: rs := by
        cases l with
        | nil => exact Bool.noConfusion hr
        | cons a b => exact ⟨a, b, rfl⟩
      refine sectionStage_lookup_ok h ?_ (parseReferenceAudioList_roundtrip (r0 :: rs))
      rw [truthy_canon]
      rfl
  have hchar : sectionStage parseCharacter (roundE m.asdictEntries) "character" =
      .ok (m.character.map sortCharacter) := by
    cases hcs : m.character with
    | none =>
      apply sectionStage_lookup_none
      have h := topE_character m
      rw [hcs] at h
      exact h
    | some c =>
      have h := topE_character m
      rw [hcs] at h
      rw [hcs] at hc
      have hc2 : ((Character.asdict c).clean).truthy = true ∧
          (c.source.all fun s => ((Source.asdict s).clean).truthy) = true := by
        simpa using hc
      refine sectionStage_lookup_ok h ?_ (parseCharacter_roundtrip c ?_)
      · rw [truthy_canon]
        exact hc2.1
      · intro s hss
        have h3 := hc2.2
        rw [hss] at h3
        exact h3
  have hprov : sectionStage parseProvenance (roundE m.asdictEntries) "provenance" =
      .ok m.provenance := by
    cases hps : m.provenance with
    | none =>
      apply sectionStage_lookup_none
      have h := topE_provenance m
      rw [hps] at h
      exact h
    | some p =>
      have h := topE_provenance m
      rw [hps] at h
      rw [hps] at hv
      refine sectionStage_lookup_ok h ?_ (parseProvenance_roundtrip p)
      rw [truthy_canon]
      exact hv
  have hextst : extensionsStage (roundE m.asdictEntries) =
      m.extensions.bind fun j => if j = Json.null then none else some j.canon := by
    cases hes : m.extensions with
    | none =>
      apply extensionsStage_lookup_none
      have h := topE_extensions m
      rw [hes] at h
      exact h
    | some j =>
      rw [hes] at he
      have hcl : j.clean = j := of_decide_eq_true he
      have h := topE_extensions m
      rw [hes] at h
      by_cases hj : j = Json.null
      · subst hj
        show extensionsStage _ = none
        apply extensionsStage_lookup_none
        rw [show ((some Json.null).bind fun j => if j = Json.null then none
          else some (Json.canon j.clean)) = (none : Option Json) from rfl] at h
        exact h
      · rw [show ((some j).bind fun j => if j = Json.null then none
          else some (Json.canon j.clean)) = if j = Json.null then none
          else some (Json.canon j.clean) from rfl, if_neg hj, hcl] at h
        show extensionsStage _ = if j = Json.null then none else some j.canon
        rw [if_neg hj]
        exact extensionsStage_lookup_some h
          (fun hh => hj ((canon_eq_null_iff j).mp hh))
  show VoxManifest.from_dict (Json.obj (roundE m.asdictEntries)) = _
  rw [VoxManifest.from_dict, hvoice, except_ok_bind, hpros, except_ok_bind, href,
    except_ok_bind, hchar, except_ok_bind, hprov, except_ok_bind, hextst,
    kwStr_of_lookup (topE_vox_version m), except_ok_bind,
    kwStr_of_lookup (topE_id m), except_ok_bind,
    kwStr_of_lookup (topE_created m), except_ok_bind]
  rfl

/-- Re-sorting a `Dict[str, str]`'s items is invisible to `canon`. -/
theorem canon_oJson_sortRel (o : Option (List (String × String))) :
    (oJson (fun l => Json.obj (l.map fun e => (e.1, Json.str e.2)))
      (o.map sortRelByKey)).canon =
      (oJson (fun l => Json.obj (l.map fun e => (e.1, Json.str e.2))) o).canon := by
  cases o with
  | none => rfl
  | some l =>
    show Json.obj (sortEntriesByKey (Json.canonEntries
      ((sortRelByKey l).map fun e => (e.1, Json.str e.2)))) =
      Json.obj (sortEntriesByKey (Json.canonEntries
        (l.map fun e => (e.1, Json.str e.2))))
    rw [canonEntries_map_strPair, canonEntries_map_strPair, ← sortEntries_map_strPair,
      sortEntriesByKey_idem]

/-- Re-sorting the `relationships` dict is invisible to `canon` of the
whole character dict. -/
theorem canon_asdict_sortCharacter (c : Character) :
    (Character.asdict (sortCharacter c)).canon = (Character.asdict c).canon := by
  show Json.obj (sortEntriesByKey (Json.canonEntries
    [("role", oJson Json.str c.role),
     ("emotional_range", oJson (fun l => Json.arr (l.map Json.str)) c.emotional_range),
     ("relationships", oJson (fun l => Json.obj (l.map fun e => (e.1, Json.str e.2)))
        (c.relationships.map sortRelByKey)),
     ("source", oJson Source.asdict c.source)])) =
    Json.obj (sortEntriesByKey (Json.canonEntries (Character.asdictEntries c)))
  refine congrArg Json.obj (congrArg sortEntriesByKey ?_)
  simp only [Character.asdictEntries]
  rw [canonEntries_eq_map, canonEntries_eq_map]
  simp only [List.map_cons, List.map_nil]
  rw [canon_oJson_sortRel]

theorem canon_oJson_sortCharacter (o : Option Character) :
    (oJson Character.asdict (o.map sortCharacter)).canon =
      (oJson Character.asdict o).canon := by
  cases o with
  | none => rfl
  | some c => exact canon_asdict_sortCharacter c

/-- Replacing `extensions` by its canon image (or dropping a `null`) is
invisible to `canon`. -/
theorem canon_oJson_extensions (o : Option Json) :
    (oJson (fun j => j)
      (o.bind fun j => if j = Json.null then none else some j.canon)).canon =
      (oJson (fun j => j) o).canon := by
  cases o with
  | none => rfl
  | some j =>
    by_cases hj : j = Json.null
    · subst hj
      rfl
    · show (oJson (fun j => j)
        (if j = Json.null then none else some j.canon)).canon = j.canon
      rw [if_neg hj]
      exact canon_canon j

/-- The decoded manifest is the original, as Python `==` sees values. -/
theorem decodedManifest_pyEq (m : VoxManifest) : (decodedManifest m).pyEq m := by
  rw [VoxManifest.pyEq]
  show Json.obj (sortEntriesByKey (Json.canonEntries
    [("vox_version", Json.str m.vox_version), ("id", Json.str m.id),
     ("created", Json.str m.created), ("voice", Voice.asdict m.voice),
     ("prosody", oJson Prosody.asdict m.prosody),
     ("reference_audio",
       oJson (fun l => Json.arr (l.map ReferenceAudio.asdict)) m.reference_audio),
     ("character", oJson Character.asdict (m.character.map sortCharacter)),
     ("provenance", oJson Provenance.asdict m.provenance),
     ("extensions", oJson (fun j => j) (m.extensions.bind fun j =>
        if j = Json.null then none else some j.canon))])) =
    Json.obj (sortEntriesByKey (Json.canonEntries m.asdictEntries))
  refine congrArg Json.obj (congrArg sortEntriesByKey ?_)
  simp only [VoxManifest.asdictEntries]
  rw [canonEntries_eq_map, canonEntries_eq_map]
  simp only [List.map_cons, List.map_nil]
  rw [canon_oJson_sortCharacter, canon_oJson_extensions]

/-- C1 (amended): for a manifest built from valid field values — present
optional sections that survive `_clean_dict` non-empty (a section whose
fields are all `None` cleans to the empty dict, which is falsy and decodes
back to an ABSENT section), a present `character.source` likewise, a
present `reference_audio` list non-empty, and an `extensions` tree that
`_clean_dict` fixes (no `None`-valued dict entries anywhere inside it) —
decoding the encoded manifest (`loads(m.to_json())` is `Json.canon
m.to_dict`) succeeds and yields a manifest equal to `m` as a Python value
(`pyEq`): every top-level and nested field round-trips, dict key order
excepted (`relationships` and `extensions` dicts come back key-sorted,
which Python `==` cannot see).  The original claim's stronger promise that
`null` values inside `extensions` are preserved exactly is refuted by
`roundtrip_extension_null_lost_cex`. -/
theorem to_json_from_dict_roundtrip (m : VoxManifest)
    (hp : m.prosody.all (fun p => ((Prosody.asdict p).clean).truthy) = true)
    (hr : m.reference_audio.all (fun l => !l.isEmpty) = true)
    (hc : m.character.all (fun c => ((Character.asdict c).clean).truthy &&
      c.source.all fun s => ((Source.asdict s).clean).truthy) = true)
    (hv : m.provenance.all (fun p => ((Provenance.asdict p).clean).truthy) = true)
    (he : m.extensions.all (fun j => decide (j.clean = j)) = true) :
    ∃ m', VoxManifest.from_dict (Json.canon m.to_dict) = .ok m' ∧ m'.pyEq m :=
  ⟨decodedManifest m, from_dict_roundtrip_eq m hp hr hc hv he, decodedManifest_pyEq m⟩

/-- A manifest whose `extensions` holds a dict with a `null` value. -/
def extNullManifest : VoxManifest :=
  { vox_version := "0.1.0", id := "u", created := "t",
    voice := { name := "N", description := "D" },
    extensions := some (.obj [("k", Json.null)]) }

/-- What actually comes back: the `null`-valued entry is gone. -/
def extNullDecoded : VoxManifest :=
  { vox_version := "0.1.0", id := "u", created := "t",
    voice := { name := "N", description := "D" },
    extensions := some (.obj []) }

/-- C1 counterexample: a `null` value inside `extensions` is NOT preserved
by the round trip — `_clean_dict` recurses into `extensions` and strips
`None`-valued entries at every depth, so `{"k": null}` comes back as `{}`:
the decoded manifest differs from the original even as a Python value. -/
theorem roundtrip_extension_null_lost_cex :
    VoxManifest.from_dict (Json.canon extNullManifest.to_dict) = .ok extNullDecoded ∧
    ¬ extNullDecoded.pyEq extNullManifest ∧
    extNullDecoded ≠ extNullManifest := by
  refine ⟨by rfl, ?_, by decide⟩
  rw [VoxManifest.pyEq]
  decide

/-- The character section of the C1 witness manifest: a `relationships`
dict built in non-sorted order and a nested source. -/
def c1WitnessCharacter : Character :=
  { role := some "hero",
    relationships := some [("b", "x"), ("a", "y")],
    source := some { work := some "W" } }

/-- A manifest exercising every optional section for the C1 witness. -/
def c1WitnessManifest : VoxManifest :=
  { vox_version := "0.1.0", id := "550e8400-e29b-41d4-a716-446655440000",
    created := "2025-01-15T10:30:00Z",
    voice := { name := "N", description := "A test description" },
    prosody := some { rate := some "fast" },
    reference_audio := some [{ file := "reference/a.wav", transcript := "hi" }],
    character := some c1WitnessCharacter,
    provenance := some { method := some "tts" },
    extensions := some (.obj [("b", Json.num 2), ("a", Json.str "s")]) }

theorem to_json_from_dict_roundtrip_witness :
    (c1WitnessManifest.prosody.all
      (fun p => ((Prosody.asdict p).clean).truthy) = true) ∧
    (c1WitnessManifest.reference_audio.all (fun l => !l.isEmpty) = true) ∧
    (c1WitnessManifest.character.all
      (fun c => ((Character.asdict c).clean).truthy &&
        c.source.all fun s => ((Source.asdict s).clean).truthy) = true) ∧
    (c1WitnessManifest.provenance.all
      (fun p => ((Provenance.asdict p).clean).truthy) = true) ∧
    (c1WitnessManifest.extensions.all (fun j => decide (j.clean = j)) = true) ∧
    ∃ m', VoxManifest.from_dict (Json.canon c1WitnessManifest.to_dict) = .ok m' ∧
      m'.pyEq c1WitnessManifest :=
  ⟨rfl, rfl, rfl, rfl, rfl,
    to_json_from_dict_roundtrip c1WitnessManifest rfl rfl rfl rfl rfl⟩

/-!
### C3: `write` → `read` round trip

The written archive is `manifest.json`, then `reference/<filename>` for
each reference-audio asset, then the extensions assets verbatim.  The
lemmas below compute the reader's three maps on archives of that shape.
-/

/-- Bind on `Except` over any error type continues on success. -/
theorem exceptE_ok_bind {ε α β : Type} {a : α} {f : α → Except ε β} :
    (Except.ok a >>= f) = f a := rfl

/-- `archive.read` is first-match lookup over the entry list. -/
theorem readEntry_eq_olookup (a : Archive) (p : String) :
    a.readEntry p = olookup a.entries p := by
  rw [Archive.readEntry]
  induction a.entries with
  | nil => rfl
  | cons e t ih =>
    rcases e with ⟨k, v⟩
    by_cases hk : k = p
    · rw [olookup, if_pos hk]
      simp only [List.find?_cons,
        show decide ((k, v).1 = p) = true from by simpa using hk]
    · rw [olookup, if_neg hk]
      simp only [List.find?_cons,
        show decide ((k, v).1 = p) = false from by simpa using hk]
      exact ih

theorem olookup_cons (k0 : String) (v0 : EntryData) (t : List (String × EntryData))
    (k : String) :
    olookup ((k0, v0) :: t) k = if k0 = k then some v0 else olookup t k := rfl

theorem mem_of_olookup_eq_some :
    ∀ {l : List (String × EntryData)} {k : String} {v : EntryData},
      olookup l k = some v → (k, v) ∈ l := by
  intro l
  induction l with
  | nil => intro k v h; exact Option.noConfusion h
  | cons e t ih =>
    intro k v h
    rcases e with ⟨k0, v0⟩
    rw [olookup] at h
    by_cases hk : k0 = k
    · rw [if_pos hk] at h
      obtain rfl := (Option.some.injEq _ _).mp h
      rw [hk]
      exact List.mem_cons_self _ _
    · rw [if_neg hk] at h
      exact List.mem_cons_of_mem _ (ih h)

theorem olookup_of_mem_nodup :
    ∀ {l : List (String × EntryData)}, (l.map Prod.fst).Nodup →
      ∀ {k : String} {v : EntryData}, (k, v) ∈ l → olookup l k = some v := by
  intro l
  induction l with
  | nil => intro _ k v hm; cases hm
  | cons e t ih =>
    intro hnd k v hm
    rcases e with ⟨k0, v0⟩
    rw [List.map_cons, List.nodup_cons] at hnd
    rw [olookup]
    rcases List.mem_cons.mp hm with heq | hm'
    · obtain ⟨rfl, rfl⟩ := Prod.mk.injEq .. |>.mp heq.symm
      rw [if_pos rfl]
    · by_cases hk : k0 = k
      · exfalso
        apply hnd.1
        rw [hk]
        exact List.mem_map.mpr ⟨(k, v), hm', rfl⟩
      · rw [if_neg hk]
        exact ih hnd.2 hm'

theorem strAppend_left_cancel {pre a b : String} (h : pre ++ a = pre ++ b) : a = b := by
  have hd := congrArg String.data h
  rw [String.data_append, String.data_append] at hd
  rcases a with ⟨da⟩
  rcases b with ⟨db⟩
  exact congrArg String.mk (List.append_cancel_left hd)

theorem olookup_map_prefixed (l : List (String × EntryData)) (pre k : String) :
    olookup (l.map fun e => (pre ++ e.1, e.2)) (pre ++ k) = olookup l k := by
  induction l with
  | nil => rfl
  | cons e t ih =>
    rcases e with ⟨k0, v0⟩
    rw [List.map_cons, olookup_cons, olookup_cons]
    by_cases hk : k0 = k
    · rw [if_pos (by rw [hk]), if_pos hk]
    · rw [if_neg (fun hh => hk (strAppend_left_cancel hh)), if_neg hk, ih]

theorem manifest_ne_ref (k : String) : ¬(("manifest.json" : String) = "reference/" ++ k) := by
  intro h
  have hd := congrArg (fun s : String => s.data.head?) h
  exact absurd (Option.some.inj hd) (by decide)

/-- A name under `embeddings/` does not start with `reference/` (and vice
versa): the first characters differ. -/
theorem not_ref_of_embeddings {s : String} (h : strStartsWith s "embeddings/" = true) :
    strStartsWith s "reference/" = false := by
  rcases s with ⟨ds⟩
  cases ds with
  | nil => exact Bool.noConfusion h
  | cons ch t =>
    rw [strStartsWith, show ("embeddings/" : String).data = 'e' :: "mbeddings/".data
      from rfl, List.isPrefixOf] at h
    rw [Bool.and_eq_true] at h
    have hch : 'e' = ch := by
      have := h.1
      simpa using this
    subst hch
    rfl

theorem manifest_not_embeddings :
    strStartsWith "manifest.json" "embeddings/" = false := rfl

theorem ref_not_embeddings (k : String) :
    strStartsWith ("reference/" ++ k) "embeddings/" = false := rfl

theorem ref_startsWith_ref (k : String) :
    strStartsWith ("reference/" ++ k) "reference/" = true := by
  rw [strStartsWith, String.data_append]
  show List.isPrefixOf ("reference/".data) ("reference/".data ++ k.data) = true
  have := List.prefix_append ("reference/".data) k.data
  exact List.isPrefixOf_iff_prefix.mpr this

theorem ref_ne_empty (k : String) : ¬(("reference/" ++ k : String) = "") := by
  intro h
  have hd := congrArg (fun s : String => s.data.head?) h
  exact Option.noConfusion hd

/-- The written archive's entry names are pairwise distinct when the two
asset dicts have distinct keys and the extension keys live under
`embeddings/`: `manifest.json`, `reference/...` and `embeddings/...`
cannot collide across groups. -/
theorem write_keys_nodup (c : VoxFile)
    (R2 : ((c.reference_audio.getD []).map Prod.fst).Nodup)
    (E1 : (c.extensions_files.getD []).all
      (fun e => strStartsWith e.1 "embeddings/" && !isDirName e.1) = true)
    (E2 : ((c.extensions_files.getD []).map Prod.fst).Nodup) :
    ((VoxWriter.write c).entries.map Prod.fst).Nodup := by
  rw [show (VoxWriter.write c).entries = ("manifest.json",
    EntryData.jsonDoc (Json.canon c.manifest.to_dict)) ::
    (((c.reference_audio.getD []).map fun e => ("reference/" ++ e.1, e.2)) ++
      c.extensions_files.getD []) from rfl]
  rw [List.map_cons, List.map_append, List.map_map, List.nodup_cons]
  constructor
  · intro hmem
    rcases List.mem_append.mp hmem with h | h
    · obtain ⟨e, hm, he⟩ := List.mem_map.mp h
      exact manifest_ne_ref e.1 he.symm
    · obtain ⟨e, hm, he⟩ := List.mem_map.mp h
      have h1 := List.all_eq_true.mp E1 e hm
      rw [Bool.and_eq_true] at h1
      have h1 := h1.1
      rw [he] at h1
      exact Bool.noConfusion h1
  · rw [List.nodup_append]
    refine ⟨?_, E2, ?_⟩
    · have heq : ((c.reference_audio.getD []).map
          (Prod.fst ∘ fun e => ("reference/" ++ e.1, e.2))) =
          (((c.reference_audio.getD []).map Prod.fst).map
            fun k => "reference/" ++ k) := by
        rw [List.map_map]
        exact List.map_congr_left fun e _ => rfl
      rw [heq]
      exact R2.map fun a b hab => strAppend_left_cancel hab
    · intro x hx hx2
      obtain ⟨e, hm, he⟩ := List.mem_map.mp hx
      obtain ⟨e2, hm2, he2⟩ := List.mem_map.mp hx2
      have h1 := List.all_eq_true.mp E1 e2 hm2
      rw [Bool.and_eq_true] at h1
      have h1 := h1.1
      rw [he2, ← he] at h1
      have h3 : strStartsWith ("reference/" ++ e.1) "embeddings/" = true := h1
      exact Bool.noConfusion ((ref_not_embeddings e.1).symm.trans h3)

/-- Reading back a `reference/<filename>` path hits exactly that asset. -/
theorem write_readEntry_ref (c : VoxFile)
    (R2 : ((c.reference_audio.getD []).map Prod.fst).Nodup)
    {k : String} {v : EntryData} (hkv : (k, v) ∈ c.reference_audio.getD []) :
    (VoxWriter.write c).readEntry ("reference/" ++ k) = some v := by
  rw [readEntry_eq_olookup]
  rw [show (VoxWriter.write c).entries = ("manifest.json",
    EntryData.jsonDoc (Json.canon c.manifest.to_dict)) ::
    (((c.reference_audio.getD []).map fun e => ("reference/" ++ e.1, e.2)) ++
      c.extensions_files.getD []) from rfl]
  rw [olookup_cons, if_neg (manifest_ne_ref k), olookup_append, olookup_map_prefixed,
    olookup_of_mem_nodup R2 hkv]
  rfl

/-- Reading back an extension asset's own path hits exactly it. -/
theorem write_readEntry_ext (c : VoxFile)
    (R2 : ((c.reference_audio.getD []).map Prod.fst).Nodup)
    (E1 : (c.extensions_files.getD []).all
      (fun e => strStartsWith e.1 "embeddings/" && !isDirName e.1) = true)
    (E2 : ((c.extensions_files.getD []).map Prod.fst).Nodup)
    {e : String × EntryData} (he : e ∈ c.extensions_files.getD []) :
    (VoxWriter.write c).readEntry e.1 = some e.2 := by
  rw [readEntry_eq_olookup]
  have hmem : e ∈ (VoxWriter.write c).entries := by
    show e ∈ ("manifest.json",
      EntryData.jsonDoc (Json.canon c.manifest.to_dict)) ::
      (((c.reference_audio.getD []).map fun e => ("reference/" ++ e.1, e.2)) ++
        c.extensions_files.getD [])
    exact List.mem_cons_of_mem _ (List.mem_append_right _ he)
  exact olookup_of_mem_nodup (write_keys_nodup c R2 E1 E2) hmem

theorem filterMap_eq_map_of_forall {α β : Type} (f : α → Option β) (g : α → β) :
    ∀ l : List α, (∀ x ∈ l, f x = some (g x)) → l.filterMap f = l.map g := by
  intro l
  induction l with
  | nil => intro _; rfl
  | cons a t ih =>
    intro h
    rw [List.filterMap_cons_some (h a (List.mem_cons_self a t)), List.map_cons,
      ih fun x hx => h x (List.mem_cons_of_mem a hx)]

theorem filterMap_eq_nil_of_forall {α β : Type} (f : α → Option β) :
    ∀ l : List α, (∀ x ∈ l, f x = none) → l.filterMap f = [] := by
  intro l
  induction l with
  | nil => intro _; rfl
  | cons a t ih =>
    intro h
    rw [List.filterMap_cons_none (h a (List.mem_cons_self a t)),
      ih fun x hx => h x (List.mem_cons_of_mem a hx)]

/-- The directory scan of the written archive recovers exactly the
reference-audio dict: `manifest.json` and `embeddings/...` entries do not
match the `reference/` filter, and every `reference/<filename>` entry
reads back its own bytes and basenames back to `<filename>`. -/
theorem specScanPairs_of_write (c : VoxFile)
    (R1 : (c.reference_audio.getD []).all (fun e =>
      decide (pathName ("reference/" ++ e.1) = e.1) &&
      !isDirName ("reference/" ++ e.1)) = true)
    (R2 : ((c.reference_audio.getD []).map Prod.fst).Nodup) :
    specScanPairs (VoxWriter.write c) =
      (c.reference_audio.getD []) ++
        (c.extensions_files.getD []).filterMap (fun en =>
          if strStartsWith en.1 "reference/" && !isDirName en.1 then
            ((VoxWriter.write c).readEntry en.1).map fun b => (pathName en.1, b)
          else none) := by
  rw [specScanPairs]
  rw [show (VoxWriter.write c).entries = ("manifest.json",
    EntryData.jsonDoc (Json.canon c.manifest.to_dict)) ::
    (((c.reference_audio.getD []).map fun e => ("reference/" ++ e.1, e.2)) ++
      c.extensions_files.getD []) from rfl]
  rw [List.filterMap_cons_none rfl, List.filterMap_append]
  refine congrArg₂ (· ++ ·) ?_ rfl
  rw [List.filterMap_map]
  refine (filterMap_eq_map_of_forall _ id _ fun x hx => ?_).trans (List.map_id _)
  have hr1 := List.all_eq_true.mp R1 x hx
  rw [Bool.and_eq_true] at hr1
  have hpn : pathName ("reference/" ++ x.1) = x.1 := of_decide_eq_true hr1.1
  show (if (strStartsWith ("reference/" ++ x.1) "reference/" &&
      !isDirName ("reference/" ++ x.1)) = true then
    ((VoxWriter.write c).readEntry ("reference/" ++ x.1)).map
      fun b => (pathName ("reference/" ++ x.1), b)
    else none) = some (id x)
  rw [if_pos (by rw [ref_startsWith_ref, hr1.2]; rfl),
    write_readEntry_ref c R2 (show (x.1, x.2) ∈ _ from hx), Option.map_some', hpn]
  rfl

/-- The scan of the written archive's entries that are not under
`reference/` contributes nothing to the reference map, and the
`embeddings/` scan appends each extension asset exactly once. -/
theorem foldl_ext_append (a : Archive) :
    ∀ (l d0 : List (String × EntryData)),
      (∀ e ∈ l, (strStartsWith e.1 "embeddings/" && !isDirName e.1) = true ∧
        a.readEntry e.1 = some e.2) →
      (∀ e ∈ l, (d0.any fun x => x.1 = e.1) = false) →
      (l.map Prod.fst).Nodup →
      l.foldl (fun d en =>
        if strStartsWith en.1 "embeddings/" && !isDirName en.1 then
          match a.readEntry en.1 with
          | some bytes => dictInsert d en.1 bytes
          | none => d
        else d) d0 = d0 ++ l := by
  intro l
  induction l with
  | nil => intro d0 _ _ _; exact (List.append_nil d0).symm
  | cons e t ih =>
    intro d0 hok hdis hnd
    rw [List.map_cons, List.nodup_cons] at hnd
    have he := hok e (List.mem_cons_self e t)
    have hstep : (if (strStartsWith e.1 "embeddings/" && !isDirName e.1) = true then
        match a.readEntry e.1 with
        | some bytes => dictInsert d0 e.1 bytes
        | none => d0
        else d0) = d0 ++ [e] := by
      rw [if_pos he.1, he.2]
      show dictInsert d0 e.1 e.2 = d0 ++ [e]
      rw [dictInsert, if_neg (by rw [hdis e (List.mem_cons_self e t)]; simp)]
    have harg1 : ∀ x ∈ t, (strStartsWith x.1 "embeddings/" && !isDirName x.1) = true ∧
        a.readEntry x.1 = some x.2 :=
      fun x hx => hok x (List.mem_cons_of_mem _ hx)
    have harg2 : ∀ x ∈ t, ((d0 ++ [e]).any fun y => y.1 = x.1) = false := by
      intro x hx
      rw [List.any_append, hdis x (List.mem_cons_of_mem _ hx)]
      have hne : ¬(e.1 = x.1) := fun hh => hnd.1 (hh ▸ List.mem_map.mpr ⟨x, hx, rfl⟩)
      simp [hne]
    rw [List.foldl_cons, hstep, ih (d0 ++ [e]) harg1 harg2 hnd.2, List.append_assoc]
    rfl

/-- A `manifest.json` entry holding a JSON document that `from_dict`
accepts makes `_read_manifest` succeed with its value. -/
theorem read_manifest_jsonDoc {a : Archive} {j : Json}
    (hj : a.readEntry "manifest.json" = some (.jsonDoc j)) {m : VoxManifest}
    (hm : VoxManifest.from_dict j = .ok m) :
    VoxReader.read_manifest a = .ok m := by
  rw [VoxReader.read_manifest, hj]
  show (match VoxManifest.from_dict j with
    | Except.ok m => (Except.ok m : Except ReadError VoxManifest)
    | Except.error e => Except.error ReadError.invalidManifest) = Except.ok m
  rw [hm]

/-- The `reference/`-scan of the extension assets finds nothing. -/
theorem scan_exts_nil (c : VoxFile)
    (E1 : (c.extensions_files.getD []).all
      (fun e => strStartsWith e.1 "embeddings/" && !isDirName e.1) = true) :
    (c.extensions_files.getD []).filterMap (fun en =>
      if strStartsWith en.1 "reference/" && !isDirName en.1 then
        ((VoxWriter.write c).readEntry en.1).map fun b => (pathName en.1, b)
      else none) = [] := by
  refine filterMap_eq_nil_of_forall _ _ fun x hx => ?_
  have h1 := List.all_eq_true.mp E1 x hx
  rw [Bool.and_eq_true] at h1
  have h2 := not_ref_of_embeddings h1.1
  show (if (strStartsWith x.1 "reference/" && !isDirName x.1) = true then
    ((VoxWriter.write c).readEntry x.1).map fun b => (pathName x.1, b) else none) = none
  rw [if_neg (by rw [h2]; simp)]

theorem specScanPairs_of_write_eq (c : VoxFile)
    (R1 : (c.reference_audio.getD []).all (fun e =>
      decide (pathName ("reference/" ++ e.1) = e.1) &&
      !isDirName ("reference/" ++ e.1)) = true)
    (R2 : ((c.reference_audio.getD []).map Prod.fst).Nodup)
    (E1 : (c.extensions_files.getD []).all
      (fun e => strStartsWith e.1 "embeddings/" && !isDirName e.1) = true) :
    specScanPairs (VoxWriter.write c) = c.reference_audio.getD [] := by
  rw [specScanPairs_of_write c R1 R2, scan_exts_nil c E1, List.append_nil]

/-- Any pair step 1 of the reader produces on the written archive is an
item of the written reference-audio dict. -/
theorem step1_mem_refs (c : VoxFile)
    (R1 : (c.reference_audio.getD []).all (fun e =>
      decide (pathName ("reference/" ++ e.1) = e.1) &&
      !isDirName ("reference/" ++ e.1)) = true)
    (R2 : ((c.reference_audio.getD []).map Prod.fst).Nodup)
    (R3 : ∀ e ∈ c.manifest.reference_audio.getD [], e.file = "" ∨
      ∃ kv ∈ c.reference_audio.getD [], e.file = "reference/" ++ kv.1)
    {x : String × EntryData}
    (hx : x ∈ specStep1Pairs (VoxWriter.write c)
      (c.manifest.reference_audio.getD [])) :
    x ∈ c.reference_audio.getD [] := by
  rw [specStep1Pairs] at hx
  obtain ⟨a, ha, hfa⟩ := List.mem_filterMap.mp hx
  rcases R3 a ha with hemp | ⟨kv, hkv, heq⟩
  · rw [if_pos hemp] at hfa
    exact Option.noConfusion hfa
  · rw [heq, if_neg (ref_ne_empty kv.1),
      write_readEntry_ref c R2 (show (kv.1, kv.2) ∈ _ from hkv),
      Option.map_some'] at hfa
    have hr1 := List.all_eq_true.mp R1 kv hkv
    rw [Bool.and_eq_true] at hr1
    have hpn := of_decide_eq_true hr1.1
    rw [hpn] at hfa
    obtain rfl := (Option.some.injEq _ _).mp hfa
    exact hkv

theorem eq_nil_of_olookup_none {l : List (String × EntryData)}
    (h : ∀ k, olookup l k = none) : l = [] := by
  cases l with
  | nil => rfl
  | cons e t =>
    rcases e with ⟨k0, v0⟩
    have h2 := h k0
    rw [olookup_cons, if_pos rfl] at h2
    exact Option.noConfusion h2

/-- The reference map the reader rebuilds from the written archive agrees
with the written reference-audio dict on every key. -/
theorem read_refaudio_of_write (c : VoxFile)
    (R1 : (c.reference_audio.getD []).all (fun e =>
      decide (pathName ("reference/" ++ e.1) = e.1) &&
      !isDirName ("reference/" ++ e.1)) = true)
    (R2 : ((c.reference_audio.getD []).map Prod.fst).Nodup)
    (R3 : ∀ e ∈ c.manifest.reference_audio.getD [], e.file = "" ∨
      ∃ kv ∈ c.reference_audio.getD [], e.file = "reference/" ++ kv.1)
    (E1 : (c.extensions_files.getD []).all
      (fun e => strStartsWith e.1 "embeddings/" && !isDirName e.1) = true)
    (k : String) :
    olookup (VoxReader.read_reference_audio (VoxWriter.write c)
      (decodedManifest c.manifest)) k =
    olookup (c.reference_audio.getD []) k := by
  have hchar : olookup (VoxReader.read_reference_audio (VoxWriter.write c)
      (decodedManifest c.manifest)) k =
      oor (olookup (specStep1Pairs (VoxWriter.write c)
          (c.manifest.reference_audio.getD [])).reverse k)
        (olookup (specScanPairs (VoxWriter.write c)) k) := by
    rw [VoxReader.read_reference_audio, scan_fold_olookup, step1_fold_olookup]
    simp only [decodedManifest, specScanPairs, olookup, oor_none_right]
  rw [hchar, specScanPairs_of_write_eq c R1 R2 E1]
  rcases hs1 : olookup (specStep1Pairs (VoxWriter.write c)
      (c.manifest.reference_audio.getD [])).reverse k with _ | v
  · rfl
  · have hxmem := step1_mem_refs c R1 R2 R3
      (List.mem_reverse.mp (mem_of_olookup_eq_some hs1))
    rw [olookup_of_mem_nodup R2 hxmem]
    rfl

/-- The reader's `embeddings/` scan of the written archive rebuilds the
extensions dict exactly. -/
theorem read_extensions_of_write (c : VoxFile)
    (E1 : (c.extensions_files.getD []).all
      (fun e => strStartsWith e.1 "embeddings/" && !isDirName e.1) = true)
    (E2 : ((c.extensions_files.getD []).map Prod.fst).Nodup)
    (R2 : ((c.reference_audio.getD []).map Prod.fst).Nodup) :
    VoxReader.read_extensions (VoxWriter.write c) = c.extensions_files.getD [] := by
  have hok : ∀ e ∈ c.extensions_files.getD [],
      (strStartsWith e.1 "embeddings/" && !isDirName e.1) = true ∧
      (VoxWriter.write c).readEntry e.1 = some e.2 := by
    intro e he
    exact ⟨List.all_eq_true.mp E1 e he, write_readEntry_ext c R2 E1 E2 he⟩
  have hdis : ∀ e ∈ c.extensions_files.getD [],
      (([] : List (String × EntryData)).any fun x => x.1 = e.1) = false := by
    intro e _
    rfl
  have hmain := foldl_ext_append (VoxWriter.write c) (c.extensions_files.getD []) []
    hok hdis E2
  have hskip : ∀ (refs d : List (String × EntryData)),
      (refs.map fun e => ("reference/" ++ e.1, e.2)).foldl (fun d en =>
        if strStartsWith en.1 "embeddings/" && !isDirName en.1 then
          match (VoxWriter.write c).readEntry en.1 with
          | some bytes => dictInsert d en.1 bytes
          | none => d
        else d) d = d := by
    intro refs
    induction refs with
    | nil => intro d; rfl
    | cons kv t ihr =>
      intro d
      rw [List.map_cons, List.foldl_cons]
      exact ihr d
  rw [VoxReader.read_extensions]
  rw [show (VoxWriter.write c).entries = ("manifest.json",
    EntryData.jsonDoc (Json.canon c.manifest.to_dict)) ::
    (((c.reference_audio.getD []).map fun e => ("reference/" ++ e.1, e.2)) ++
      c.extensions_files.getD []) from rfl]
  rw [List.foldl_cons, List.foldl_append, hskip]
  exact hmain

/-- C3 (amended): for a container value whose manifest satisfies the C1
round-trip hypotheses, whose reference-audio keys are plain filenames
(their own basename under `reference/`, pairwise distinct), whose
manifest-referenced audio paths are empty or `reference/<key>` for some
asset key, whose extension keys are non-directory paths under
`embeddings/` and pairwise distinct, and whose asset dicts are absent
rather than empty — `read (write c)` succeeds; the manifest comes back
equal to `c.manifest` as a Python value; the reference-audio map holds
exactly the written assets (lookup by key, with absence preserved both
ways); and the extensions map comes back exactly.  Keys NOT under
`embeddings/` are silently dropped by the reader
(`write_read_extensions_loss_cex`), and reference keys with directory
components collapse to basenames, which is why the key hypotheses are
needed. -/
theorem write_read_roundtrip (c : VoxFile)
    (hp : c.manifest.prosody.all
      (fun p => ((Prosody.asdict p).clean).truthy) = true)
    (hr : c.manifest.reference_audio.all (fun l => !l.isEmpty) = true)
    (hc : c.manifest.character.all
      (fun ch => ((Character.asdict ch).clean).truthy &&
        ch.source.all fun s => ((Source.asdict s).clean).truthy) = true)
    (hv : c.manifest.provenance.all
      (fun p => ((Provenance.asdict p).clean).truthy) = true)
    (he : c.manifest.extensions.all (fun j => decide (j.clean = j)) = true)
    (R1 : (c.reference_audio.getD []).all (fun e =>
      decide (pathName ("reference/" ++ e.1) = e.1) &&
      !isDirName ("reference/" ++ e.1)) = true)
    (R2 : ((c.reference_audio.getD []).map Prod.fst).Nodup)
    (R3 : ∀ e ∈ c.manifest.reference_audio.getD [], e.file = "" ∨
      ∃ kv ∈ c.reference_audio.getD [], e.file = "reference/" ++ kv.1)
    (E1 : (c.extensions_files.getD []).all
      (fun e => strStartsWith e.1 "embeddings/" && !isDirName e.1) = true)
    (E2 : ((c.extensions_files.getD []).map Prod.fst).Nodup)
    (N1 : c.reference_audio.all (fun l => !l.isEmpty) = true)
    (N2 : c.extensions_files.all (fun l => !l.isEmpty) = true) :
    ∃ v, VoxReader.read (.zip (VoxWriter.write c)) = .ok v ∧
      v.manifest.pyEq c.manifest ∧
      (∀ k, olookup (v.reference_audio.getD []) k =
        olookup (c.reference_audio.getD []) k) ∧
      (v.reference_audio = none ↔ c.reference_audio = none) ∧
      v.extensions_files = c.extensions_files := by
  have hman : VoxReader.read_manifest (VoxWriter.write c) =
      .ok (decodedManifest c.manifest) :=
    read_manifest_jsonDoc
      (show (VoxWriter.write c).readEntry "manifest.json" =
        some (.jsonDoc (Json.canon c.manifest.to_dict)) from rfl)
      (from_dict_roundtrip_eq c.manifest hp hr hc hv he)
  have hlook : ∀ k, olookup (VoxReader.read_reference_audio (VoxWriter.write c)
      (decodedManifest c.manifest)) k = olookup (c.reference_audio.getD []) k :=
    fun k => read_refaudio_of_write c R1 R2 R3 E1 k
  have hext : VoxReader.read_extensions (VoxWriter.write c) =
      c.extensions_files.getD [] := read_extensions_of_write c E1 E2 R2
  refine ⟨⟨decodedManifest c.manifest,
    if VoxReader.read_reference_audio (VoxWriter.write c)
      (decodedManifest c.manifest) = [] then none
    else some (VoxReader.read_reference_audio (VoxWriter.write c)
      (decodedManifest c.manifest)),
    if VoxReader.read_extensions (VoxWriter.write c) = [] then none
    else some (VoxReader.read_extensions (VoxWriter.write c))⟩, ?_, ?_, ?_, ?_, ?_⟩
  · rw [VoxReader.read, hman, exceptE_ok_bind]
    rfl
  · exact decodedManifest_pyEq c.manifest
  · intro k
    by_cases hra : VoxReader.read_reference_audio (VoxWriter.write c)
        (decodedManifest c.manifest) = []
    · show olookup ((if VoxReader.read_reference_audio (VoxWriter.write c)
        (decodedManifest c.manifest) = [] then none
        else some (VoxReader.read_reference_audio (VoxWriter.write c)
          (decodedManifest c.manifest))).getD []) k = _
      rw [if_pos hra]
      have h2 := hlook k
      rw [hra] at h2
      exact h2
    · show olookup ((if VoxReader.read_reference_audio (VoxWriter.write c)
        (decodedManifest c.manifest) = [] then none
        else some (VoxReader.read_reference_audio (VoxWriter.write c)
          (decodedManifest c.manifest))).getD []) k = _
      rw [if_neg hra]
      exact hlook k
  · constructor
    · intro hnone
      by_cases hra : VoxReader.read_reference_audio (VoxWriter.write c)
          (decodedManifest c.manifest) = []
      · have hrefs : (c.reference_audio.getD []) = [] :=
          eq_nil_of_olookup_none fun k => by
            have h2 := hlook k
            rw [hra] at h2
            exact h2.symm
        cases hcr : c.reference_audio with
        | none => rfl
        | some l =>
          rw [hcr] at hrefs N1
          have hl : l = [] := hrefs
          rw [hl] at N1
          exact Bool.noConfusion N1
      · rw [if_neg hra] at hnone
        exact Option.noConfusion hnone
    · intro hnone
      have hra : VoxReader.read_reference_audio (VoxWriter.write c)
          (decodedManifest c.manifest) = [] :=
        eq_nil_of_olookup_none fun k => (hlook k).trans (by rw [hnone]; rfl)
      rw [if_pos hra]
  · show (if VoxReader.read_extensions (VoxWriter.write c) = [] then none
      else some (VoxReader.read_extensions (VoxWriter.write c))) = c.extensions_files
    cases hce : c.extensions_files with
    | none =>
      have hexnil : VoxReader.read_extensions (VoxWriter.write c) = [] := by
        rw [hext, hce]
        rfl
      rw [if_pos hexnil]
    | some l =>
      have hl : ¬(VoxReader.read_extensions (VoxWriter.write c) = []) := by
        rw [hext, hce]
        intro hh
        have hl2 : l = [] := hh
        rw [hce, hl2] at N2
        exact Bool.noConfusion N2
      rw [if_neg hl, hext, hce]
      rfl

/-- A container with an extension asset whose path is not under
`embeddings/`. -/
def extLossFile : VoxFile :=
  { manifest := {}, extensions_files := some [("foo.bin", EntryData.notUtf8 [1])] }

/-- C3 counterexample: the writer stores extension assets verbatim at
their given paths, but the reader only collects non-directory entries
under `embeddings/` — an extension stored at `foo.bin` is silently lost,
so read(write(c)) does NOT return an extensions map equal to `c`'s. -/
theorem write_read_extensions_loss_cex :
    VoxReader.read (.zip (VoxWriter.write extLossFile)) =
      .ok { manifest := {}, reference_audio := none, extensions_files := none } ∧
    ¬(extLossFile.extensions_files = none) := by
  exact ⟨rfl, fun h => Option.noConfusion h⟩

/-- A container exercising the full archive round trip: the manifest
references `reference/a.wav`, the reference map stores `a.wav`, and one
extension asset lives under `embeddings/`. -/
def c3WitnessFile : VoxFile :=
  { manifest := c1WitnessManifest,
    reference_audio := some [("a.wav", EntryData.notUtf8 [7])],
    extensions_files := some [("embeddings/m.bin", EntryData.notUtf8 [9])] }

theorem write_read_roundtrip_witness :
    (∀ e ∈ c3WitnessFile.manifest.reference_audio.getD [], e.file = "" ∨
      ∃ kv ∈ c3WitnessFile.reference_audio.getD [],
        e.file = "reference/" ++ kv.1) ∧
    ∃ v, VoxReader.read (.zip (VoxWriter.write c3WitnessFile)) = .ok v ∧
      v.manifest.pyEq c3WitnessFile.manifest ∧
      (∀ k, olookup (v.reference_audio.getD []) k =
        olookup (c3WitnessFile.reference_audio.getD []) k) ∧
      (v.reference_audio = none ↔ c3WitnessFile.reference_audio = none) ∧
      v.extensions_files = c3WitnessFile.extensions_files :=
  ⟨by decide,
    write_read_roundtrip c3WitnessFile rfl rfl rfl rfl rfl rfl (by decide)
      (by decide) rfl (by decide) rfl rfl⟩
